import Mathlib

/-!
Storage engine `db`: a shallow embedding of three parts of the sources.

* The buffer pool, `src/storage/buffer/buffer_pool.cpp` (class `db::BufferPool`).
  The pool state is passed explicitly.  A call either returns, throws the
  `std::runtime_error("Failed to allocate frame")`, or dies on a failed `assert`;
  `Outcome` records which.  Assertions are only evaluated when `NDEBUG` is off,
  exactly as the C `assert` macro behaves.
* Typed values, `src/include/common/value.hpp` (class `db::Value`): the checked
  constructor, `DeserializeFrom`, `ConvertToIndexKeyType` and `ComputeArithmetic`.
  `Result` records whether a call returns, throws, dies on an `assert` or reads
  outside its storage.
* The binary serialization framework as `test/storage/serializer_test.cpp` uses it,
  over the `MemoryStream` of `src/include/storage/serializer/memory_stream.hpp`.

The collaborating classes `Page`, `PageId`, `DiskManager`, `PageAllocator` and
`RandomBogoReplacer`, the constants of `common/config.hpp`, the enumerations of
`common/type.hpp` and `common/arithmetic_type.hpp`, and the serializer classes with
their stream implementation are not part of the sources at hand; they are modelled
from the specification and marked as such.
-/

namespace db

/-! ## Types of `common/typedef.hpp` -/

/-- One byte (`using data_t = uint8_t`). -/
abbrev data_t := Fin 256

/-! Frame indices (`using frame_id_t = int32_t`) are natural numbers here: every frame id
the pool ever handles comes from the loop `0 .. pool_size_` of the constructor, so none is
negative.  Page numbers (`using page_id_t = int32_t`) and table identifiers
(`using table_oid_t = int32_t`) are integers. -/

/-! ## Build configuration -/

/-- Modelled from the spec: the compile-time constants of `common/config.hpp`, which is not
among the sources.  `PAGE_SIZE` is the size of a page buffer in bytes; `NDEBUG` tells
whether the build compiles the `assert`s out. -/
structure Config where
  PAGE_SIZE : Nat
  NDEBUG : Bool
  deriving DecidableEq, Repr

/-- Modelled from the spec: `INVALID_PAGE_ID`, the page number `-1` that means "no page"
(`common/config.hpp` is not among the sources). -/
def INVALID_PAGE_ID : Int := -1

/-! ## Collaborators -/

/-- Modelled from the spec: `PageId`, the pair `(table_id, page_number)` of spec section 3;
equality uses both fields.  Its header is not among the sources. -/
structure PageId where
  table_id_ : Int
  page_number_ : Int
  deriving DecidableEq, Repr

/-- Modelled from the spec: the `PageId` of a default-constructed `Page`, which is
invalid (`page_number_ = INVALID_PAGE_ID`). -/
def PageId.invalid : PageId := ⟨0, INVALID_PAGE_ID⟩

/-- Modelled from the spec: the frame contents `Page` of spec section 3 (its header is not
among the sources): the byte buffer and the metadata `page_id_`, `pin_count_`,
`is_dirty_`.  The reader/writer latch plays no part in the sequential behaviour. -/
structure Page where
  data_ : List data_t
  page_id_ : PageId
  pin_count_ : Int
  is_dirty_ : Bool
  deriving DecidableEq, Repr

/-- The all-zero page buffer. -/
def zeroData (cfg : Config) : List data_t := List.replicate cfg.PAGE_SIZE 0

/-- Modelled from the spec: a default-constructed `Page`: invalid `PageId`, zeroed buffer,
zero pin count, not dirty. -/
def Page.fresh (cfg : Config) : Page :=
  { data_ := zeroData cfg, page_id_ := PageId.invalid, pin_count_ := 0, is_dirty_ := false }

/-- Modelled from the spec: `Page::ResetMemory`, which zeroes the buffer and leaves the
metadata alone. -/
def Page.ResetMemory (cfg : Config) (page : Page) : Page :=
  { page with data_ := zeroData cfg }

/-- Modelled from the spec: the state of the `DiskManager` (spec sections 4.1 and 6): the
blocks that have been written, keyed by `PageId` (table file and offset
`page_number * PAGE_SIZE`).  A block that was never written reads as zeros. -/
structure DiskManager where
  blocks : List (PageId × List data_t)
  deriving DecidableEq, Repr

/-- Replace the block stored under `page_id`, or append it when there is none. -/
def writeBlock (page_id : PageId) (data : List data_t) :
    List (PageId × List data_t) → List (PageId × List data_t)
  | [] => [(page_id, data)]
  | (q, d) :: rest =>
    if q = page_id then (q, data) :: rest else (q, d) :: writeBlock page_id data rest

/-- The block stored under `page_id`, if any. -/
def readBlock (page_id : PageId) : List (PageId × List data_t) → Option (List data_t)
  | [] => none
  | (q, d) :: rest => if q = page_id then some d else readBlock page_id rest

/-- Modelled from the spec: `DiskManager::WritePage(page_id, data)`. -/
def DiskManager.WritePage (dm : DiskManager) (page_id : PageId) (data : List data_t) :
    DiskManager :=
  ⟨writeBlock page_id data dm.blocks⟩

/-- Modelled from the spec: `DiskManager::ReadPage(page_id, data)`; the result is what the
call leaves in the buffer.  A never-written page reads as zeros. -/
def DiskManager.ReadPage (cfg : Config) (dm : DiskManager) (page_id : PageId) : List data_t :=
  (readBlock page_id dm.blocks).getD (zeroData cfg)

/-- Modelled from the spec: the per-table `PageAllocator` of spec section 4.2, issuing the
page numbers `next_page_number_`, `next_page_number_ + 1`, ... of its table. -/
structure PageAllocator where
  table_id_ : Int
  next_page_number_ : Nat
  deriving DecidableEq, Repr

/-- Modelled from the spec: `PageAllocator::AllocatePage`: the next `PageId` of the table
and the advanced allocator. -/
def PageAllocator.AllocatePage (a : PageAllocator) : PageId × PageAllocator :=
  (⟨a.table_id_, (a.next_page_number_ : Int)⟩, { a with next_page_number_ := a.next_page_number_ + 1 })

/-- Modelled from the spec: the replacer of spec section 4.3 (`RandomBogoReplacer` is not
among the sources): the set of evictable frames, kept as a list without repetition. -/
structure RandomBogoReplacer where
  evictable : List Nat
  deriving DecidableEq, Repr

/-- Modelled from the spec: `Pin(frame)` removes the frame from the evictable set. -/
def RandomBogoReplacer.Pin (r : RandomBogoReplacer) (frame_id : Nat) :
    RandomBogoReplacer :=
  ⟨r.evictable.filter (fun g => g ≠ frame_id)⟩

/-- Modelled from the spec: `Unpin(frame)` adds the frame to the evictable set. -/
def RandomBogoReplacer.Unpin (r : RandomBogoReplacer) (frame_id : Nat) :
    RandomBogoReplacer :=
  if frame_id ∈ r.evictable then r else ⟨r.evictable ++ [frame_id]⟩

/-- Modelled from the spec: `Evict()` selects and removes some frame of the evictable set,
or reports that the set is empty.  The random number the policy draws is the argument
`draw`: it selects the member at position `draw % size`, so every member can be chosen. -/
def RandomBogoReplacer.Evict (r : RandomBogoReplacer) (draw : Nat) :
    Option (Nat × RandomBogoReplacer) :=
  match r.evictable with
  | [] => none
  | g :: rest =>
    let victim := (g :: rest).getD (draw % (g :: rest).length) g
    some (victim, r.Pin victim)

/-! ## The frame table (`std::unordered_map<PageId, Nat> page_table_`) -/

/-- The frame table, as the list of its entries. -/
abbrev PageTable := List (PageId × Nat)

/-- Lookup of `page_table_.find(page_id)`. -/
def PageTable.find : PageTable → PageId → Option Nat
  | [], _ => none
  | (q, f) :: rest, page_id => if q = page_id then some f else PageTable.find rest page_id

/-- Effect of `page_table_.erase(page_id)`. -/
def PageTable.erase (t : PageTable) (page_id : PageId) : PageTable :=
  t.filter (fun e => e.1 ≠ page_id)

/-- Effect of `page_table_[page_id] = frame_id`: insert or overwrite. -/
def PageTable.assign (t : PageTable) (page_id : PageId) (frame_id : Nat) : PageTable :=
  PageTable.erase t page_id ++ [(page_id, frame_id)]

/-- Effect of `page_table_.insert({page_id, frame_id})`: no effect when the key is present. -/
def PageTable.insert (t : PageTable) (page_id : PageId) (frame_id : Nat) : PageTable :=
  match PageTable.find t page_id with
  | some _ => t
  | none => t ++ [(page_id, frame_id)]

/-! ## The buffer pool -/

/-- State of a `BufferPool`, together with the disk manager it refers to. -/
structure BufferPool where
  pool_size_ : Nat
  replacer_ : RandomBogoReplacer
  disk_manager_ : DiskManager
  pages_ : List Page
  page_table_ : PageTable
  free_list_ : List Nat
  deriving DecidableEq, Repr

/-- How a call ends: it returns a value, it throws
`std::runtime_error("Failed to allocate frame")`, or an `assert` fails and the process
aborts.  The first two carry the pool state the call leaves behind. -/
inductive Outcome (α : Type) where
  | returned (value : α) (pool : BufferPool)
  | thrown (pool : BufferPool)
  | aborted
  deriving DecidableEq, Repr

/-- The frame `pages_[frame_id]`. -/
def BufferPool.page (cfg : Config) (bp : BufferPool) (frame_id : Nat) : Page :=
  bp.pages_.getD frame_id (Page.fresh cfg)

/-- Store `page` in `pages_[frame_id]`. -/
def BufferPool.setPage (bp : BufferPool) (frame_id : Nat) (page : Page) : BufferPool :=
  { bp with pages_ := bp.pages_.set frame_id page }

/-- Constructor `BufferPool::BufferPool(pool_size, disk_manager)`: `pool_size` default pages,
an empty replacer and frame table, and the free list `0, 1, ..., pool_size - 1`. -/
def BufferPool.new (cfg : Config) (pool_size : Nat) (disk_manager : DiskManager) : BufferPool :=
  { pool_size_ := pool_size
    replacer_ := ⟨[]⟩
    disk_manager_ := disk_manager
    pages_ := List.replicate pool_size (Page.fresh cfg)
    page_table_ := []
    free_list_ := List.range pool_size }

/-- Method `BufferPool::AllocateFrame(frame_id)`.  The value is `some frame_id` for `true`
and `none` for `false`. -/
def AllocateFrame (cfg : Config) (bp : BufferPool) (draw : Nat) : Outcome (Option Nat) :=
  match bp.free_list_ with
  | [] =>
    match bp.replacer_.Evict draw with
    | none => .returned none bp
    | some (frame_id, replacer) =>
      let bp : BufferPool := { bp with replacer_ := replacer }
      -- assert(pages_[frame_id].pin_count_ == 0)
      if cfg.NDEBUG = false ∧ (bp.page cfg frame_id).pin_count_ ≠ 0 then .aborted
      -- assert(pages_[frame_id].page_id_.page_number_ >= 0)
      else if cfg.NDEBUG = false ∧ ¬ (0 ≤ (bp.page cfg frame_id).page_id_.page_number_) then .aborted
      else
        let evict_page := bp.page cfg frame_id
        let bp : BufferPool :=
          if evict_page.is_dirty_ then
            { bp with disk_manager_ := bp.disk_manager_.WritePage evict_page.page_id_ evict_page.data_ }
          else bp
        let bp : BufferPool := bp.setPage frame_id ((bp.page cfg frame_id).ResetMemory cfg)
        .returned (some frame_id) bp
  | frame_id :: rest => .returned (some frame_id) { bp with free_list_ := rest }

/-- Method `BufferPool::NewPage(page_allocator, page_id)`.  The value is the frame the
returned `Page &` refers to, the `PageId` stored in `page_id`, and the allocator after the
call. -/
def NewPage (cfg : Config) (bp : BufferPool) (page_allocator : PageAllocator) (draw : Nat) :
    Outcome (Nat × PageId × PageAllocator) :=
  match AllocateFrame cfg bp draw with
  | .aborted => .aborted
  | .thrown bp => .thrown bp
  | .returned none bp => .thrown bp
  | .returned (some frame_id) bp =>
    -- assert(std::find(free_list_.begin(), free_list_.end(), frame_id) == free_list_.end())
    if cfg.NDEBUG = false ∧ frame_id ∈ bp.free_list_ then .aborted
    else
      -- assert(frame_id != -1) holds: frame ids are natural numbers
      let bp : BufferPool := { bp with replacer_ := bp.replacer_.Pin frame_id }
      let Into_replace := (bp.page cfg frame_id).page_id_
      let bp : BufferPool := { bp with page_table_ := bp.page_table_.erase Into_replace }
      let (page_id, page_allocator) := page_allocator.AllocatePage
      let bp : BufferPool := { bp with page_table_ := bp.page_table_.assign page_id frame_id }
      -- assert(page_table_.at(page_id) == frame_id)
      if cfg.NDEBUG = false ∧ bp.page_table_.find page_id ≠ some frame_id then .aborted
      -- assert(page_table_.contains(Into_replace) == false)
      else if cfg.NDEBUG = false ∧ bp.page_table_.find Into_replace ≠ none then .aborted
      else
        let page : Page :=
          { (bp.page cfg frame_id) with page_id_ := page_id, pin_count_ := 1, is_dirty_ := false }
        .returned (frame_id, page_id, page_allocator) (bp.setPage frame_id (page.ResetMemory cfg))

/-- Method `BufferPool::FetchPage(page_id)`.  The value is the frame the returned `Page &`
refers to. -/
def FetchPage (cfg : Config) (bp : BufferPool) (page_id : PageId) (draw : Nat) :
    Outcome Nat :=
  -- assert(page_id.page_number_ != INVALID_PAGE_ID)
  if cfg.NDEBUG = false ∧ page_id.page_number_ = INVALID_PAGE_ID then .aborted
  else
    match bp.page_table_.find page_id with
    | some frame_id =>
      let page := bp.page cfg frame_id
      let bp : BufferPool := bp.setPage frame_id { page with pin_count_ := page.pin_count_ + 1 }
      .returned frame_id { bp with replacer_ := bp.replacer_.Pin frame_id }
    | none =>
      match AllocateFrame cfg bp draw with
      | .aborted => .aborted
      | .thrown bp => .thrown bp
      | .returned none bp => .thrown bp
      | .returned (some frame_id) bp =>
        -- assert(frame_id != -1) holds: frame ids are natural numbers
        let bp : BufferPool := { bp with page_table_ := bp.page_table_.erase (bp.page cfg frame_id).page_id_ }
        let bp : BufferPool := { bp with page_table_ := bp.page_table_.insert page_id frame_id }
        let page := bp.page cfg frame_id
        let page : Page :=
          { page with
            page_id_ := page_id
            pin_count_ := page.pin_count_ + 1
            is_dirty_ := false
            data_ := bp.disk_manager_.ReadPage cfg page_id }
        .returned frame_id (bp.setPage frame_id page)

/-- Method `BufferPool::UnpinPage(page_id, is_dirty)`. -/
def UnpinPage (cfg : Config) (bp : BufferPool) (page_id : PageId) (is_dirty : Bool) :
    Outcome Bool :=
  -- assert(page_id.page_number_ != INVALID_PAGE_ID)
  if cfg.NDEBUG = false ∧ page_id.page_number_ = INVALID_PAGE_ID then .aborted
  else
    match bp.page_table_.find page_id with
    | none =>
      -- LOG_ERROR(...); assert(false); return false;
      if cfg.NDEBUG = false then .aborted else .returned false bp
    | some frame_id =>
      let page := bp.page cfg frame_id
      let page : Page := if is_dirty then { page with is_dirty_ := true } else page
      if page.pin_count_ = 0 then .returned false (bp.setPage frame_id page)
      else
        let page : Page := { page with pin_count_ := page.pin_count_ - 1 }
        let bp : BufferPool := bp.setPage frame_id page
        -- assert(page.pin_count_ >= 0)
        if cfg.NDEBUG = false ∧ ¬ (0 ≤ page.pin_count_) then .aborted
        else if page.pin_count_ = 0 then
          .returned true { bp with replacer_ := bp.replacer_.Unpin frame_id }
        else .returned true bp

/-- Method `BufferPool::FlushPage(page_id)`; it has no assertion and throws nothing. -/
def FlushPage (cfg : Config) (bp : BufferPool) (page_id : PageId) : Bool × BufferPool :=
  match bp.page_table_.find page_id with
  | none => (false, bp)
  | some frame_id =>
    let page := bp.page cfg frame_id
    let bp : BufferPool := { bp with disk_manager_ := bp.disk_manager_.WritePage page_id page.data_ }
    (true, bp.setPage frame_id { page with is_dirty_ := false })

/-- The loop of `FlushAllPages` over the frames listed in `frames`. -/
def flushFrames (cfg : Config) : List Nat → BufferPool → BufferPool
  | [], bp => bp
  | i :: rest, bp => flushFrames cfg rest (FlushPage cfg bp (bp.page cfg i).page_id_).2

/-- Method `BufferPool::FlushAllPages()`: `FlushPage(pages_[i].page_id_)` for
`i = 0, ..., pool_size_ - 1`. -/
def FlushAllPages (cfg : Config) (bp : BufferPool) : BufferPool :=
  flushFrames cfg (List.range bp.pool_size_) bp

/-- Method `BufferPool::DeletePage(page_id)`; it has no assertion and throws nothing. -/
def DeletePage (cfg : Config) (bp : BufferPool) (page_id : PageId) : Bool × BufferPool :=
  match bp.page_table_.find page_id with
  | none => (true, bp)
  | some frame_id =>
    let page := bp.page cfg frame_id
    if 0 < page.pin_count_ then (false, bp)
    else
      let bp : BufferPool := { bp with page_table_ := bp.page_table_.erase page_id }
      let bp : BufferPool := { bp with free_list_ := bp.free_list_ ++ [frame_id] }
      let page := (bp.page cfg frame_id).ResetMemory cfg
      let page : Page :=
        { page with
          page_id_ := { page.page_id_ with page_number_ := INVALID_PAGE_ID }
          pin_count_ := 0
          is_dirty_ := false }
      (true, bp.setPage frame_id page)

/-- A caller that holds the `Page &` of frame `frame_id` overwrites its buffer with
`data` (through `Page::GetData`). -/
def WriteData (bp : BufferPool) (frame_id : Nat) (data : List data_t) : BufferPool :=
  match bp.pages_[frame_id]? with
  | none => bp
  | some page => bp.setPage frame_id { page with data_ := data }

/-! ## Callers: sequences of public operations -/

/-- The pool together with the page allocators of the tables: `allocators t` is the
`next_page_number_` of the allocator of table `t`. -/
structure System where
  pool : BufferPool
  allocators : Int → Nat

/-- A freshly constructed pool of `pool_size` frames over the disk `disk_manager`, with the
allocators at `allocators`. -/
def System.new (cfg : Config) (pool_size : Nat) (disk_manager : DiskManager)
    (allocators : Int → Nat) : System :=
  ⟨BufferPool.new cfg pool_size disk_manager, allocators⟩

/-- One action of a caller: a call of a public method (`draw` is the random number the
replacer draws if the call has to evict), or a write into the buffer of a frame through a
`Page &` obtained earlier. -/
inductive Op where
  | NewPage (table_id : Int) (draw : Nat)
  | FetchPage (page_id : PageId) (draw : Nat)
  | UnpinPage (page_id : PageId) (is_dirty : Bool)
  | FlushPage (page_id : PageId)
  | FlushAllPages
  | DeletePage (page_id : PageId)
  | WriteData (frame_id : Nat) (data : List data_t)
  deriving DecidableEq, Repr

/-- The system after one action; `none` when an assertion failed and the process died.  A
call that throws leaves the caller with the state at the `throw`. -/
def step (cfg : Config) (w : System) : Op → Option System
  | .NewPage table_id draw =>
    match NewPage cfg w.pool ⟨table_id, w.allocators table_id⟩ draw with
    | .returned (_, _, a) bp =>
      some ⟨bp, fun t => if t = table_id then a.next_page_number_ else w.allocators t⟩
    | .thrown bp => some { w with pool := bp }
    | .aborted => none
  | .FetchPage page_id draw =>
    match FetchPage cfg w.pool page_id draw with
    | .returned _ bp => some { w with pool := bp }
    | .thrown bp => some { w with pool := bp }
    | .aborted => none
  | .UnpinPage page_id is_dirty =>
    match UnpinPage cfg w.pool page_id is_dirty with
    | .returned _ bp => some { w with pool := bp }
    | .thrown bp => some { w with pool := bp }
    | .aborted => none
  | .FlushPage page_id => some { w with pool := (FlushPage cfg w.pool page_id).2 }
  | .FlushAllPages => some { w with pool := FlushAllPages cfg w.pool }
  | .DeletePage page_id => some { w with pool := (DeletePage cfg w.pool page_id).2 }
  | .WriteData frame_id data => some { w with pool := WriteData w.pool frame_id data }

/-- The system after a sequence of actions; `none` when one of them died on an assertion. -/
def run (cfg : Config) : System → List Op → Option System
  | w, [] => some w
  | w, op :: ops =>
    match step cfg w op with
    | none => none
    | some w' => run cfg w' ops

/-- The states a pool of `pool_size` frames can be in: those a sequence of actions leads to
from construction (over any disk contents and allocator positions). -/
def Reachable (cfg : Config) (pool_size : Nat) (w : System) : Prop :=
  ∃ disk_manager allocators ops,
    run cfg (System.new cfg pool_size disk_manager allocators) ops = some w

/-! ## Invariants -/

/-- The frame table and the free list fit the frames: every entry `(p, f)` of the frame
table names an existing frame that holds page `p` and is not on the free list; no `PageId`
has two entries; the free list and the evictable set name existing frames; the free list has
no repetition, and its frames carry an invalid page number and no pin. -/
structure Coherent (cfg : Config) (bp : BufferPool) : Prop where
  pages_length : bp.pages_.length = bp.pool_size_
  table_page : ∀ p f, (p, f) ∈ bp.page_table_ →
    f < bp.pool_size_ ∧ (bp.page cfg f).page_id_ = p ∧ f ∉ bp.free_list_
  keys_nodup : (bp.page_table_.map Prod.fst).Nodup
  free_nodup : bp.free_list_.Nodup
  free_lt : ∀ f ∈ bp.free_list_, f < bp.pool_size_
  free_page : ∀ f ∈ bp.free_list_,
    (bp.page cfg f).page_id_.page_number_ = INVALID_PAGE_ID ∧ (bp.page cfg f).pin_count_ = 0
  evictable_lt : ∀ f ∈ bp.replacer_.evictable, f < bp.pool_size_

/-! ## Concrete scenarios -/

/-- A fresh system of `pool_size` frames over an empty disk, all allocators at page 0. -/
def System.fresh (cfg : Config) (pool_size : Nat) : System :=
  System.new cfg pool_size ⟨[]⟩ (fun _ => 0)

/-- The system a sequence of actions leads to from `System.fresh` (the fresh system itself
when an assertion fails on the way). -/
def scenario (cfg : Config) (pool_size : Nat) (ops : List Op) : System :=
  (run cfg (System.fresh cfg pool_size) ops).getD (System.fresh cfg pool_size)

/-- A debug build (assertions on) with four-byte pages. -/
def debugBuild : Config := ⟨4, false⟩

/-- A release build (assertions compiled out) with four-byte pages. -/
def releaseBuild : Config := ⟨4, true⟩

/-- Two pages are created, the first is unpinned and deleted. -/
def opsCreateTwoDeleteOne : List Op :=
  [.NewPage 0 0, .NewPage 0 0, .UnpinPage ⟨0, 0⟩ false, .DeletePage ⟨0, 0⟩]

/-! ## Callers that keep to the allocator -/

/-- The allocator of its table has issued `page_id`: the page number is one of
`0, ..., next_page_number_ - 1`. -/
def Issued (allocators : Int → Nat) (page_id : PageId) : Prop :=
  0 ≤ page_id.page_number_ ∧ page_id.page_number_ < (allocators page_id.table_id_ : Int)

instance (allocators : Int → Nat) (page_id : PageId) : Decidable (Issued allocators page_id) := by
  unfold Issued; infer_instance

/-- Sequences of actions each of which is allowed (by `allowed`) in the state it starts
from, and none of which dies on an assertion. -/
inductive Steps (cfg : Config) (allowed : System → Op → Prop) : System → System → Prop where
  | refl (w : System) : Steps cfg allowed w w
  | step {w w1 w2 : System} {op : Op} :
      Steps cfg allowed w w1 → allowed w1 op → step cfg w1 op = some w2 → Steps cfg allowed w w2

/-- The action fetches no page that the allocator of its table has not issued. -/
def FetchesIssued (w : System) : Op → Prop
  | .FetchPage page_id _ => Issued w.allocators page_id
  | _ => True

/-- The states a pool of `pool_size` frames can be in when callers fetch only pages that the
allocators have issued. -/
def ReachableFetchingIssued (cfg : Config) (pool_size : Nat) (w : System) : Prop :=
  ∃ disk_manager allocators,
    Steps cfg FetchesIssued (System.new cfg pool_size disk_manager allocators) w

/-- The invariant of those states: the pool is coherent, every frame is on the free list or
in the frame table, every resident page has been issued, and the free list and the frame
table together count `pool_size_` entries. -/
structure Tidy (cfg : Config) (w : System) : Prop where
  coherent : Coherent cfg w.pool
  covered : ∀ f, f < w.pool.pool_size_ →
    f ∈ w.pool.free_list_ ∨ ∃ p, (p, f) ∈ w.pool.page_table_
  issued : ∀ p f, (p, f) ∈ w.pool.page_table_ → Issued w.allocators p
  count : w.pool.free_list_.length + w.pool.page_table_.length = w.pool.pool_size_

/-- A page of a table that has issued nothing is fetched, then the table's first page is
created. -/
def opsFetchThenNew : List Op := [.FetchPage ⟨0, 0⟩ 0, .NewPage 0 0]

instance (w : System) (op : Op) : Decidable (FetchesIssued w op) := by
  cases op <;> unfold FetchesIssued <;> infer_instance

/-- The run of a sequence of actions that stops (with `none`) at the first action that is not
allowed or dies on an assertion. -/
def runChecked (cfg : Config) (allowed : System → Op → Prop)
    [∀ w op, Decidable (allowed w op)] : System → List Op → Option System
  | w, [] => some w
  | w, op :: ops =>
    if allowed w op then
      match step cfg w op with
      | none => none
      | some w' => runChecked cfg allowed w' ops
    else none

/-- A page is created and unpinned, a second page is created, the first is fetched again. -/
def opsCreateUnpinCreateFetch : List Op :=
  [.NewPage 0 0, .UnpinPage ⟨0, 0⟩ false, .NewPage 0 0, .FetchPage ⟨0, 0⟩ 0]

/-- A page is created, unpinned and deleted, then fetched again. -/
def opsDeleteThenFetch : List Op :=
  [.NewPage 0 0, .UnpinPage ⟨0, 0⟩ false, .DeletePage ⟨0, 0⟩, .FetchPage ⟨0, 0⟩ 0]

/-- A caller calls `NewPage` once for each `(table_id, draw)` of `calls`, in turn.  The
result is the final system and the `(frame, PageId)` each call yielded; it is `none` as soon
as one call does not return. -/
def newPages (cfg : Config) : System → List (Int × Nat) → Option (System × List (Nat × PageId))
  | w, [] => some (w, [])
  | w, (table_id, draw) :: rest =>
    match NewPage cfg w.pool ⟨table_id, w.allocators table_id⟩ draw with
    | .returned (f, p, a) bp =>
      match newPages cfg
          ⟨bp, fun t => if t = table_id then a.next_page_number_ else w.allocators t⟩ rest with
      | some (w', yields) => some (w', (f, p) :: yields)
      | none => none
    | .thrown _ => none
    | .aborted => none

/-- Every resident page is pinned exactly once and clean, and nothing is evictable: the
situation while a caller only creates pages. -/
structure AllPinned (cfg : Config) (w : System) : Prop where
  tidy : Tidy cfg w
  evictable_nil : w.pool.replacer_.evictable = []
  pinned_clean : ∀ p f, (p, f) ∈ w.pool.page_table_ →
    (w.pool.page cfg f).pin_count_ = 1 ∧ (w.pool.page cfg f).is_dirty_ = false

/-- A page is created, the bytes `1, 2, 3, 4` are written into its frame, and it is unpinned
as dirty. -/
def opsCreateWriteUnpinDirty : List Op :=
  [.NewPage 0 0, .WriteData 0 [1, 2, 3, 4], .UnpinPage ⟨0, 0⟩ true]

/-- The pool of one frame after `opsCreateWriteUnpinDirty`: page `(0, 0)` sits in frame 0,
unpinned and dirty, holding the bytes `1, 2, 3, 4`; the disk is empty. -/
def poolDirtyUnpinned : BufferPool :=
  { pool_size_ := 1
    replacer_ := ⟨[0]⟩
    disk_manager_ := ⟨[]⟩
    pages_ := [⟨[1, 2, 3, 4], ⟨0, 0⟩, 0, true⟩]
    page_table_ := [(⟨0, 0⟩, 0)]
    free_list_ := [] }

/-- The pool `poolDirtyUnpinned` after `AllocateFrame` has evicted frame 0. -/
def poolAfterEviction : BufferPool :=
  { pool_size_ := 1
    replacer_ := ⟨[]⟩
    disk_manager_ := ⟨[(⟨0, 0⟩, [1, 2, 3, 4])]⟩
    pages_ := [⟨[0, 0, 0, 0], ⟨0, 0⟩, 0, true⟩]
    page_table_ := [(⟨0, 0⟩, 0)]
    free_list_ := [] }

/-! ## What a caller may do between a dirty unpin of a page and fetching it again -/

/-- The actions that C5 lets a caller take while page `page_id` waits to be fetched again:
any public call except `DeletePage(page_id)`, with `FetchPage` only of issued pages, and
writes only into frames that do not hold `page_id`. -/
def KeepsPage (page_id : PageId) (w : System) : Op → Prop
  | .FetchPage q _ => Issued w.allocators q
  | .DeletePage q => q ≠ page_id
  | .WriteData frame_id _ => w.pool.page_table_.find page_id ≠ some frame_id
  | _ => True

instance (page_id : PageId) (w : System) (op : Op) : Decidable (KeepsPage page_id w op) := by
  cases op <;> unfold KeepsPage <;> infer_instance

/-- The bytes `B` of page `page_id` are safe: if the page is resident its frame holds `B` and
is dirty or agrees with the disk; if it is not resident the disk holds `B`. -/
def Retains (cfg : Config) (page_id : PageId) (B : List data_t) (bp : BufferPool) : Prop :=
  (∀ f, bp.page_table_.find page_id = some f →
    (bp.page cfg f).data_ = B ∧
      ((bp.page cfg f).is_dirty_ = true ∨ bp.disk_manager_.ReadPage cfg page_id = B)) ∧
  (bp.page_table_.find page_id = none → bp.disk_manager_.ReadPage cfg page_id = B)

/-- What a caller reads through the `Page &` that `FetchPage(page_id)` returns: the buffer of
the frame; `none` when the call does not return. -/
def fetchedData (cfg : Config) (bp : BufferPool) (page_id : PageId) (draw : Nat) :
    Option (List data_t) :=
  match FetchPage cfg bp page_id draw with
  | .returned f bp' => some (bp'.page cfg f).data_
  | .thrown _ => none
  | .aborted => none

/-- A page of a table that has issued nothing is fetched, written and unpinned as dirty;
then the table's first page is created. -/
def opsFetchWriteUnpinThenNew : List Op :=
  [.FetchPage ⟨0, 0⟩ 0, .WriteData 0 [1, 2, 3, 4], .UnpinPage ⟨0, 0⟩ true, .NewPage 0 0]

/-! ## Flushed pages -/

/-- Page `page_id` has nothing left to flush: if it is resident, the disk already holds the
bytes of its frame and the frame is clean. -/
def Flushed (cfg : Config) (bp : BufferPool) (page_id : PageId) : Prop :=
  ∀ f, bp.page_table_.find page_id = some f →
    readBlock page_id bp.disk_manager_.blocks = some (bp.page cfg f).data_ ∧
      (bp.page cfg f).is_dirty_ = false

/-! ## Values (`common/value.hpp`) -/

/-- Modelled from the spec: the enumerators of `TypeId` that `value.hpp` switches over
(`common/type.hpp` is not among the sources). -/
inductive TypeId where
  | INVALID
  | BOOLEAN
  | INTEGER
  | TIMESTAMP
  | VARCHAR
  deriving DecidableEq, Repr

/-- Modelled from the spec: the enumerators of `ArithmeticType` that `ComputeArithmetic`
switches over (`common/arithmetic_type.hpp` is not among the sources). -/
inductive ArithmeticType where
  | Plus
  | Minus
  | Multiply
  deriving DecidableEq, Repr

/-- Modelled from the spec: what `value.hpp` can throw.  `RuntimeException` carries its message
(`common/exception.hpp` is not among the sources); `bad_variant_access` is what `std::get`
throws when the variant holds another alternative. -/
inductive Exception where
  | RuntimeException (message : String)
  | bad_variant_access
  deriving DecidableEq, Repr

/-- How a call that yields an `α` ends: it returns, it throws, it dies on a failed `assert`, or
it reads storage that the caller did not provide (undefined behaviour). -/
inductive Result (α : Type) where
  | ok (value : α)
  | thrown (e : Exception)
  | aborted
  | undefined
  deriving DecidableEq, Repr

/-- The C++ types that reach the template parameter `T` of `Value(TypeId, T &&)`: the four
that `ValueIsCorrectType` names and the `int8_t` that `DeserializeFrom` passes. -/
inductive CppType where
  | uint8_t
  | int8_t
  | int32_t
  | uint64_t
  | string
  deriving DecidableEq, Repr

/-- A constructor argument: its static C++ type with its value.  A `std::string` is its
sequence of bytes. -/
inductive Payload where
  | uint8_t (v : Nat)
  | int8_t (v : Int)
  | int32_t (v : Int)
  | uint64_t (v : Nat)
  | string (s : List data_t)
  deriving DecidableEq, Repr

/-- The operand of `typeid(T)`; references are transparent to `typeid`. -/
def Payload.typeid : Payload → CppType
  | .uint8_t _ => .uint8_t
  | .int8_t _ => .int8_t
  | .int32_t _ => .int32_t
  | .uint64_t _ => .uint64_t
  | .string _ => .string

/-- The variant `using Val = std::variant<int8_t, int32_t, uint64_t, std::string>`. -/
inductive Val where
  | int8_t (v : Int)
  | int32_t (v : Int)
  | uint64_t (v : Nat)
  | string (s : List data_t)
  deriving DecidableEq, Repr

/-- The alternative that `value_(std::forward<T>(value))` selects.  The converting constructor
of `std::variant` leaves out the alternatives that would narrow, so a `uint8_t` is promoted into
the `int32_t` alternative; every other type meets its own alternative. -/
def Payload.toVal : Payload → Val
  | .uint8_t v => .int32_t v
  | .int8_t v => .int8_t v
  | .int32_t v => .int32_t v
  | .uint64_t v => .uint64_t v
  | .string s => .string s

/-- The template `ValueIsCorrectType<T>(type)`. -/
def ValueIsCorrectType (T : CppType) (type : TypeId) : Bool :=
  match type with
  | .BOOLEAN => T = .uint8_t
  | .INTEGER => T = .int32_t
  | .TIMESTAMP => T = .uint64_t
  | .VARCHAR => T = .string
  | _ => false

/-- The class `Value`. -/
structure Value where
  type_id_ : TypeId
  value_ : Val
  is_null_ : Bool
  deriving DecidableEq, Repr

/-- The constructor `explicit Value(TypeId type)`: the variant is value-initialised to its first
alternative, `is_null_ {}` is `false`. -/
def Value.ofType (type : TypeId) : Value :=
  ⟨type, .int8_t 0, false⟩

/-- The constructor `Value(TypeId type, T &&value)`. -/
def Value.new (type : TypeId) (value : Payload) : Result Value :=
  if ValueIsCorrectType value.typeid type = false then
    .thrown (.RuntimeException "Value isn't assigned to the correct type id")
  else
    .ok ⟨type, value.toVal, false⟩

/-- The unsigned number that the first `width` bytes of `storage` spell on a little-endian
machine; `none` when `storage` has fewer bytes. -/
def readLE : Nat → List data_t → Option Nat
  | 0, _ => some 0
  | _ + 1, [] => none
  | width + 1, b :: storage => (readLE width storage).map (fun v => b.val + 256 * v)

/-- The value of a `width`-bit pattern read as a two's-complement signed integer. -/
def toSigned (width : Nat) (raw : Nat) : Int :=
  if raw < 2 ^ (width - 1) then (raw : Int) else (raw : Int) - 2 ^ width

/-- The function `Value::DeserializeFrom(storage, type_id)`.  `storage` is the bytes that can be
read from the pointer on; a read past them is undefined behaviour. -/
def Value.DeserializeFrom (cfg : Config) (storage : List data_t) (type_id : TypeId) :
    Result Value :=
  match type_id with
  | .BOOLEAN =>
    match readLE 1 storage with
    | none => .undefined
    | some val => Value.new type_id (.int8_t (toSigned 8 val))
  | .INTEGER =>
    match readLE 4 storage with
    | none => .undefined
    | some val => Value.new type_id (.int32_t (toSigned 32 val))
  | .TIMESTAMP =>
    match readLE 4 storage with
    | none => .undefined
    | some val => Value.new type_id (.uint64_t val)
  | .VARCHAR =>
    match readLE 4 storage with
    | none => .undefined
    | some var_len =>
      if cfg.NDEBUG = false ∧ ¬ var_len < cfg.PAGE_SIZE then .aborted
      else if (storage.drop 4).length < var_len then .undefined
      else Value.new type_id (.string ((storage.drop 4).take var_len))
  | .INVALID => .thrown (.RuntimeException "Invalid type")

/-- The `width` low bytes of `n`, least significant first: the little-endian encoding that the
claims about decoding start from. -/
def encodeLE : Nat → Nat → List data_t
  | 0, _ => []
  | width + 1, n => ⟨n % 256, Nat.mod_lt _ (by decide)⟩ :: encodeLE width (n / 256)

/-- The 4-byte little-endian two's-complement encoding of `n`. -/
def encodeInt32 (n : Int) : List data_t :=
  encodeLE 4 (n % 2 ^ 32).toNat

/-- The `int32_t` that holds `n` modulo `2 ^ 32`.  Signed overflow is undefined in C++; the
model takes the two's-complement result that the arithmetic instructions produce. -/
def wrapInt32 (n : Int) : Int :=
  toSigned 32 (n % 2 ^ 32).toNat

/-- The macro `HANDLE_UNREACHABLE_CASE(type)`: the message of the exception it throws. -/
def arithmeticNotSupported (type : TypeId) : Exception :=
  match type with
  | .BOOLEAN => .RuntimeException "BOOLEAN arithmetic not supported"
  | .INTEGER => .RuntimeException "INTEGER arithmetic not supported"
  | .TIMESTAMP => .RuntimeException "TIMESTAMP arithmetic not supported"
  | .VARCHAR => .RuntimeException "VARCHAR arithmetic not supported"
  | .INVALID => .RuntimeException "INVALID arithmetic not supported"

/-- The macro `HANDLE_ARITHMETIC_CASE(INTEGER, int32_t, op)`:
`value_ = std::get<int32_t>(value_) op other.GetAs<int32_t>()`. -/
def Value.arithmeticInt32 (self other : Value) (op : Int → Int → Int) :
    Value × Option Exception :=
  match self.value_, other.value_ with
  | .int32_t a, .int32_t b => ({ self with value_ := .int32_t (wrapInt32 (op a b)) }, none)
  | _, _ => (self, some .bad_variant_access)

/-- The macro `HANDLE_ARITHMETIC_CASE(TIMESTAMP, uint64_t, op)`; `op` computes modulo
`2 ^ 64`. -/
def Value.arithmeticUInt64 (self other : Value) (op : Nat → Nat → Nat) :
    Value × Option Exception :=
  match self.value_, other.value_ with
  | .uint64_t a, .uint64_t b => ({ self with value_ := .uint64_t (op a b) }, none)
  | _, _ => (self, some .bad_variant_access)

/-- The method `Value::ComputeArithmetic(other, expression_type)`: the value after the call and
the exception, if the call threw one. -/
def Value.ComputeArithmetic (self other : Value) (expression_type : ArithmeticType) :
    Value × Option Exception :=
  match expression_type with
  | .Plus =>
    match self.type_id_ with
    | .BOOLEAN => (self, some (arithmeticNotSupported .BOOLEAN))
    | .INTEGER => self.arithmeticInt32 other (fun a b => a + b)
    | .TIMESTAMP => self.arithmeticUInt64 other (fun a b => (a + b) % 2 ^ 64)
    | .VARCHAR => (self, some (arithmeticNotSupported .VARCHAR))
    | .INVALID => (self, some (arithmeticNotSupported .INVALID))
  | .Minus =>
    match self.type_id_ with
    | .BOOLEAN => (self, some (arithmeticNotSupported .BOOLEAN))
    | .INTEGER => self.arithmeticInt32 other (fun a b => a - b)
    | .TIMESTAMP => self.arithmeticUInt64 other (fun a b => (a + 2 ^ 64 - b % 2 ^ 64) % 2 ^ 64)
    | .VARCHAR => (self, some (arithmeticNotSupported .VARCHAR))
    | .INVALID => (self, some (arithmeticNotSupported .INVALID))
  | .Multiply =>
    match self.type_id_ with
    | .BOOLEAN => (self, some (arithmeticNotSupported .BOOLEAN))
    | .INTEGER => self.arithmeticInt32 other (fun a b => a * b)
    | .TIMESTAMP => (self, some (arithmeticNotSupported .TIMESTAMP))
    | .VARCHAR => (self, some (arithmeticNotSupported .VARCHAR))
    | .INVALID => (self, some (arithmeticNotSupported .INVALID))

/-- The call `memcpy(&dest, &src, n)` on two objects given by their bytes: the first `n` bytes
of `dest` become those of `src`.  Copying more bytes than either object has is undefined. -/
def memcpy (dest src : List data_t) (n : Nat) : Result (List data_t) :=
  if src.length < n ∨ dest.length < n then .undefined
  else .ok (src.take n ++ dest.drop n)

/-- The method `Value::ConvertToIndexKeyType()`.  `KEY_SIZE` is `sizeof(IndexKeyType)`
(`index/index_typdef.hpp` is not among the sources).  `representation` gives the object
representation of the variant `value_`, the bytes that `memcpy(&ret, &value_, n)` reads: the
C++ implementation fixes them, not this repository, so they are a parameter.  With
`KEY_SIZE = 0` the length `sizeof(IndexKeyType) - 1` wraps around in `size_t`. -/
def Value.ConvertToIndexKeyType (KEY_SIZE : Nat) (representation : Val → List data_t)
    (self : Value) : Result (List data_t) :=
  let ret : List data_t := List.replicate KEY_SIZE 0
  match self.type_id_ with
  | .BOOLEAN => memcpy ret (representation self.value_) 1
  | .INTEGER => memcpy ret (representation self.value_) 4
  | .TIMESTAMP => memcpy ret (representation self.value_) 4
  | .VARCHAR =>
    if KEY_SIZE = 0 then .undefined
    else
      match memcpy ret (representation self.value_) (KEY_SIZE - 1) with
      | .ok ret =>
        match self.value_ with
        | .string s => .ok (ret.set (min s.length (KEY_SIZE - 1)) 0)
        | _ => .thrown .bad_variant_access
      | r => r
  | .INVALID => .thrown (.RuntimeException "Invalid type")

/-- The list `l` followed by zero bytes up to length `n`. -/
def padTo (n : Nat) (l : List data_t) : List data_t :=
  l ++ List.replicate (n - l.length) 0

/-- The object representation of `Val` that GCC with libstdc++ lays out on x86-64 for a variant
at address `address`: 32 bytes of storage for the alternative, the index of the alternative and
7 bytes of padding.  A `std::string` is the pointer to its characters, its size, and 16 bytes
that hold the characters themselves when there are fewer than 16 (the pointer is then
`address + 16`) and the capacity otherwise (the characters are then at `heap`).  Bytes that no
member occupies are shown as zero. -/
def libstdcxxRepresentation (address heap : Nat) : Val → List data_t
  | .int8_t v => padTo 32 (encodeLE 1 (v % 2 ^ 8).toNat) ++ padTo 8 [0]
  | .int32_t v => padTo 32 (encodeLE 4 (v % 2 ^ 32).toNat) ++ padTo 8 [1]
  | .uint64_t v => padTo 32 (encodeLE 8 v) ++ padTo 8 [2]
  | .string s =>
    if s.length < 16 then
      encodeLE 8 (address + 16) ++ encodeLE 8 s.length ++ padTo 16 s ++ padTo 8 [3]
    else
      encodeLE 8 heap ++ encodeLE 8 s.length ++ padTo 16 (encodeLE 8 s.length) ++ padTo 8 [3]

/-- The arms that the claim about construction pairs with each `TypeId`, in the spec's words:
BOOLEAN with u8, INTEGER with i32, TIMESTAMP with u64, VARCHAR with string. -/
def specArmMatches : TypeId → Payload → Bool
  | .BOOLEAN, .uint8_t _ => true
  | .INTEGER, .int32_t _ => true
  | .TIMESTAMP, .uint64_t _ => true
  | .VARCHAR, .string _ => true
  | _, _ => false

/-! ## Byte streams (`storage/serializer/memory_stream.hpp`) -/

/-- Modelled from the spec: the errors of the serialization framework and of its streams
(section 4.6, "Errors"; the exception classes are not among the sources).  `MissingProperty` is
a required field that the stream lacks, `CapacityExceeded` a write or read beyond the capacity
of a stream that cannot grow, `Malformed` a stream that is no encoding of an object. -/
inductive SerializationError where
  | MissingProperty (field_id : Nat)
  | CapacityExceeded
  | Malformed
  deriving DecidableEq, Repr

/-- The class `MemoryStream`: the four members that `memory_stream.hpp` declares; `data_` is the
backing buffer, `capacity_` bytes long. -/
structure MemoryStream where
  position_ : Nat
  capacity_ : Nat
  owns_data_ : Bool
  data_ : List data_t
  deriving DecidableEq, Repr

/-- Modelled from the spec: the constructor `MemoryStream(idx_t capacity = 512)` of an owning
stream (`memory_stream.cpp` is not among the sources); the buffer starts as zero bytes. -/
def MemoryStream.new (capacity : Nat) : MemoryStream :=
  ⟨0, capacity, true, List.replicate capacity 0⟩

/-- Modelled from the spec: `MemoryStream::WriteData` (`memory_stream.cpp` is not among the
sources).  A write beyond the capacity fails on a stream that does not own its buffer; an
owning stream grows geometrically (to twice its capacity, or to what the write needs when that
is more).  The bytes go to the buffer at `position_`, which advances past them. -/
def MemoryStream.WriteData (self : MemoryStream) (buffer : List data_t) :
    Except SerializationError MemoryStream :=
  if self.capacity_ < self.position_ + buffer.length ∧ self.owns_data_ = false then
    .error .CapacityExceeded
  else
    let capacity :=
      if self.capacity_ < self.position_ + buffer.length then
        max (2 * self.capacity_) (self.position_ + buffer.length)
      else self.capacity_
    let data := self.data_ ++ List.replicate (capacity - self.data_.length) 0
    .ok { self with
      position_ := self.position_ + buffer.length
      capacity_ := capacity
      data_ := data.take self.position_ ++ buffer ++ data.drop (self.position_ + buffer.length) }

/-- Modelled from the spec: `MemoryStream::ReadData` (`memory_stream.cpp` is not among the
sources): the next `read_size` bytes from `position_` on, which advances past them; it fails
when the read would exceed the capacity of the stream. -/
def MemoryStream.ReadData (self : MemoryStream) (read_size : Nat) :
    Except SerializationError (List data_t × MemoryStream) :=
  if self.capacity_ < self.position_ + read_size then .error .CapacityExceeded
  else
    .ok ((self.data_.drop self.position_).take read_size,
      { self with position_ := self.position_ + read_size })

/-- Modelled from the spec: `MemoryStream::Rewind` (`memory_stream.cpp` is not among the
sources): the position becomes zero, capacity and buffer stay. -/
def MemoryStream.Rewind (self : MemoryStream) : MemoryStream :=
  { self with position_ := 0 }

/-- Modelled from the spec: `MemoryStream::GetPosition` (`memory_stream.cpp` is not among the
sources). -/
def MemoryStream.GetPosition (self : MemoryStream) : Nat :=
  self.position_

/-! ## The binary serialization framework (spec section 4.6) -/

/-- Modelled from the spec: the variable-length encoding of an unsigned integer (the coders of
the framework are not among the sources): seven bits to a byte, least significant first, the
high bit set on every byte but the last.  `fuel` bounds the number of bytes. -/
def encodeVarint : Nat → Nat → List data_t
  | 0, _ => []
  | fuel + 1, n =>
    if h : n < 128 then [⟨n, by omega⟩]
    else ⟨128 + n % 128, by omega⟩ :: encodeVarint fuel (n / 128)

/-- Modelled from the spec: the variable-length integer that stands for `n`; `n + 1` bytes
are more than any `n` takes. -/
def writeVarint (n : Nat) : List data_t :=
  encodeVarint (n + 1) n

/-- Modelled from the spec: reading a variable-length integer off the front of `bytes`: the
integer and the bytes after it, or `none` when the bytes end inside it. -/
def readVarint : List data_t → Option (Nat × List data_t)
  | [] => none
  | b :: rest =>
    if b.val < 128 then some (b.val, rest)
    else
      match readVarint rest with
      | none => none
      | some (v, rest) => some (b.val - 128 + 128 * v, rest)

/-- Modelled from the spec: a property record: its numeric `field_id` and its payload.  The
name of a property is for diagnostics only and is not encoded. -/
structure Property where
  field_id : Nat
  payload : List data_t
  deriving DecidableEq, Repr

/-- Modelled from the spec: the bytes of a property record: the `field_id` as a
variable-length integer, the size of the payload (enough to skip it), and the payload. -/
def Property.encode (p : Property) : List data_t :=
  writeVarint p.field_id ++ writeVarint p.payload.length ++ p.payload

/-- Modelled from the spec: the byte that terminates an object. -/
def OBJECT_TERMINATOR : data_t := 255

/-- Modelled from the spec: the frame of an object: a header with the count of the properties,
the property records, and the terminator. -/
def encodeObject (properties : List Property) : List data_t :=
  writeVarint properties.length ++ (properties.map Property.encode).flatten ++ [OBJECT_TERMINATOR]

/-- Modelled from the spec: reading `count` property records off the front of `bytes`. -/
def readProperties : Nat → List data_t → Option (List Property × List data_t)
  | 0, bytes => some ([], bytes)
  | count + 1, bytes =>
    match readVarint bytes with
    | none => none
    | some (field_id, bytes) =>
      match readVarint bytes with
      | none => none
      | some (size, bytes) =>
        if bytes.length < size then none
        else
          match readProperties count (bytes.drop size) with
          | none => none
          | some (properties, rest) => some (⟨field_id, bytes.take size⟩ :: properties, rest)

/-- Modelled from the spec: reading the frame of an object off the front of `bytes`: its
property records and the bytes after the terminator. -/
def decodeObject (bytes : List data_t) : Option (List Property × List data_t) :=
  match readVarint bytes with
  | none => none
  | some (count, bytes) =>
    match readProperties count bytes with
    | none => none
    | some (_, []) => none
    | some (properties, b :: rest) => if b = OBJECT_TERMINATOR then some (properties, rest) else none

/-- Modelled from the spec: the state of the serializer inside an object: the property records
emitted so far, in order (`serializer.hpp` is not among the sources). -/
abbrev Serializer := List Property

/-- Modelled from the spec: the state of the deserializer inside an object: the property records
of the object (`deserializer.hpp` is not among the sources). -/
abbrev Deserializer := List Property

/-- Modelled from the spec: `WriteProperty(field_id, name, value)`: always emit.  `encode` is
the encoding of the value's type. -/
def Serializer.WriteProperty {α : Type} (serializer : Serializer) (field_id : Nat) (value : α)
    (encode : α → List data_t) : Serializer :=
  serializer ++ [⟨field_id, encode value⟩]

/-- Modelled from the spec: `WritePropertyWithDefault(field_id, name, value, default)`: when
`value == default` the emission is suppressed entirely. -/
def Serializer.WritePropertyWithDefault {α : Type} [DecidableEq α] (serializer : Serializer)
    (field_id : Nat) (value default_value : α) (encode : α → List data_t) : Serializer :=
  if value = default_value then serializer else serializer.WriteProperty field_id value encode

/-- Modelled from the spec: the payload of the first record with `field_id`; records
of other fields are skipped. -/
def Deserializer.find (deserializer : Deserializer) (field_id : Nat) : Option (List data_t) :=
  match deserializer with
  | [] => none
  | p :: rest => if p.field_id = field_id then some p.payload else Deserializer.find rest field_id

/-- Modelled from the spec: `ReadProperty(field_id, name, &out)`: the field must be there; when
it is absent the call signals a missing-property error.  `decode` is the decoding of the
value's type. -/
def Deserializer.ReadProperty {α : Type} (deserializer : Deserializer) (field_id : Nat)
    (decode : List data_t → Except SerializationError (α × List data_t)) :
    Except SerializationError α :=
  match deserializer.find field_id with
  | none => .error (.MissingProperty field_id)
  | some payload =>
    match decode payload with
    | .error e => .error e
    | .ok (value, _) => .ok value

/-- Modelled from the spec: `ReadPropertyWithDefault(field_id, name, &out, default)`: when the
field is absent in the stream the default is assigned. -/
def Deserializer.ReadPropertyWithDefault {α : Type} (deserializer : Deserializer)
    (field_id : Nat) (decode : List data_t → Except SerializationError (α × List data_t))
    (default_value : α) : Except SerializationError α :=
  match deserializer.find field_id with
  | none => .ok default_value
  | some payload =>
    match decode payload with
    | .error e => .error e
    | .ok (value, _) => .ok value

/-! ### Encodings of the field types -/

/-- Modelled from the spec: the payload of a `uint32_t`: fixed-width little-endian. -/
def encodeUInt32 (n : Nat) : List data_t :=
  encodeLE 4 n

/-- Modelled from the spec: reading a `uint32_t` payload. -/
def decodeUInt32 (bytes : List data_t) : Except SerializationError (Nat × List data_t) :=
  match readLE 4 bytes with
  | none => .error .Malformed
  | some v => .ok (v, bytes.drop 4)

/-- Modelled from the spec: reading an `int32_t` payload (fixed-width little-endian,
two's complement). -/
def decodeInt32 (bytes : List data_t) : Except SerializationError (Int × List data_t) :=
  match readLE 4 bytes with
  | none => .error .Malformed
  | some v => .ok (toSigned 32 v, bytes.drop 4)

/-- Modelled from the spec: a `std::string` is a sequence of bytes: length-prefixed, then
elementwise. -/
def encodeString (s : List data_t) : List data_t :=
  writeVarint s.length ++ s

/-- Modelled from the spec: reading a `std::string`. -/
def decodeString (bytes : List data_t) :
    Except SerializationError (List data_t × List data_t) :=
  match readVarint bytes with
  | none => .error .Malformed
  | some (n, rest) => if rest.length < n then .error .Malformed else .ok (rest.take n, rest.drop n)

/-- Modelled from the spec: a `std::vector<std::string>` is a sequence: length-prefixed, then
elementwise. -/
def encodeStrings (vec : List (List data_t)) : List data_t :=
  writeVarint vec.length ++ (vec.map encodeString).flatten

/-- Modelled from the spec: reading `count` strings one after the other. -/
def readStrings : Nat → List data_t → Except SerializationError (List (List data_t) × List data_t)
  | 0, bytes => .ok ([], bytes)
  | count + 1, bytes =>
    match decodeString bytes with
    | .error e => .error e
    | .ok (s, bytes) =>
      match readStrings count bytes with
      | .error e => .error e
      | .ok (vec, rest) => .ok (s :: vec, rest)

/-- Modelled from the spec: reading a `std::vector<std::string>`. -/
def decodeStrings (bytes : List data_t) :
    Except SerializationError (List (List data_t) × List data_t) :=
  match readVarint bytes with
  | none => .error .Malformed
  | some (count, rest) => readStrings count rest

/-! ### The objects of `test/storage/serializer_test.cpp` -/

/-- The struct `Bar` of the test. -/
structure Bar where
  b : Nat
  vec : List (List data_t)
  deriving DecidableEq, Repr

/-- The method `Bar::Serialize`. -/
def Bar.Serialize (self : Bar) (serializer : Serializer) : Serializer :=
  let serializer := serializer.WriteProperty 1 self.b encodeUInt32
  serializer.WritePropertyWithDefault 2 self.vec [] encodeStrings

/-- The function `Bar::Deserialize`. -/
def Bar.Deserialize (deserializer : Deserializer) : Except SerializationError Bar :=
  match deserializer.ReadProperty 1 decodeUInt32 with
  | .error e => .error e
  | .ok b =>
    match deserializer.ReadPropertyWithDefault 2 decodeStrings [] with
    | .error e => .error e
    | .ok vec => .ok ⟨b, vec⟩

/-- Modelled from the spec: the payload of a `std::unique_ptr<Bar>`, an optional reference: a
one-byte presence tag, followed, if present, by the referent. -/
def encodeBarPtr (bar : Option Bar) : List data_t :=
  match bar with
  | none => [0]
  | some bar => 1 :: encodeObject (bar.Serialize [])

/-- Modelled from the spec: reading a `std::unique_ptr<Bar>`. -/
def decodeBarPtr (bytes : List data_t) :
    Except SerializationError (Option Bar × List data_t) :=
  match bytes with
  | [] => .error .Malformed
  | tag :: bytes =>
    if tag = 0 then .ok (none, bytes)
    else
      match decodeObject bytes with
      | none => .error .Malformed
      | some (properties, rest) =>
        match Bar.Deserialize properties with
        | .error e => .error e
        | .ok bar => .ok (some bar, rest)

/-- The struct `Foo` of the test. -/
structure Foo where
  a : Int
  bar : Option Bar
  c : Int
  deriving DecidableEq, Repr

/-- The method `Foo::Serialize`. -/
def Foo.Serialize (self : Foo) (serializer : Serializer) : Serializer :=
  let serializer := serializer.WriteProperty 1 self.a encodeInt32
  let serializer := serializer.WritePropertyWithDefault 2 self.bar none encodeBarPtr
  serializer.WriteProperty 3 self.c encodeInt32

/-- The function `Foo::Deserialize`. -/
def Foo.Deserialize (deserializer : Deserializer) : Except SerializationError Foo :=
  match deserializer.ReadProperty 1 decodeInt32 with
  | .error e => .error e
  | .ok a =>
    match deserializer.ReadPropertyWithDefault 2 decodeBarPtr none with
    | .error e => .error e
    | .ok bar =>
      match deserializer.ReadProperty 3 decodeInt32 with
      | .error e => .error e
      | .ok c => .ok ⟨a, bar, c⟩

/-- The fields of a `Bar` fit their C++ types. -/
def Bar.InRange (self : Bar) : Prop :=
  self.b < 2 ^ 32

/-- The fields of a `Foo` fit their C++ types. -/
def Foo.InRange (self : Foo) : Prop :=
  (-2 ^ 31 ≤ self.a ∧ self.a < 2 ^ 31) ∧ (-2 ^ 31 ≤ self.c ∧ self.c < 2 ^ 31) ∧
    ∀ bar, self.bar = some bar → bar.InRange

/-- Modelled from the spec: `BinarySerializer::Serialize(value, stream, false)`
(`binary_serializer.hpp` is not among the sources): the object opens, `value.Serialize` emits
its properties, the object closes, and the frame goes to the stream through `WriteData`.
`serialize` is the method `Serialize` of the value. -/
def BinarySerializer.Serialize (serialize : Serializer → Serializer) (stream : MemoryStream) :
    Except SerializationError MemoryStream :=
  stream.WriteData (encodeObject (serialize []))

/-- Modelled from the spec: `BinaryDeserializer::Deserialize<T>(stream)`
(`binary_deserializer.hpp` is not among the sources): the frame of an object is read from the
stream through `ReadData` and `T::Deserialize` reads its properties.  The decoder is handed
the bytes up to the capacity of the stream, and the position advances past those that the
object took.  `deserialize` is the function `T::Deserialize`. -/
def BinaryDeserializer.Deserialize {α : Type}
    (deserialize : Deserializer → Except SerializationError α) (stream : MemoryStream) :
    Except SerializationError (α × MemoryStream) :=
  match stream.ReadData (stream.capacity_ - stream.position_) with
  | .error e => .error e
  | .ok (bytes, _) =>
    match decodeObject bytes with
    | none => .error .Malformed
    | some (properties, rest) =>
      match deserialize properties with
      | .error e => .error e
      | .ok value =>
        .ok (value, { stream with position_ := stream.position_ + (bytes.length - rest.length) })

/-- The object `foo_in` of the test: `a = 42`, `bar = {b = 43, vec = {"a", "b", "c", "d", "e"}}`,
`c = 44`. -/
def fooOfTest : Foo :=
  ⟨42, some ⟨43, [[97], [98], [99], [100], [101]]⟩, 44⟩

/-! ## Pin counts and page numbers -/

/-- Pin counts are never negative and, where assertions are on, every page of the frame table
has a valid page number (`FetchPage` asserts it, `NewPage` takes the number from the
allocator). -/
structure WellPinned (cfg : Config) (bp : BufferPool) : Prop where
  pin_nonneg : ∀ g, 0 ≤ (bp.page cfg g).pin_count_
  resident_valid : cfg.NDEBUG = false →
    ∀ p f, (p, f) ∈ bp.page_table_ → p.page_number_ ≠ INVALID_PAGE_ID

/-- Two pages are created in turn in a pool of one frame (the second evicts the first); the
second is unpinned and deleted, then fetched again. -/
def opsRefetchAfterDelete : List Op :=
  [.NewPage 0 0, .UnpinPage ⟨0, 0⟩ false, .NewPage 0 0, .UnpinPage ⟨0, 1⟩ false,
    .DeletePage ⟨0, 1⟩, .FetchPage ⟨0, 1⟩ 0]


/-! ## Elementary facts about the containers -/

theorem PageTable.find_some_mem {t : PageTable} {p : PageId} {f : Nat}
    (h : PageTable.find t p = some f) : (p, f) ∈ t := by
  induction t with
  | nil => simp [PageTable.find] at h
  | cons e rest ih =>
    obtain ⟨q, g⟩ := e
    unfold PageTable.find at h
    split at h
    · rename_i hq
      simp only [Option.some.injEq] at h
      subst hq; subst h
      exact List.mem_cons_self _ _
    · exact List.mem_cons_of_mem _ (ih h)

theorem PageTable.find_none_iff {t : PageTable} {p : PageId} :
    PageTable.find t p = none ↔ ∀ f, (p, f) ∉ t := by
  induction t with
  | nil => simp [PageTable.find]
  | cons e rest ih =>
    obtain ⟨q, g⟩ := e
    unfold PageTable.find
    by_cases hq : q = p
    · subst hq
      simp only [if_true]
      constructor
      · intro h; cases h
      · intro h; exact absurd (List.mem_cons_self _ _) (h g)
    · simp only [hq, if_false, ih, List.mem_cons, Prod.mk.injEq]
      constructor
      · intro h f hf
        rcases hf with ⟨h1, _⟩ | hf
        · exact hq h1.symm
        · exact h f hf
      · intro h f hf
        exact h f (Or.inr hf)

theorem PageTable.mem_erase {t : PageTable} {p q : PageId} {g : Nat} :
    (q, g) ∈ PageTable.erase t p ↔ (q, g) ∈ t ∧ q ≠ p := by
  simp [PageTable.erase, List.mem_filter]

theorem PageTable.mem_assign {t : PageTable} {p q : PageId} {f g : Nat} :
    (q, g) ∈ PageTable.assign t p f ↔ ((q, g) ∈ t ∧ q ≠ p) ∨ (q = p ∧ g = f) := by
  simp [PageTable.assign, PageTable.mem_erase]

theorem PageTable.mem_insert {t : PageTable} {p q : PageId} {f g : Nat}
    (h : PageTable.find t p = none) :
    (q, g) ∈ PageTable.insert t p f ↔ (q, g) ∈ t ∨ (q = p ∧ g = f) := by
  simp [PageTable.insert, h]

theorem RandomBogoReplacer.mem_Pin {r : RandomBogoReplacer} {f g : Nat} :
    g ∈ (r.Pin f).evictable ↔ g ∈ r.evictable ∧ g ≠ f := by
  simp [RandomBogoReplacer.Pin, List.mem_filter]

theorem RandomBogoReplacer.mem_Unpin {r : RandomBogoReplacer} {f g : Nat} :
    g ∈ (r.Unpin f).evictable ↔ g ∈ r.evictable ∨ g = f := by
  unfold RandomBogoReplacer.Unpin
  split
  · rename_i h
    constructor
    · exact Or.inl
    · rintro (h1 | h1)
      · exact h1
      · subst h1; exact h
  · simp

theorem RandomBogoReplacer.Evict_some {r r' : RandomBogoReplacer} {draw : Nat} {f : Nat}
    (h : r.Evict draw = some (f, r')) : f ∈ r.evictable ∧ r' = r.Pin f := by
  unfold RandomBogoReplacer.Evict at h
  split at h
  · cases h
  · rename_i g rest hl
    simp only [Option.some.injEq, Prod.mk.injEq] at h
    obtain ⟨h1, h2⟩ := h
    have hlt : draw % (g :: rest).length < (g :: rest).length :=
      Nat.mod_lt _ (by simp)
    rw [List.getD_eq_getElem _ _ hlt] at h1
    rw [hl]
    constructor
    · rw [← h1]; exact List.getElem_mem _
    · rw [← h2, ← h1, List.getD_eq_getElem _ _ hlt]

theorem RandomBogoReplacer.Evict_none {r : RandomBogoReplacer} {draw : Nat}
    (h : r.Evict draw = none) : r.evictable = [] := by
  unfold RandomBogoReplacer.Evict at h
  split at h
  · assumption
  · cases h

theorem BufferPool.page_setPage (cfg : Config) (bp : BufferPool) (f g : Nat) (pg : Page) :
    (bp.setPage f pg).page cfg g = if g = f ∧ f < bp.pages_.length then pg else bp.page cfg g := by
  simp only [BufferPool.page, BufferPool.setPage, List.getD_eq_getElem?_getD, List.getElem?_set]
  by_cases h : f = g
  · subst h
    by_cases h2 : f < bp.pages_.length
    · simp [h2]
    · have : bp.pages_[f]? = none := List.getElem?_eq_none (by omega)
      simp [h2, this]
  · have : ¬ g = f := fun e => h e.symm
    simp [h, this]
theorem BufferPool.page_mk (cfg : Config) (n : Nat) (r : RandomBogoReplacer) (d : DiskManager)
    (pages : List Page) (t : PageTable) (fl : List Nat) (g : Nat) :
    BufferPool.page cfg ⟨n, r, d, pages, t, fl⟩ g = pages.getD g (Page.fresh cfg) := rfl

theorem BufferPool.page_eq (cfg : Config) (bp : BufferPool) (g : Nat) :
    bp.page cfg g = bp.pages_.getD g (Page.fresh cfg) := rfl

/-! ## What each method does to the state -/

theorem AllocateFrame_none {cfg : Config} {bp bp1 : BufferPool} {draw : Nat}
    (h : AllocateFrame cfg bp draw = .returned none bp1) :
    bp1 = bp ∧ bp.free_list_ = [] ∧ bp.replacer_.evictable = [] := by
  unfold AllocateFrame at h
  split at h
  · rename_i hfree
    split at h
    · rename_i hev
      simp only [Outcome.returned.injEq, true_and] at h
      exact ⟨h.symm, hfree, RandomBogoReplacer.Evict_none hev⟩
    · simp only at h
      split at h
      · cases h
      · split at h
        · cases h
        · simp at h
  · simp at h

theorem AllocateFrame_thrown {cfg : Config} {bp bp1 : BufferPool} {draw : Nat} :
    AllocateFrame cfg bp draw ≠ .thrown bp1 := by
  intro h
  unfold AllocateFrame at h
  split at h
  · split at h
    · cases h
    · simp only at h
      split at h
      · cases h
      · split at h
        · cases h
        · cases h
  · cases h

theorem AllocateFrame_some {cfg : Config} {bp bp1 : BufferPool} {draw f : Nat}
    (h : AllocateFrame cfg bp draw = .returned (some f) bp1) :
    (bp.free_list_ = f :: bp1.free_list_ ∧
      bp1.pool_size_ = bp.pool_size_ ∧
      bp1.replacer_ = bp.replacer_ ∧
      bp1.disk_manager_ = bp.disk_manager_ ∧
      bp1.pages_ = bp.pages_ ∧
      bp1.page_table_ = bp.page_table_) ∨
    (bp.free_list_ = [] ∧ f ∈ bp.replacer_.evictable ∧
      (cfg.NDEBUG = false →
        (bp.page cfg f).pin_count_ = 0 ∧ 0 ≤ (bp.page cfg f).page_id_.page_number_) ∧
      bp1.pool_size_ = bp.pool_size_ ∧
      bp1.replacer_ = bp.replacer_.Pin f ∧
      bp1.disk_manager_ =
        (if (bp.page cfg f).is_dirty_ then
          bp.disk_manager_.WritePage (bp.page cfg f).page_id_ (bp.page cfg f).data_
        else bp.disk_manager_) ∧
      bp1.pages_ = bp.pages_.set f ((bp.page cfg f).ResetMemory cfg) ∧
      bp1.page_table_ = bp.page_table_ ∧
      bp1.free_list_ = []) := by
  unfold AllocateFrame at h
  split at h
  · rename_i hfree
    right
    split at h
    · simp at h
    · rename_i g r hev
      obtain ⟨hmem, hr⟩ := RandomBogoReplacer.Evict_some hev
      simp only at h
      split at h
      · cases h
      · rename_i h1
        split at h
        · cases h
        · rename_i h2
          simp only [Outcome.returned.injEq, Option.some.injEq] at h
          obtain ⟨hg, hbp⟩ := h
          subst hg
          have hpage : ∀ (d : DiskManager),
              BufferPool.page cfg { bp with replacer_ := r, disk_manager_ := d } g
                = bp.page cfg g := fun _ => rfl
          have hpage' : BufferPool.page cfg { bp with replacer_ := r } g = bp.page cfg g := rfl
          rw [hpage'] at h1 h2
          refine ⟨hfree, hmem, ?_, ?_⟩
          · intro hn
            simp only [hn, true_and, not_not] at h1 h2
            exact ⟨h1, h2⟩
          · subst hbp
            rw [hpage']
            by_cases hd : (bp.page cfg g).is_dirty_ = true
            · simp only [hd, if_true]
              refine ⟨rfl, hr, rfl, ?_, rfl, hfree⟩
              simp only [BufferPool.setPage]
              rfl
            · simp only [hd]
              refine ⟨rfl, hr, rfl, ?_, rfl, hfree⟩
              simp only [BufferPool.setPage]
              rfl
  · rename_i g rest hfree
    left
    simp only [Outcome.returned.injEq, Option.some.injEq] at h
    obtain ⟨hg, hbp⟩ := h
    subst hg; subst hbp
    exact ⟨hfree, rfl, rfl, rfl, rfl, rfl⟩
theorem NewPage_thrown {cfg : Config} {bp bp' : BufferPool} {a : PageAllocator} {draw : Nat}
    (h : NewPage cfg bp a draw = .thrown bp') :
    bp' = bp ∧ bp.free_list_ = [] ∧ bp.replacer_.evictable = [] := by
  unfold NewPage at h
  split at h
  · cases h
  · rename_i h1; exact absurd h1 AllocateFrame_thrown
  · rename_i bp1 h1
    simp only [Outcome.thrown.injEq] at h
    subst h
    exact AllocateFrame_none h1
  · simp only at h
    split at h
    · cases h
    · split at h
      · cases h
      · split at h
        · cases h
        · cases h

theorem NewPage_returned {cfg : Config} {bp bp' : BufferPool} {a a' : PageAllocator}
    {draw f : Nat} {p : PageId}
    (h : NewPage cfg bp a draw = .returned (f, p, a') bp') :
    ∃ bp1, AllocateFrame cfg bp draw = .returned (some f) bp1 ∧
      p = ⟨a.table_id_, (a.next_page_number_ : Int)⟩ ∧
      a' = ⟨a.table_id_, a.next_page_number_ + 1⟩ ∧
      (cfg.NDEBUG = false → f ∉ bp1.free_list_ ∧ p ≠ (bp1.page cfg f).page_id_) ∧
      bp'.pool_size_ = bp1.pool_size_ ∧
      bp'.replacer_ = bp1.replacer_.Pin f ∧
      bp'.disk_manager_ = bp1.disk_manager_ ∧
      bp'.pages_ = bp1.pages_.set f ⟨zeroData cfg, p, 1, false⟩ ∧
      bp'.page_table_ = (bp1.page_table_.erase (bp1.page cfg f).page_id_).assign p f ∧
      bp'.free_list_ = bp1.free_list_ := by
  unfold NewPage at h
  split at h
  · cases h
  · cases h
  · cases h
  · rename_i g bp1 h1
    simp only at h
    split at h
    · cases h
    · rename_i hfree
      split at h
      · cases h
      · split at h
        · cases h
        · rename_i hold
          simp only [Outcome.returned.injEq, Prod.mk.injEq] at h
          obtain ⟨⟨hg, hp, ha⟩, hbp⟩ := h
          subst hg
          refine ⟨bp1, h1, ?_, ?_, ?_, ?_⟩
          · rw [← hp]; rfl
          · rw [← ha]; rfl
          · intro hn
            simp only [hn, true_and, not_not, BufferPool.page_mk, ← BufferPool.page_eq]
              at hfree hold
            refine ⟨hfree, ?_⟩
            intro hpe
            have hfind := PageTable.find_none_iff.mp hold g
            apply hfind
            rw [PageTable.mem_assign]
            right
            refine ⟨?_, rfl⟩
            rw [← hpe, ← hp]
          · subst hbp
            subst hp
            refine ⟨rfl, rfl, rfl, ?_, rfl, rfl⟩
            simp only [BufferPool.setPage, Page.ResetMemory]
theorem FetchPage_thrown {cfg : Config} {bp bp' : BufferPool} {p : PageId} {draw : Nat}
    (h : FetchPage cfg bp p draw = .thrown bp') :
    bp' = bp ∧ bp.page_table_.find p = none ∧ bp.free_list_ = [] ∧
      bp.replacer_.evictable = [] := by
  unfold FetchPage at h
  split at h
  · cases h
  · split at h
    · cases h
    · rename_i hfind
      split at h
      · cases h
      · rename_i h1; exact absurd h1 AllocateFrame_thrown
      · rename_i bp1 h1
        simp only [Outcome.thrown.injEq] at h
        subst h
        obtain ⟨e1, e2, e3⟩ := AllocateFrame_none h1
        exact ⟨e1, hfind, e2, e3⟩
      · cases h

theorem FetchPage_returned {cfg : Config} {bp bp' : BufferPool} {p : PageId} {draw f : Nat}
    (h : FetchPage cfg bp p draw = .returned f bp') :
    (cfg.NDEBUG = false → p.page_number_ ≠ INVALID_PAGE_ID) ∧
    ((bp.page_table_.find p = some f ∧
        bp'.pool_size_ = bp.pool_size_ ∧
        bp'.replacer_ = bp.replacer_.Pin f ∧
        bp'.disk_manager_ = bp.disk_manager_ ∧
        bp'.pages_ = bp.pages_.set f
          { bp.page cfg f with pin_count_ := (bp.page cfg f).pin_count_ + 1 } ∧
        bp'.page_table_ = bp.page_table_ ∧
        bp'.free_list_ = bp.free_list_) ∨
     (bp.page_table_.find p = none ∧
        ∃ bp1, AllocateFrame cfg bp draw = .returned (some f) bp1 ∧
          bp'.pool_size_ = bp1.pool_size_ ∧
          bp'.replacer_ = bp1.replacer_ ∧
          bp'.disk_manager_ = bp1.disk_manager_ ∧
          bp'.pages_ = bp1.pages_.set f
            ⟨bp1.disk_manager_.ReadPage cfg p, p, (bp1.page cfg f).pin_count_ + 1, false⟩ ∧
          bp'.page_table_ = (bp1.page_table_.erase (bp1.page cfg f).page_id_).insert p f ∧
          bp'.free_list_ = bp1.free_list_)) := by
  unfold FetchPage at h
  split at h
  · cases h
  · rename_i hvalid
    refine ⟨fun hn hp => hvalid ⟨hn, hp⟩, ?_⟩
    split at h
    · rename_i g hfind
      simp only [Outcome.returned.injEq] at h
      obtain ⟨hg, hbp⟩ := h
      subst hg; subst hbp
      left
      exact ⟨hfind, rfl, rfl, rfl, rfl, rfl, rfl⟩
    · rename_i hfind
      right
      refine ⟨hfind, ?_⟩
      split at h
      · cases h
      · cases h
      · cases h
      · rename_i g bp1 h1
        simp only [Outcome.returned.injEq] at h
        obtain ⟨hg, hbp⟩ := h
        subst hg; subst hbp
        exact ⟨bp1, h1, rfl, rfl, rfl, rfl, rfl, rfl⟩

theorem UnpinPage_thrown {cfg : Config} {bp bp' : BufferPool} {p : PageId} {d : Bool} :
    UnpinPage cfg bp p d ≠ .thrown bp' := by
  intro h
  unfold UnpinPage at h
  simp only at h
  repeat' (first | contradiction | split at h)

theorem UnpinPage_returned {cfg : Config} {bp bp' : BufferPool} {p : PageId} {d b : Bool}
    (h : UnpinPage cfg bp p d = .returned b bp') :
    (cfg.NDEBUG = false → p.page_number_ ≠ INVALID_PAGE_ID) ∧
    ((cfg.NDEBUG = true ∧ bp.page_table_.find p = none ∧ b = false ∧ bp' = bp) ∨
     (∃ f, bp.page_table_.find p = some f ∧
        bp'.pool_size_ = bp.pool_size_ ∧
        bp'.disk_manager_ = bp.disk_manager_ ∧
        bp'.page_table_ = bp.page_table_ ∧
        bp'.free_list_ = bp.free_list_ ∧
        (((bp.page cfg f).pin_count_ = 0 ∧ b = false ∧
            bp'.replacer_ = bp.replacer_ ∧
            bp'.pages_ = bp.pages_.set f
              (if d = true then { bp.page cfg f with is_dirty_ := true } else bp.page cfg f)) ∨
         ((bp.page cfg f).pin_count_ ≠ 0 ∧ b = true ∧
            (cfg.NDEBUG = false → 0 ≤ (bp.page cfg f).pin_count_ - 1) ∧
            bp'.replacer_ =
              (if (bp.page cfg f).pin_count_ - 1 = 0 then bp.replacer_.Unpin f
               else bp.replacer_) ∧
            bp'.pages_ = bp.pages_.set f
              { (if d = true then { bp.page cfg f with is_dirty_ := true } else bp.page cfg f)
                with pin_count_ := (bp.page cfg f).pin_count_ - 1 })))) := by
  unfold UnpinPage at h
  split at h
  · cases h
  · rename_i hvalid
    refine ⟨fun hn hp => hvalid ⟨hn, hp⟩, ?_⟩
    split at h
    · rename_i hfind
      split at h
      · cases h
      · rename_i hn
        simp only [Outcome.returned.injEq] at h
        left
        refine ⟨by simpa using hn, hfind, h.1.symm, h.2.symm⟩
    · rename_i f hfind
      right
      refine ⟨f, hfind, ?_⟩
      have hpc : (if d = true then { bp.page cfg f with is_dirty_ := true }
          else bp.page cfg f).pin_count_ = (bp.page cfg f).pin_count_ := by
        split <;> rfl
      simp only [hpc] at h
      split at h
      · rename_i h0
        simp only [Outcome.returned.injEq] at h
        obtain ⟨hb, hbp⟩ := h
        subst hb; subst hbp
        exact ⟨rfl, rfl, rfl, rfl, Or.inl ⟨h0, rfl, rfl, rfl⟩⟩
      · rename_i h0
        split at h
        · cases h
        · rename_i hass
          split at h
          · rename_i hz
            simp only [Outcome.returned.injEq] at h
            obtain ⟨hb, hbp⟩ := h
            subst hb; subst hbp
            refine ⟨rfl, rfl, rfl, rfl, Or.inr ⟨h0, rfl, ?_, ?_, rfl⟩⟩
            · intro hn; simpa [hn] using hass
            · simp only [hz, if_true]; rfl
          · rename_i hz
            simp only [Outcome.returned.injEq] at h
            obtain ⟨hb, hbp⟩ := h
            subst hb; subst hbp
            refine ⟨rfl, rfl, rfl, rfl, Or.inr ⟨h0, rfl, ?_, ?_, rfl⟩⟩
            · intro hn; simpa [hn] using hass
            · simp only [hz, if_false]; rfl
theorem FlushPage_none {cfg : Config} {bp : BufferPool} {p : PageId}
    (h : bp.page_table_.find p = none) : FlushPage cfg bp p = (false, bp) := by
  simp [FlushPage, h]

theorem FlushPage_some {cfg : Config} {bp : BufferPool} {p : PageId} {f : Nat}
    (h : bp.page_table_.find p = some f) :
    FlushPage cfg bp p =
      (true, { bp with
        disk_manager_ := bp.disk_manager_.WritePage p (bp.page cfg f).data_
        pages_ := bp.pages_.set f { bp.page cfg f with is_dirty_ := false } }) := by
  simp only [FlushPage, h]
  rfl

theorem DeletePage_none {cfg : Config} {bp : BufferPool} {p : PageId}
    (h : bp.page_table_.find p = none) : DeletePage cfg bp p = (true, bp) := by
  simp [DeletePage, h]

theorem DeletePage_pinned {cfg : Config} {bp : BufferPool} {p : PageId} {f : Nat}
    (h : bp.page_table_.find p = some f) (hpin : 0 < (bp.page cfg f).pin_count_) :
    DeletePage cfg bp p = (false, bp) := by
  simp [DeletePage, h, hpin]

theorem DeletePage_unpinned {cfg : Config} {bp : BufferPool} {p : PageId} {f : Nat}
    (h : bp.page_table_.find p = some f) (hpin : ¬ 0 < (bp.page cfg f).pin_count_) :
    DeletePage cfg bp p =
      (true, { bp with
        page_table_ := bp.page_table_.erase p
        free_list_ := bp.free_list_ ++ [f]
        pages_ := bp.pages_.set f
          ⟨zeroData cfg, ⟨(bp.page cfg f).page_id_.table_id_, INVALID_PAGE_ID⟩, 0, false⟩ }) := by
  simp only [DeletePage, h, hpin, if_false]
  rfl

theorem BufferPool.page_of_set {cfg : Config} {bp bp' : BufferPool} {f : Nat} {pg : Page}
    (h : bp'.pages_ = bp.pages_.set f pg) (g : Nat) :
    bp'.page cfg g = if g = f ∧ f < bp.pages_.length then pg else bp.page cfg g := by
  have := BufferPool.page_setPage cfg bp f g pg
  simp only [BufferPool.page, BufferPool.setPage] at this ⊢
  rw [h]; exact this

theorem PageTable.find_erase_none {t : PageTable} {p q : PageId}
    (h : PageTable.find t p = none) : PageTable.find (PageTable.erase t q) p = none := by
  rw [PageTable.find_none_iff] at h ⊢
  intro f hf
  exact h f (PageTable.mem_erase.mp hf).1

theorem PageTable.keys_erase_nodup {t : PageTable} (p : PageId)
    (h : (t.map Prod.fst).Nodup) : ((PageTable.erase t p).map Prod.fst).Nodup := by
  unfold PageTable.erase
  exact List.Nodup.sublist ((List.filter_sublist t).map Prod.fst) h

theorem PageTable.keys_append_nodup {t : PageTable} {p : PageId} {f : Nat}
    (h : (t.map Prod.fst).Nodup) (hp : ∀ g, (p, g) ∉ t) :
    ((t ++ [(p, f)]).map Prod.fst).Nodup := by
  rw [List.map_append, List.nodup_append]
  refine ⟨h, by simp, ?_⟩
  intro q hq hq'
  simp only [List.map_cons, List.map_nil, List.mem_singleton] at hq'
  subst hq'
  rw [List.mem_map] at hq
  obtain ⟨⟨q', g⟩, hm, he⟩ := hq
  simp only at he
  subst he
  exact hp g hm

theorem PageTable.keys_assign_nodup {t : PageTable} (p : PageId) (f : Nat)
    (h : (t.map Prod.fst).Nodup) : ((PageTable.assign t p f).map Prod.fst).Nodup := by
  unfold PageTable.assign
  apply PageTable.keys_append_nodup (PageTable.keys_erase_nodup p h)
  intro g hg
  exact (PageTable.mem_erase.mp hg).2 rfl

theorem PageTable.keys_insert_nodup {t : PageTable} (p : PageId) (f : Nat)
    (h : (t.map Prod.fst).Nodup) : ((PageTable.insert t p f).map Prod.fst).Nodup := by
  unfold PageTable.insert
  split
  · exact h
  · rename_i hnone
    exact PageTable.keys_append_nodup h (PageTable.find_none_iff.mp hnone)

/-! ## The invariant `Coherent` -/

theorem Coherent.coherent_new (cfg : Config) (n : Nat) (d : DiskManager) :
    Coherent cfg (BufferPool.new cfg n d) where
  pages_length := by simp [BufferPool.new]
  table_page := by intro p f h; simp [BufferPool.new] at h
  keys_nodup := by simp [BufferPool.new]
  free_nodup := by simpa [BufferPool.new] using List.nodup_range n
  free_lt := by intro f h; simpa [BufferPool.new] using h
  free_page := by
    intro f h
    have hf : f < n := by simpa [BufferPool.new] using h
    simp [BufferPool.new, BufferPool.page, List.getElem?_replicate, hf, Page.fresh,
      PageId.invalid]
  evictable_lt := by intro f h; simp [BufferPool.new] at h

/-- A change that keeps the frame table, the free list, the `PageId` of every frame and the
pin count of every free frame keeps the invariant. -/
theorem Coherent.of_same_ids {cfg : Config} {bp bp' : BufferPool} (h : Coherent cfg bp)
    (hsize : bp'.pool_size_ = bp.pool_size_) (htable : bp'.page_table_ = bp.page_table_)
    (hfree : bp'.free_list_ = bp.free_list_) (hlen : bp'.pages_.length = bp.pages_.length)
    (hid : ∀ g, (bp'.page cfg g).page_id_ = (bp.page cfg g).page_id_)
    (hpin : ∀ g ∈ bp.free_list_, (bp'.page cfg g).pin_count_ = (bp.page cfg g).pin_count_)
    (hev : ∀ g ∈ bp'.replacer_.evictable, g < bp.pool_size_) : Coherent cfg bp' where
  pages_length := by rw [hlen, hsize, h.pages_length]
  table_page := by
    intro p f hm
    rw [htable] at hm
    rw [hsize, hid, hfree]
    exact h.table_page p f hm
  keys_nodup := by rw [htable]; exact h.keys_nodup
  free_nodup := by rw [hfree]; exact h.free_nodup
  free_lt := by rw [hfree, hsize]; exact h.free_lt
  free_page := by
    intro f hf
    rw [hfree] at hf
    rw [hid, hpin f hf]
    exact h.free_page f hf
  evictable_lt := by rw [hsize]; exact hev

/-- Replacing the page of a resident frame by one with the same `PageId` keeps the
invariant, whatever happens to the disk, provided the evictable set stays in range. -/
theorem Coherent.of_set_resident {cfg : Config} {bp bp' : BufferPool} {f : Nat} {p : PageId}
    {pg : Page} (h : Coherent cfg bp) (hm : (p, f) ∈ bp.page_table_)
    (hsize : bp'.pool_size_ = bp.pool_size_) (htable : bp'.page_table_ = bp.page_table_)
    (hfree : bp'.free_list_ = bp.free_list_) (hpages : bp'.pages_ = bp.pages_.set f pg)
    (hpg : pg.page_id_ = (bp.page cfg f).page_id_)
    (hev : ∀ g ∈ bp'.replacer_.evictable, g < bp.pool_size_) : Coherent cfg bp' := by
  refine Coherent.of_same_ids h hsize htable hfree (by rw [hpages]; simp) ?_ ?_ hev
  · intro g
    rw [BufferPool.page_of_set hpages]
    split
    · rename_i hg; rw [hg.1, hpg]
    · rfl
  · intro g hg
    rw [BufferPool.page_of_set hpages]
    have : g ≠ f := by
      intro e
      rw [e] at hg
      exact (h.table_page p f hm).2.2 hg
    simp [this]

theorem Coherent.allocate {cfg : Config} {bp bp1 : BufferPool} {draw f : Nat}
    (h : Coherent cfg bp) (ha : AllocateFrame cfg bp draw = .returned (some f) bp1) :
    Coherent cfg bp1 ∧ f < bp1.pool_size_ ∧ f ∉ bp1.free_list_ ∧
      bp1.page_table_ = bp.page_table_ := by
  rcases AllocateFrame_some ha with ⟨hfree, hsize, hrep, -, hpages, htable⟩ |
    ⟨hfree, hmem, -, hsize, hrep, -, hpages, htable, hfree1⟩
  · have hnd := h.free_nodup
    rw [hfree] at hnd
    have hnm : f ∉ bp1.free_list_ := (List.nodup_cons.mp hnd).1
    have hlt : f < bp.pool_size_ := h.free_lt f (by rw [hfree]; exact List.mem_cons_self _ _)
    have hpage : ∀ g, bp1.page cfg g = bp.page cfg g := by
      intro g; simp only [BufferPool.page, hpages]
    have hsub : ∀ g, g ∈ bp1.free_list_ → g ∈ bp.free_list_ := by
      intro g hg; rw [hfree]; exact List.mem_cons_of_mem _ hg
    refine ⟨?_, by rw [hsize]; exact hlt, hnm, htable⟩
    refine ⟨by rw [hpages, hsize]; exact h.pages_length, ?_, by rw [htable]; exact h.keys_nodup,
      (List.nodup_cons.mp hnd).2, ?_, ?_, by rw [hrep, hsize]; exact h.evictable_lt⟩
    · intro p g hm
      rw [htable] at hm
      obtain ⟨h1, h2, h3⟩ := h.table_page p g hm
      rw [hsize, hpage]
      exact ⟨h1, h2, fun hg => h3 (hsub g hg)⟩
    · intro g hg
      rw [hsize]
      exact h.free_lt g (hsub g hg)
    · intro g hg
      rw [hpage]
      exact h.free_page g (hsub g hg)
  · have hlt : f < bp.pool_size_ := h.evictable_lt f hmem
    refine ⟨?_, by rw [hsize]; exact hlt, by rw [hfree1]; simp, htable⟩
    refine Coherent.of_same_ids h hsize htable (by rw [hfree1, hfree]) (by rw [hpages]; simp)
      ?_ ?_ ?_
    · intro g
      rw [BufferPool.page_of_set hpages]
      split
      · rename_i hg; rw [hg.1]; rfl
      · rfl
    · intro g hg
      rw [hfree] at hg
      cases hg
    · intro g hg
      rw [hrep] at hg
      exact h.evictable_lt g (RandomBogoReplacer.mem_Pin.mp hg).1

/-- Installing page `p` in a frame `f` that is off the free list, after dropping the entry of
the page the frame held, keeps the invariant.  Both `NewPage` and the miss path of
`FetchPage` end this way. -/
theorem Coherent.coherent_install {cfg : Config} {bp1 bp' : BufferPool} {f : Nat} {p : PageId}
    {pg : Page} (h : Coherent cfg bp1) (hlt : f < bp1.pool_size_) (hnf : f ∉ bp1.free_list_)
    (hsize : bp'.pool_size_ = bp1.pool_size_)
    (hev : ∀ g ∈ bp'.replacer_.evictable, g < bp1.pool_size_)
    (hpages : bp'.pages_ = bp1.pages_.set f pg) (hpg : pg.page_id_ = p)
    (htable : ∀ q g, (q, g) ∈ bp'.page_table_ →
      ((q, g) ∈ bp1.page_table_ ∧ q ≠ (bp1.page cfg f).page_id_) ∨ (q = p ∧ g = f))
    (hkeys : (bp'.page_table_.map Prod.fst).Nodup)
    (hfree : bp'.free_list_ = bp1.free_list_) : Coherent cfg bp' where
  pages_length := by rw [hpages, hsize, List.length_set, h.pages_length]
  table_page := by
    intro q g hm
    rw [hsize, hfree, BufferPool.page_of_set hpages]
    rcases htable q g hm with ⟨hm1, hq⟩ | ⟨hq, hg⟩
    · obtain ⟨h1, h2, h3⟩ := h.table_page q g hm1
      refine ⟨h1, ?_, h3⟩
      have hgf : g ≠ f := by
        intro e
        rw [e] at h2
        exact hq h2.symm
      simp [hgf, h2]
    · subst hq; subst hg
      refine ⟨hlt, ?_, hnf⟩
      have : g < bp1.pages_.length := by rw [h.pages_length]; exact hlt
      simp [this, hpg]
  keys_nodup := hkeys
  free_nodup := by rw [hfree]; exact h.free_nodup
  free_lt := by rw [hfree, hsize]; exact h.free_lt
  free_page := by
    intro g hg
    rw [hfree] at hg
    rw [BufferPool.page_of_set hpages]
    have : g ≠ f := by
      intro e
      rw [e] at hg
      exact hnf hg
    simp only [this, false_and, if_false]
    exact h.free_page g hg
  evictable_lt := by rw [hsize]; exact hev

theorem Coherent.coherent_NewPage {cfg : Config} {bp bp' : BufferPool} {a a' : PageAllocator}
    {draw f : Nat} {p : PageId} (h : Coherent cfg bp)
    (hn : NewPage cfg bp a draw = .returned (f, p, a') bp') : Coherent cfg bp' := by
  obtain ⟨bp1, ha, -, -, -, hsize, hrep, -, hpages, htable, hfree⟩ := NewPage_returned hn
  obtain ⟨h1, hlt, hnf, -⟩ := h.allocate ha
  refine h1.coherent_install hlt hnf hsize ?_ hpages rfl ?_ ?_ hfree
  · intro g hg
    rw [hrep] at hg
    exact h1.evictable_lt g (RandomBogoReplacer.mem_Pin.mp hg).1
  · intro q g hm
    rw [htable, PageTable.mem_assign, PageTable.mem_erase] at hm
    rcases hm with ⟨⟨hm1, hq⟩, -⟩ | hm
    · exact Or.inl ⟨hm1, hq⟩
    · exact Or.inr hm
  · rw [htable]
    exact PageTable.keys_assign_nodup _ _ (PageTable.keys_erase_nodup _ h1.keys_nodup)

theorem Coherent.coherent_FetchPage {cfg : Config} {bp bp' : BufferPool} {p : PageId} {draw f : Nat}
    (h : Coherent cfg bp) (hf : FetchPage cfg bp p draw = .returned f bp') :
    Coherent cfg bp' := by
  obtain ⟨-, hcase⟩ := FetchPage_returned hf
  rcases hcase with ⟨hfind, hsize, hrep, -, hpages, htable, hfree⟩ |
    ⟨hfind, bp1, ha, hsize, hrep, -, hpages, htable, hfree⟩
  · refine h.of_set_resident (PageTable.find_some_mem hfind) hsize htable hfree hpages rfl ?_
    intro g hg
    rw [hrep] at hg
    exact h.evictable_lt g (RandomBogoReplacer.mem_Pin.mp hg).1
  · obtain ⟨h1, hlt, hnf, ht1⟩ := h.allocate ha
    refine h1.coherent_install hlt hnf hsize ?_ hpages rfl ?_ ?_ hfree
    · intro g hg
      rw [hrep] at hg
      exact h1.evictable_lt g hg
    · intro q g hm
      have hnone : PageTable.find (PageTable.erase bp1.page_table_
          (bp1.page cfg f).page_id_) p = none := by
        apply PageTable.find_erase_none
        rw [ht1]; exact hfind
      rw [htable, PageTable.mem_insert hnone, PageTable.mem_erase] at hm
      exact hm
    · rw [htable]
      exact PageTable.keys_insert_nodup _ _ (PageTable.keys_erase_nodup _ h1.keys_nodup)

theorem Coherent.coherent_UnpinPage {cfg : Config} {bp bp' : BufferPool} {p : PageId} {d b : Bool}
    (h : Coherent cfg bp) (hu : UnpinPage cfg bp p d = .returned b bp') :
    Coherent cfg bp' := by
  obtain ⟨-, hcase⟩ := UnpinPage_returned hu
  rcases hcase with ⟨-, -, -, hbp⟩ | ⟨f, hfind, hsize, -, htable, hfree, hcase⟩
  · rw [hbp]; exact h
  · have hm := PageTable.find_some_mem hfind
    have hflt : f < bp.pool_size_ := (h.table_page p f hm).1
    rcases hcase with ⟨-, -, hrep, hpages⟩ | ⟨-, -, -, hrep, hpages⟩
    · refine h.of_set_resident hm hsize htable hfree hpages ?_ ?_
      · split <;> rfl
      · rw [hrep]; exact h.evictable_lt
    · refine h.of_set_resident hm hsize htable hfree hpages ?_ ?_
      · simp only; split <;> rfl
      · intro g hg
        rw [hrep] at hg
        split at hg
        · rcases RandomBogoReplacer.mem_Unpin.mp hg with hg | hg
          · exact h.evictable_lt g hg
          · rw [hg]; exact hflt
        · exact h.evictable_lt g hg

theorem Coherent.coherent_FlushPage {cfg : Config} {bp : BufferPool} (p : PageId)
    (h : Coherent cfg bp) : Coherent cfg (FlushPage cfg bp p).2 := by
  cases hfind : bp.page_table_.find p with
  | none => rw [FlushPage_none hfind]; exact h
  | some f =>
    rw [FlushPage_some hfind]
    exact h.of_set_resident (PageTable.find_some_mem hfind) rfl rfl rfl rfl rfl h.evictable_lt

theorem Coherent.coherent_flushFrames {cfg : Config} (frames : List Nat) :
    ∀ {bp : BufferPool}, Coherent cfg bp → Coherent cfg (flushFrames cfg frames bp) := by
  induction frames with
  | nil => intro bp h; exact h
  | cons i rest ih => intro bp h; exact ih (h.coherent_FlushPage _)

theorem Coherent.coherent_FlushAllPages {cfg : Config} {bp : BufferPool} (h : Coherent cfg bp) :
    Coherent cfg (FlushAllPages cfg bp) :=
  Coherent.coherent_flushFrames _ h

theorem Coherent.coherent_DeletePage {cfg : Config} {bp : BufferPool} (p : PageId)
    (h : Coherent cfg bp) : Coherent cfg (DeletePage cfg bp p).2 := by
  cases hfind : bp.page_table_.find p with
  | none => rw [DeletePage_none hfind]; exact h
  | some f =>
    by_cases hpin : 0 < (bp.page cfg f).pin_count_
    · rw [DeletePage_pinned hfind hpin]; exact h
    · rw [DeletePage_unpinned hfind hpin]
      obtain ⟨hflt, hfid, hfnf⟩ := h.table_page p f (PageTable.find_some_mem hfind)
      have hlen : f < bp.pages_.length := by rw [h.pages_length]; exact hflt
      refine ⟨by simp [h.pages_length], ?_, PageTable.keys_erase_nodup _ h.keys_nodup,
        ?_, ?_, ?_, h.evictable_lt⟩
      · intro q g hm
        simp only [PageTable.mem_erase] at hm
        obtain ⟨h1, h2, h3⟩ := h.table_page q g hm.1
        have hgf : g ≠ f := by
          intro e
          rw [e, hfid] at h2
          exact hm.2 h2.symm
        refine ⟨h1, ?_, ?_⟩
        · rw [@BufferPool.page_of_set cfg bp _ f _ rfl]
          simp [hgf, h2]
        · simp [h3, hgf]
      · simp only
        rw [List.nodup_append]
        refine ⟨h.free_nodup, List.nodup_singleton f, ?_⟩
        intro x hx hx'
        rw [List.mem_singleton] at hx'
        subst hx'
        exact hfnf hx
      · intro g hg
        simp only [List.mem_append, List.mem_singleton] at hg
        rcases hg with hg | hg
        · exact h.free_lt g hg
        · rw [hg]; exact hflt
      · intro g hg
        simp only [List.mem_append, List.mem_singleton] at hg
        rw [@BufferPool.page_of_set cfg bp _ f _ rfl]
        by_cases hgf : g = f
        · simp [hgf, hlen]
        · rcases hg with hg | hg
          · simp only [hgf, false_and, if_false]
            exact h.free_page g hg
          · exact absurd hg hgf

theorem Coherent.coherent_WriteData {cfg : Config} {bp : BufferPool} (f : Nat) (data : List data_t)
    (h : Coherent cfg bp) : Coherent cfg (WriteData bp f data) := by
  unfold db.WriteData
  split
  · exact h
  · rename_i pg hpg
    have hpage : bp.page cfg f = pg := by
      simp only [BufferPool.page, List.getD_eq_getElem?_getD, hpg, Option.getD_some]
    refine Coherent.of_same_ids h ?_ ?_ ?_ ?_ ?_ ?_ ?_
    · rfl
    · rfl
    · rfl
    · simp [BufferPool.setPage]
    · intro g
      rw [BufferPool.page_setPage]
      split
      · rename_i hg
        rw [hg.1, hpage]
      · rfl
    · intro g _
      rw [BufferPool.page_setPage]
      split
      · rename_i hg
        rw [hg.1, hpage]
      · rfl
    · exact h.evictable_lt

theorem Coherent.coherent_step {cfg : Config} {w w' : System} {op : Op} (h : Coherent cfg w.pool)
    (hs : step cfg w op = some w') : Coherent cfg w'.pool := by
  cases op with
  | NewPage table_id draw =>
    simp only [db.step] at hs
    split at hs
    · rename_i f p a bp' hn
      simp only [Option.some.injEq] at hs
      subst hs
      exact h.coherent_NewPage hn
    · rename_i bp' hn
      simp only [Option.some.injEq] at hs
      subst hs
      rw [(NewPage_thrown hn).1]; exact h
    · cases hs
  | FetchPage page_id draw =>
    simp only [db.step] at hs
    split at hs
    · rename_i f bp' hn
      simp only [Option.some.injEq] at hs
      subst hs
      exact h.coherent_FetchPage hn
    · rename_i bp' hn
      simp only [Option.some.injEq] at hs
      subst hs
      rw [(FetchPage_thrown hn).1]; exact h
    · cases hs
  | UnpinPage page_id is_dirty =>
    simp only [db.step] at hs
    split at hs
    · rename_i b bp' hn
      simp only [Option.some.injEq] at hs
      subst hs
      exact h.coherent_UnpinPage hn
    · rename_i bp' hn
      exact absurd hn UnpinPage_thrown
    · cases hs
  | FlushPage page_id =>
    simp only [db.step, Option.some.injEq] at hs
    subst hs
    exact h.coherent_FlushPage _
  | FlushAllPages =>
    simp only [db.step, Option.some.injEq] at hs
    subst hs
    exact h.coherent_FlushAllPages
  | DeletePage page_id =>
    simp only [db.step, Option.some.injEq] at hs
    subst hs
    exact h.coherent_DeletePage _
  | WriteData frame_id data =>
    simp only [db.step, Option.some.injEq] at hs
    subst hs
    exact h.coherent_WriteData _ _

theorem Coherent.coherent_run {cfg : Config} (ops : List Op) :
    ∀ {w w' : System}, Coherent cfg w.pool → run cfg w ops = some w' →
      Coherent cfg w'.pool := by
  induction ops with
  | nil =>
    intro w w' h hr
    simp only [db.run, Option.some.injEq] at hr
    subst hr; exact h
  | cons op rest ih =>
    intro w w' h hr
    simp only [db.run] at hr
    split at hr
    · cases hr
    · rename_i w1 hs
      exact ih (h.coherent_step hs) hr

theorem Reachable.reachable_coherent {cfg : Config} {n : Nat} {w : System} (h : Reachable cfg n w) :
    Coherent cfg w.pool := by
  obtain ⟨d, a, ops, hr⟩ := h
  exact Coherent.coherent_run ops (Coherent.coherent_new cfg n d) hr
theorem scenario_reachable {cfg : Config} {n : Nat} {ops : List Op}
    (h : (run cfg (System.fresh cfg n) ops).isSome = true) :
    Reachable cfg n (scenario cfg n ops) := by
  refine ⟨⟨[]⟩, fun _ => 0, ops, ?_⟩
  unfold scenario
  cases hr : run cfg (System.fresh cfg n) ops with
  | none => rw [hr] at h; cases h
  | some w =>
    have : run cfg (System.new cfg n ⟨[]⟩ fun _ => 0) ops = some w := hr
    rw [this]; rfl

/-! ## C1: frame-table entries agree with the frames -/

/-- C1: in every buffer-pool state reachable from construction by any sequence of `NewPage`,
`FetchPage`, `UnpinPage`, `FlushPage`, `FlushAllPages` and `DeletePage` calls (and writes
into frames), every frame-table entry `(p, f)` names a frame of the pool with
`pages_[f].page_id_ = p`, and `f` is not on the free list. -/
theorem C1_frame_table_entry_matches_frame (cfg : Config) (pool_size : Nat) (w : System)
    (h : Reachable cfg pool_size w) (p : PageId) (f : Nat)
    (hm : (p, f) ∈ w.pool.page_table_) :
    f < w.pool.pages_.length ∧ (w.pool.page cfg f).page_id_ = p ∧ f ∉ w.pool.free_list_ := by
  have hc := h.reachable_coherent
  obtain ⟨h1, h2, h3⟩ := hc.table_page p f hm
  exact ⟨by rw [hc.pages_length]; exact h1, h2, h3⟩

/-- Witness of C1: after `NewPage`, `NewPage`, `UnpinPage`, `DeletePage` on a pool of three
frames the entry `((0, 1), 1)` is in the frame table; frame 1 holds page `(0, 1)` and is
not on the free list. -/
theorem C1_frame_table_entry_matches_frame_witness :
    Reachable debugBuild 3 (scenario debugBuild 3 opsCreateTwoDeleteOne) ∧
      ((⟨0, 1⟩ : PageId), 1) ∈ (scenario debugBuild 3 opsCreateTwoDeleteOne).pool.page_table_ ∧
      (1 < (scenario debugBuild 3 opsCreateTwoDeleteOne).pool.pages_.length ∧
       ((scenario debugBuild 3 opsCreateTwoDeleteOne).pool.page debugBuild 1).page_id_
          = ⟨0, 1⟩ ∧
       1 ∉ (scenario debugBuild 3 opsCreateTwoDeleteOne).pool.free_list_) :=
  ⟨scenario_reachable (by decide), by decide,
    C1_frame_table_entry_matches_frame debugBuild 3 _ (scenario_reachable (by decide))
      ⟨0, 1⟩ 1 (by decide)⟩
/-! ## Callers that fetch only issued pages -/

theorem PageTable.erase_cons (q' : PageId) (g' : Nat) (rest : PageTable) (q : PageId) :
    PageTable.erase ((q', g') :: rest) q =
      if q' = q then PageTable.erase rest q else (q', g') :: PageTable.erase rest q := by
  unfold PageTable.erase
  by_cases h : q' = q
  · simp [List.filter_cons, h]
  · simp [List.filter_cons, h]

theorem PageTable.erase_eq_self {t : PageTable} {q : PageId} (h : ∀ g, (q, g) ∉ t) :
    PageTable.erase t q = t := by
  induction t with
  | nil => rfl
  | cons e rest ih =>
    obtain ⟨q', g'⟩ := e
    have hq : ¬ q' = q := by
      intro e
      subst e
      exact h g' (List.mem_cons_self _ _)
    rw [PageTable.erase_cons, if_neg hq, ih]
    intro g hg
    exact h g (List.mem_cons_of_mem _ hg)

theorem PageTable.length_erase {t : PageTable} {q : PageId} {g : Nat}
    (hk : (t.map Prod.fst).Nodup) (hm : (q, g) ∈ t) :
    (PageTable.erase t q).length + 1 = t.length := by
  induction t with
  | nil => cases hm
  | cons e rest ih =>
    obtain ⟨q', g'⟩ := e
    simp only [List.map_cons, List.nodup_cons] at hk
    rw [PageTable.erase_cons]
    by_cases hq : q' = q
    · subst hq
      have hrest : ∀ g, (q', g) ∉ rest := by
        intro g1 hg1
        apply hk.1
        exact List.mem_map.mpr ⟨(q', g1), hg1, rfl⟩
      rw [if_pos rfl, PageTable.erase_eq_self hrest]
      rfl
    · have hm' : (q, g) ∈ rest := by
        rcases List.mem_cons.mp hm with h1 | h1
        · simp only [Prod.mk.injEq] at h1
          exact absurd h1.1.symm hq
        · exact h1
      rw [if_neg hq, List.length_cons, List.length_cons, ih hk.2 hm']

theorem PageTable.assign_of_fresh {t : PageTable} {p : PageId} (f : Nat)
    (h : ∀ g, (p, g) ∉ t) : PageTable.assign t p f = t ++ [(p, f)] := by
  unfold PageTable.assign
  rw [PageTable.erase_eq_self h]

theorem PageTable.insert_of_fresh {t : PageTable} {p : PageId} (f : Nat)
    (h : PageTable.find t p = none) : PageTable.insert t p f = t ++ [(p, f)] := by
  unfold PageTable.insert
  rw [h]

theorem Tidy.tidy_new (cfg : Config) (n : Nat) (d : DiskManager) (a : Int → Nat) :
    Tidy cfg (System.new cfg n d a) where
  coherent := Coherent.coherent_new cfg n d
  covered := by
    intro f hf
    left
    simpa [System.new, BufferPool.new] using hf
  issued := by intro p f h; simp [System.new, BufferPool.new] at h
  count := by simp [System.new, BufferPool.new]

/-- A step that keeps the frame table, the free list and the allocators keeps `Tidy`. -/
theorem Tidy.of_same_table {cfg : Config} {w w' : System} (h : Tidy cfg w)
    (hc : Coherent cfg w'.pool) (hsize : w'.pool.pool_size_ = w.pool.pool_size_)
    (htable : w'.pool.page_table_ = w.pool.page_table_)
    (hfree : w'.pool.free_list_ = w.pool.free_list_)
    (halloc : w'.allocators = w.allocators) : Tidy cfg w' where
  coherent := hc
  covered := by rw [hsize, htable, hfree]; exact h.covered
  issued := by rw [htable, halloc]; exact h.issued
  count := by rw [hsize, htable, hfree]; exact h.count

/-- A frame obtained from `AllocateFrame` and entered in the frame table under a page that
was not resident keeps `Tidy`. -/
theorem Tidy.tidy_install {cfg : Config} {w : System} {bp1 bp' : BufferPool} {alloc' : Int → Nat}
    {draw f : Nat} {p : PageId} (h : Tidy cfg w)
    (ha : AllocateFrame cfg w.pool draw = .returned (some f) bp1)
    (hc : Coherent cfg bp') (hsize : bp'.pool_size_ = bp1.pool_size_)
    (hfree : bp'.free_list_ = bp1.free_list_)
    (htable : bp'.page_table_ =
      PageTable.erase bp1.page_table_ (bp1.page cfg f).page_id_ ++ [(p, f)])
    (hmono : ∀ q, Issued w.allocators q → Issued alloc' q) (hp : Issued alloc' p) :
    Tidy cfg ⟨bp', alloc'⟩ := by
  have hissued : ∀ q g, (q, g) ∈ bp'.page_table_ → Issued alloc' q := by
    intro q g hm
    rw [htable, List.mem_append, PageTable.mem_erase, List.mem_singleton] at hm
    rcases hm with ⟨hm, -⟩ | hm
    · have ht1 := (h.coherent.allocate ha).2.2.2
      rw [ht1] at hm
      exact hmono q (h.issued q g hm)
    · simp only [Prod.mk.injEq] at hm
      rw [hm.1]; exact hp
  rcases AllocateFrame_some ha with ⟨hfl, hsz, -, -, hpages, ht⟩ |
    ⟨hfl, hmem, -, hsize1, -, -, hpages, htable1, hfree1⟩
  · -- the frame comes from the free list
    have hold : ∀ g, ((bp1.page cfg f).page_id_, g) ∉ bp1.page_table_ := by
      intro g hg
      rw [ht] at hg
      have hi := h.issued _ g hg
      have hfp := (h.coherent.free_page f (by rw [hfl]; exact List.mem_cons_self _ _)).1
      have : bp1.page cfg f = w.pool.page cfg f := by simp only [BufferPool.page, hpages]
      rw [this] at hi
      have hi1 := hi.1
      rw [hfp] at hi1
      exact absurd hi1 (by decide)
    rw [PageTable.erase_eq_self hold] at htable
    refine ⟨hc, ?_, hissued, ?_⟩
    · intro g hg
      simp only [hsize, hsz] at hg
      simp only [hfree, htable, ht, List.mem_append, List.mem_singleton]
      rcases h.covered g hg with hgf | ⟨q, hq⟩
      · rw [hfl] at hgf
        rcases List.mem_cons.mp hgf with e | hgr
        · right; exact ⟨p, Or.inr (by rw [e])⟩
        · left; exact hgr
      · right; exact ⟨q, Or.inl hq⟩
    · have hcount := h.count
      rw [hfl] at hcount
      simp only [hfree, htable, ht, hsize, hsz, List.length_append, List.length_cons,
        List.length_nil] at hcount ⊢
      omega
  · -- the frame is evicted
    have hflt : f < w.pool.pool_size_ := h.coherent.evictable_lt f hmem
    have hres : ∃ q, (q, f) ∈ w.pool.page_table_ := by
      rcases h.covered f hflt with hgf | hq
      · rw [hfl] at hgf; cases hgf
      · exact hq
    obtain ⟨q0, hq0⟩ := hres
    have hid0 : (w.pool.page cfg f).page_id_ = q0 := (h.coherent.table_page q0 f hq0).2.1
    have hid1 : (bp1.page cfg f).page_id_ = q0 := by
      rw [BufferPool.page_of_set hpages]
      split
      · exact hid0
      · exact hid0
    rw [hid1, htable1] at htable
    refine ⟨hc, ?_, hissued, ?_⟩
    · intro g hg
      simp only [hsize, hsize1] at hg
      simp only [hfree, hfree1, htable, List.mem_append, List.mem_singleton,
        PageTable.mem_erase]
      right
      rcases h.covered g hg with hgf | ⟨q, hq⟩
      · rw [hfl] at hgf; cases hgf
      · by_cases hqq : q = q0
        · subst hqq
          have hgid := (h.coherent.table_page q g hq).2.1
          refine ⟨p, Or.inr ?_⟩
          have hk := h.coherent.keys_nodup
          have : g = f := by
            by_contra hne
            have h1 : (q, g) ∈ w.pool.page_table_ := hq
            have h2 : (q, f) ∈ w.pool.page_table_ := hq0
            have := List.inj_on_of_nodup_map hk h1 h2 rfl
            simp only [Prod.mk.injEq, true_and] at this
            exact hne this
          rw [this]
        · exact ⟨q, Or.inl ⟨hq, hqq⟩⟩
    · have hcount := h.count
      rw [hfl] at hcount
      have hlen := PageTable.length_erase h.coherent.keys_nodup hq0
      simp only [hfree, hfree1, htable, hsize, hsize1, List.length_append, List.length_cons,
        List.length_nil] at hcount ⊢
      omega
theorem FlushPage_fields (cfg : Config) (bp : BufferPool) (p : PageId) :
    (FlushPage cfg bp p).2.pool_size_ = bp.pool_size_ ∧
    (FlushPage cfg bp p).2.page_table_ = bp.page_table_ ∧
    (FlushPage cfg bp p).2.free_list_ = bp.free_list_ ∧
    (FlushPage cfg bp p).2.replacer_ = bp.replacer_ := by
  cases hfind : bp.page_table_.find p with
  | none => rw [FlushPage_none hfind]; exact ⟨rfl, rfl, rfl, rfl⟩
  | some f => rw [FlushPage_some hfind]; exact ⟨rfl, rfl, rfl, rfl⟩

theorem flushFrames_fields (cfg : Config) (frames : List Nat) :
    ∀ bp : BufferPool,
      (flushFrames cfg frames bp).pool_size_ = bp.pool_size_ ∧
      (flushFrames cfg frames bp).page_table_ = bp.page_table_ ∧
      (flushFrames cfg frames bp).free_list_ = bp.free_list_ ∧
      (flushFrames cfg frames bp).replacer_ = bp.replacer_ := by
  induction frames with
  | nil => intro bp; exact ⟨rfl, rfl, rfl, rfl⟩
  | cons i rest ih =>
    intro bp
    obtain ⟨h1, h2, h3, h4⟩ := ih (FlushPage cfg bp (bp.page cfg i).page_id_).2
    obtain ⟨e1, e2, e3, e4⟩ := FlushPage_fields cfg bp (bp.page cfg i).page_id_
    exact ⟨h1.trans e1, h2.trans e2, h3.trans e3, h4.trans e4⟩

theorem WriteData_fields (bp : BufferPool) (f : Nat) (data : List data_t) :
    (WriteData bp f data).pool_size_ = bp.pool_size_ ∧
    (WriteData bp f data).page_table_ = bp.page_table_ ∧
    (WriteData bp f data).free_list_ = bp.free_list_ ∧
    (WriteData bp f data).replacer_ = bp.replacer_ ∧
    (WriteData bp f data).disk_manager_ = bp.disk_manager_ := by
  unfold WriteData
  split
  · exact ⟨rfl, rfl, rfl, rfl, rfl⟩
  · exact ⟨rfl, rfl, rfl, rfl, rfl⟩

theorem Tidy.tidy_DeletePage {cfg : Config} {w : System} (p : PageId) (h : Tidy cfg w) :
    Tidy cfg { w with pool := (DeletePage cfg w.pool p).2 } := by
  have hc := h.coherent.coherent_DeletePage p
  cases hfind : w.pool.page_table_.find p with
  | none =>
    rw [DeletePage_none hfind] at hc ⊢
    exact h
  | some f =>
    by_cases hpin : 0 < (w.pool.page cfg f).pin_count_
    · rw [DeletePage_pinned hfind hpin] at hc ⊢
      exact h
    · rw [DeletePage_unpinned hfind hpin] at hc ⊢
      have hm := PageTable.find_some_mem hfind
      refine ⟨hc, ?_, ?_, ?_⟩
      · intro g hg
        simp only [List.mem_append, List.mem_singleton, PageTable.mem_erase]
        rcases h.covered g hg with hgf | ⟨q, hq⟩
        · exact Or.inl (Or.inl hgf)
        · by_cases hqp : q = p
          · subst hqp
            have := List.inj_on_of_nodup_map h.coherent.keys_nodup hq hm rfl
            simp only [Prod.mk.injEq, true_and] at this
            exact Or.inl (Or.inr this)
          · exact Or.inr ⟨q, hq, hqp⟩
      · intro q g hq
        simp only [PageTable.mem_erase] at hq
        exact h.issued q g hq.1
      · have hlen := PageTable.length_erase h.coherent.keys_nodup hm
        have hcount := h.count
        simp only [List.length_append, List.length_cons, List.length_nil] at hcount ⊢
        omega

/-- Every action of a caller that fetches only issued pages keeps `Tidy`. -/
theorem Tidy.tidy_step {cfg : Config} {w w' : System} {op : Op} (h : Tidy cfg w)
    (hop : FetchesIssued w op) (hs : step cfg w op = some w') : Tidy cfg w' := by
  have hcoh : Coherent cfg w'.pool := h.coherent.coherent_step hs
  cases op with
  | NewPage table_id draw =>
    simp only [db.step] at hs
    split at hs
    · rename_i f p a bp' hn
      simp only [Option.some.injEq] at hs
      subst hs
      obtain ⟨bp1, ha, hp, ha', -, hsize, -, -, -, htable, hfree⟩ := NewPage_returned hn
      simp only at hp ha'
      have ht1 := (h.coherent.allocate ha).2.2.2
      have hfresh : ∀ g, (p, g) ∉ PageTable.erase bp1.page_table_
          (bp1.page cfg f).page_id_ := by
        intro g hg
        have hm := (PageTable.mem_erase.mp hg).1
        rw [ht1] at hm
        have hi := (h.issued p g hm).2
        rw [hp] at hi
        simp only at hi
        omega
      rw [PageTable.assign_of_fresh f hfresh] at htable
      refine h.tidy_install ha hcoh hsize hfree htable ?_ ?_
      · intro q hq
        refine ⟨hq.1, ?_⟩
        have := hq.2
        rw [ha']
        simp only
        split
        · rename_i e; rw [e] at this; omega
        · exact this
      · rw [hp, ha']
        refine ⟨by simp, ?_⟩
        simp
    · rename_i bp' hn
      simp only [Option.some.injEq] at hs
      subst hs
      rw [(NewPage_thrown hn).1]; exact h
    · cases hs
  | FetchPage page_id draw =>
    simp only [db.step] at hs
    split at hs
    · rename_i f bp' hn
      simp only [Option.some.injEq] at hs
      subst hs
      obtain ⟨-, hcase⟩ := FetchPage_returned hn
      rcases hcase with ⟨-, hsize, -, -, -, htable, hfree⟩ |
        ⟨hfind, bp1, ha, hsize, -, -, -, htable, hfree⟩
      · exact h.of_same_table hcoh hsize htable hfree rfl
      · have ht1 := (h.coherent.allocate ha).2.2.2
        have hnone : PageTable.find (PageTable.erase bp1.page_table_
            (bp1.page cfg f).page_id_) page_id = none := by
          apply PageTable.find_erase_none
          rw [ht1]; exact hfind
        rw [PageTable.insert_of_fresh f hnone] at htable
        exact h.tidy_install ha hcoh hsize hfree htable (fun q hq => hq) hop
    · rename_i bp' hn
      simp only [Option.some.injEq] at hs
      subst hs
      rw [(FetchPage_thrown hn).1]; exact h
    · cases hs
  | UnpinPage page_id is_dirty =>
    simp only [db.step] at hs
    split at hs
    · rename_i b bp' hn
      simp only [Option.some.injEq] at hs
      subst hs
      obtain ⟨-, hcase⟩ := UnpinPage_returned hn
      rcases hcase with ⟨-, -, -, hbp⟩ | ⟨f, -, hsize, -, htable, hfree, -⟩
      · rw [hbp]; exact h
      · exact h.of_same_table hcoh hsize htable hfree rfl
    · rename_i bp' hn
      exact absurd hn UnpinPage_thrown
    · cases hs
  | FlushPage page_id =>
    simp only [db.step, Option.some.injEq] at hs
    subst hs
    obtain ⟨e1, e2, e3, -⟩ := FlushPage_fields cfg w.pool page_id
    exact h.of_same_table hcoh e1 e2 e3 rfl
  | FlushAllPages =>
    simp only [db.step, Option.some.injEq] at hs
    subst hs
    obtain ⟨e1, e2, e3, -⟩ := flushFrames_fields cfg (List.range w.pool.pool_size_) w.pool
    exact h.of_same_table hcoh e1 e2 e3 rfl
  | DeletePage page_id =>
    simp only [db.step, Option.some.injEq] at hs
    subst hs
    exact h.tidy_DeletePage page_id
  | WriteData frame_id data =>
    simp only [db.step, Option.some.injEq] at hs
    subst hs
    obtain ⟨e1, e2, e3, -, -⟩ := WriteData_fields w.pool frame_id data
    exact h.of_same_table hcoh e1 e2 e3 rfl

theorem Tidy.tidy_steps {cfg : Config} {w w' : System} (h : Tidy cfg w)
    (hs : Steps cfg FetchesIssued w w') : Tidy cfg w' := by
  induction hs with
  | refl => exact h
  | step _ hop hstep ih => exact ih.tidy_step hop hstep

theorem ReachableFetchingIssued.tidy {cfg : Config} {n : Nat} {w : System}
    (h : ReachableFetchingIssued cfg n w) : Tidy cfg w := by
  obtain ⟨d, a, hs⟩ := h
  exact (Tidy.tidy_new cfg n d a).tidy_steps hs

theorem Steps.steps_coherent {cfg : Config} {allowed : System → Op → Prop} {w w' : System}
    (hc : Coherent cfg w.pool) (hs : Steps cfg allowed w w') :
    Coherent cfg w'.pool := by
  induction hs with
  | refl => exact hc
  | step _ _ hstep ih => exact ih.coherent_step hstep
theorem AllocateFrame_pool_size {cfg : Config} {bp bp1 : BufferPool} {draw f : Nat}
    (ha : AllocateFrame cfg bp draw = .returned (some f) bp1) :
    bp1.pool_size_ = bp.pool_size_ := by
  rcases AllocateFrame_some ha with ⟨-, h, -⟩ | ⟨-, -, -, h, -⟩ <;> exact h

theorem DeletePage_pool_size (cfg : Config) (bp : BufferPool) (p : PageId) :
    (DeletePage cfg bp p).2.pool_size_ = bp.pool_size_ := by
  cases hfind : bp.page_table_.find p with
  | none => rw [DeletePage_none hfind]
  | some f =>
    by_cases hpin : 0 < (bp.page cfg f).pin_count_
    · rw [DeletePage_pinned hfind hpin]
    · rw [DeletePage_unpinned hfind hpin]

theorem step_pool_size {cfg : Config} {w w' : System} {op : Op}
    (hs : step cfg w op = some w') : w'.pool.pool_size_ = w.pool.pool_size_ := by
  cases op with
  | NewPage table_id draw =>
    simp only [db.step] at hs
    split at hs
    · rename_i f p a bp' hn
      simp only [Option.some.injEq] at hs
      subst hs
      obtain ⟨bp1, ha, -, -, -, hsize, -⟩ := NewPage_returned hn
      exact hsize.trans (AllocateFrame_pool_size ha)
    · rename_i bp' hn
      simp only [Option.some.injEq] at hs
      subst hs
      rw [(NewPage_thrown hn).1]
    · cases hs
  | FetchPage page_id draw =>
    simp only [db.step] at hs
    split at hs
    · rename_i f bp' hn
      simp only [Option.some.injEq] at hs
      subst hs
      obtain ⟨-, hcase⟩ := FetchPage_returned hn
      rcases hcase with ⟨-, hsize, -⟩ | ⟨-, bp1, ha, hsize, -⟩
      · exact hsize
      · exact hsize.trans (AllocateFrame_pool_size ha)
    · rename_i bp' hn
      simp only [Option.some.injEq] at hs
      subst hs
      rw [(FetchPage_thrown hn).1]
    · cases hs
  | UnpinPage page_id is_dirty =>
    simp only [db.step] at hs
    split at hs
    · rename_i b bp' hn
      simp only [Option.some.injEq] at hs
      subst hs
      obtain ⟨-, hcase⟩ := UnpinPage_returned hn
      rcases hcase with ⟨-, -, -, hbp⟩ | ⟨f, -, hsize, -⟩
      · rw [hbp]
      · exact hsize
    · rename_i bp' hn
      exact absurd hn UnpinPage_thrown
    · cases hs
  | FlushPage page_id =>
    simp only [db.step, Option.some.injEq] at hs
    subst hs
    exact (FlushPage_fields cfg w.pool page_id).1
  | FlushAllPages =>
    simp only [db.step, Option.some.injEq] at hs
    subst hs
    exact (flushFrames_fields cfg _ w.pool).1
  | DeletePage page_id =>
    simp only [db.step, Option.some.injEq] at hs
    subst hs
    exact DeletePage_pool_size cfg w.pool page_id
  | WriteData frame_id data =>
    simp only [db.step, Option.some.injEq] at hs
    subst hs
    exact (WriteData_fields w.pool frame_id data).1

theorem Steps.steps_pool_size {cfg : Config} {allowed : System → Op → Prop} {w w' : System}
    (hs : Steps cfg allowed w w') : w'.pool.pool_size_ = w.pool.pool_size_ := by
  induction hs with
  | refl => rfl
  | step _ _ hstep ih => exact (step_pool_size hstep).trans ih

/-! ## C2: the free list and the frame table partition the frames -/

/-- Counterexample to C2 as stated: on a fresh pool of two frames with all allocators at
page 0, `FetchPage((0, 0))` followed by `NewPage` for table 0 (which issues `(0, 0)`, so
that `page_table_[page_id] = frame_id` overwrites the entry of the fetched frame) is a
reachable state in which the free list is empty and the frame table has one entry:
`0 + 1 ≠ 2`.  No assertion fails on the way. -/
theorem C2_counterexample_fetch_unissued_then_new :
    Reachable debugBuild 2 (scenario debugBuild 2 opsFetchThenNew) ∧
      (scenario debugBuild 2 opsFetchThenNew).pool.free_list_.length +
        (scenario debugBuild 2 opsFetchThenNew).pool.page_table_.length = 1 ∧
      (scenario debugBuild 2 opsFetchThenNew).pool.pool_size_ = 2 :=
  ⟨scenario_reachable (by decide), by decide, by decide⟩

/-- C2 (amended): in every buffer-pool state reachable from construction by any sequence of
public operations in which every `FetchPage` targets a `PageId` that the allocator of its
table has already issued, no `PageId` has two frame-table entries and the number of frames
on the free list plus the number of frame-table entries equals `pool_size`. -/
theorem C2_free_plus_table_eq_pool_size (cfg : Config) (pool_size : Nat) (w : System)
    (h : ReachableFetchingIssued cfg pool_size w) :
    (w.pool.page_table_.map Prod.fst).Nodup ∧
      w.pool.free_list_.length + w.pool.page_table_.length = pool_size := by
  have ht := h.tidy
  obtain ⟨d, a, hs⟩ := h
  have hsz : w.pool.pool_size_ = pool_size := hs.steps_pool_size
  exact ⟨ht.coherent.keys_nodup, by rw [← hsz]; exact ht.count⟩
theorem runChecked_some {cfg : Config} {allowed : System → Op → Prop}
    [∀ w op, Decidable (allowed w op)] (ops : List Op) :
    ∀ {w w' : System}, runChecked cfg allowed w ops = some w' →
      run cfg w ops = some w' ∧ Steps cfg allowed w w' := by
  induction ops with
  | nil =>
    intro w w' h
    simp only [runChecked, Option.some.injEq] at h
    subst h
    exact ⟨rfl, Steps.refl _⟩
  | cons op rest ih =>
    intro w w' h
    simp only [runChecked] at h
    split at h
    · rename_i hop
      split at h
      · cases h
      · rename_i w1 hs
        obtain ⟨hr, hst⟩ := ih h
        refine ⟨by simp only [db.run, hs]; exact hr, ?_⟩
        -- prepend the first step
        have key : ∀ {u v : System}, Steps cfg allowed u v → u = w1 → Steps cfg allowed w v := by
          intro u v huv
          induction huv with
          | refl => intro e; subst e; exact Steps.step (Steps.refl _) hop hs
          | step _ hop' hs' ih' => intro e; exact Steps.step (ih' e) hop' hs'
        exact key hst rfl
    · cases h

theorem scenario_reachable_fetching_issued {cfg : Config} {n : Nat} {ops : List Op}
    (h : (runChecked cfg FetchesIssued (System.fresh cfg n) ops).isSome = true) :
    ReachableFetchingIssued cfg n (scenario cfg n ops) := by
  refine ⟨⟨[]⟩, fun _ => 0, ?_⟩
  cases hr : runChecked cfg FetchesIssued (System.fresh cfg n) ops with
  | none => rw [hr] at h; cases h
  | some w =>
    obtain ⟨h1, h2⟩ := runChecked_some ops hr
    unfold scenario
    rw [h1]
    exact h2

/-- Witness of C2 (amended): after `NewPage`, `UnpinPage`, `NewPage` and a `FetchPage` of the
first (issued) page on a pool of two frames, the free list and the frame table together
have two entries. -/
theorem C2_free_plus_table_eq_pool_size_witness :
    ReachableFetchingIssued debugBuild 2 (scenario debugBuild 2 opsCreateUnpinCreateFetch) ∧
      (((scenario debugBuild 2 opsCreateUnpinCreateFetch).pool.page_table_.map
          Prod.fst).Nodup ∧
        (scenario debugBuild 2 opsCreateUnpinCreateFetch).pool.free_list_.length +
          (scenario debugBuild 2 opsCreateUnpinCreateFetch).pool.page_table_.length = 2) :=
  ⟨scenario_reachable_fetching_issued (by decide),
    C2_free_plus_table_eq_pool_size debugBuild 2 _
      (scenario_reachable_fetching_issued (by decide))⟩
/-! ## C3 and C4: the evictable set after `DeletePage` and a `FetchPage` miss -/

/-- C3 (evaluation at the failing input): on a pool of one frame, `NewPage` (yielding page
`(0, 0)` in frame 0), `UnpinPage((0, 0), false)`, `DeletePage((0, 0))` leave frame 0 in the
evictable set although it is on the free list and no longer resident (`DeletePage` never
tells the replacer); the following `FetchPage((0, 0))` takes frame 0 from the free list
without `replacer_->Pin`, so frame 0 is resident with `pin_count_ = 1` and still in the
evictable set. -/
theorem C3_pinned_frame_left_in_evictable_set :
    ReachableFetchingIssued debugBuild 1 (scenario debugBuild 1 opsDeleteThenFetch) ∧
      (0 ∈ (scenario debugBuild 1 (opsDeleteThenFetch.take 3)).pool.replacer_.evictable ∧
        (scenario debugBuild 1 (opsDeleteThenFetch.take 3)).pool.page_table_ = [] ∧
        (scenario debugBuild 1 (opsDeleteThenFetch.take 3)).pool.free_list_ = [0]) ∧
      (0 ∈ (scenario debugBuild 1 opsDeleteThenFetch).pool.replacer_.evictable ∧
        (scenario debugBuild 1 opsDeleteThenFetch).pool.page_table_.find ⟨0, 0⟩ = some 0 ∧
        ((scenario debugBuild 1 opsDeleteThenFetch).pool.page debugBuild 0).pin_count_ = 1) :=
  ⟨scenario_reachable_fetching_issued (by decide), by decide, by decide⟩

/-- C4 (evaluation at the failing input): in the state reached by `NewPage`, `UnpinPage`,
`DeletePage`, `FetchPage` on a pool of one frame, frame 0 is pinned and in the evictable
set.  The next `NewPage` evicts it: with assertions on, `assert(pin_count_ == 0)` in
`AllocateFrame` fails; with assertions compiled out the call returns, and the pinned page
`(0, 0)` has lost its frame to the new page `(0, 1)`. -/
theorem C4_pinned_frame_evicted :
    (0 < ((scenario debugBuild 1 opsDeleteThenFetch).pool.page debugBuild 0).pin_count_ ∧
      0 ∈ (scenario debugBuild 1 opsDeleteThenFetch).pool.replacer_.evictable) ∧
    AllocateFrame debugBuild (scenario debugBuild 1 opsDeleteThenFetch).pool 0 = .aborted ∧
    NewPage debugBuild (scenario debugBuild 1 opsDeleteThenFetch).pool ⟨0, 1⟩ 0 = .aborted ∧
    ((scenario releaseBuild 1 opsDeleteThenFetch).pool.page_table_.find ⟨0, 0⟩ = some 0 ∧
      ((scenario releaseBuild 1 opsDeleteThenFetch).pool.page releaseBuild 0).pin_count_ = 1 ∧
      (run releaseBuild (System.fresh releaseBuild 1)
          (opsDeleteThenFetch ++ [.NewPage 0 0])).isSome = true ∧
      (scenario releaseBuild 1 (opsDeleteThenFetch ++ [.NewPage 0 0])).pool.page_table_
        = [(⟨0, 1⟩, 0)]) :=
  ⟨by decide, by decide, by decide, by decide⟩
/-! ## Forward evaluation of the methods -/

theorem PageTable.find_cons (q : PageId) (g : Nat) (rest : PageTable) (p : PageId) :
    PageTable.find ((q, g) :: rest) p = if q = p then some g else PageTable.find rest p := rfl

theorem PageTable.find_append_of_none {t1 t2 : PageTable} {p : PageId}
    (h : PageTable.find t1 p = none) : PageTable.find (t1 ++ t2) p = PageTable.find t2 p := by
  induction t1 with
  | nil => rfl
  | cons e rest ih =>
    obtain ⟨q, g⟩ := e
    rw [PageTable.find_cons] at h
    split at h
    · cases h
    · rename_i hq
      show PageTable.find ((q, g) :: (rest ++ t2)) p = _
      rw [PageTable.find_cons, if_neg hq]
      exact ih h

theorem PageTable.find_erase_self (t : PageTable) (p : PageId) :
    PageTable.find (PageTable.erase t p) p = none := by
  rw [PageTable.find_none_iff]
  intro f hf
  exact (PageTable.mem_erase.mp hf).2 rfl

theorem PageTable.find_assign_self (t : PageTable) (p : PageId) (f : Nat) :
    PageTable.find (PageTable.assign t p f) p = some f := by
  unfold PageTable.assign
  rw [PageTable.find_append_of_none (PageTable.find_erase_self t p)]
  simp [PageTable.find]

theorem PageTable.find_of_mem {t : PageTable} {p : PageId} {f : Nat}
    (hk : (t.map Prod.fst).Nodup) (hm : (p, f) ∈ t) : PageTable.find t p = some f := by
  cases hfind : PageTable.find t p with
  | none => exact absurd hm (PageTable.find_none_iff.mp hfind f)
  | some g =>
    have hg := PageTable.find_some_mem hfind
    have := List.inj_on_of_nodup_map hk hg hm rfl
    simp only [Prod.mk.injEq, true_and] at this
    rw [this]

theorem AllocateFrame_of_free {cfg : Config} {bp : BufferPool} {draw f : Nat} {rest : List Nat}
    (h : bp.free_list_ = f :: rest) :
    AllocateFrame cfg bp draw = .returned (some f) { bp with free_list_ := rest } := by
  simp only [AllocateFrame, h]

theorem AllocateFrame_of_empty {cfg : Config} {bp : BufferPool} {draw : Nat}
    (h : bp.free_list_ = []) (he : bp.replacer_.evictable = []) :
    AllocateFrame cfg bp draw = .returned none bp := by
  simp only [AllocateFrame, h, RandomBogoReplacer.Evict, he]

theorem AllocateFrame_of_evict {cfg : Config} {bp : BufferPool} {draw f : Nat}
    {r : RandomBogoReplacer} (h : bp.free_list_ = [])
    (he : bp.replacer_.Evict draw = some (f, r))
    (hpin : (bp.page cfg f).pin_count_ = 0)
    (hvalid : 0 ≤ (bp.page cfg f).page_id_.page_number_) :
    AllocateFrame cfg bp draw = .returned (some f)
      { bp with
        replacer_ := r
        disk_manager_ :=
          if (bp.page cfg f).is_dirty_ then
            bp.disk_manager_.WritePage (bp.page cfg f).page_id_ (bp.page cfg f).data_
          else bp.disk_manager_
        pages_ := bp.pages_.set f ((bp.page cfg f).ResetMemory cfg) } := by
  simp only [AllocateFrame, h, he, BufferPool.page_mk, ← BufferPool.page_eq, hpin, hvalid,
    ne_eq, not_true_eq_false, and_false, if_false, not_false_eq_true]
  by_cases hd : (bp.page cfg f).is_dirty_ = true
  · simp only [hd, if_true, BufferPool.setPage, BufferPool.page_mk, ← BufferPool.page_eq]
  · simp only [hd, BufferPool.setPage, BufferPool.page_mk, ← BufferPool.page_eq]
    rfl

theorem NewPage_of_empty {cfg : Config} {bp : BufferPool} {a : PageAllocator} {draw : Nat}
    (h : bp.free_list_ = []) (he : bp.replacer_.evictable = []) :
    NewPage cfg bp a draw = .thrown bp := by
  simp only [NewPage, AllocateFrame_of_empty h he]

theorem NewPage_of_allocate {cfg : Config} {bp bp1 : BufferPool} {a : PageAllocator}
    {draw f : Nat} (ha : AllocateFrame cfg bp draw = .returned (some f) bp1)
    (hfree : f ∉ bp1.free_list_)
    (hne : (bp1.page cfg f).page_id_ ≠ ⟨a.table_id_, (a.next_page_number_ : Int)⟩) :
    NewPage cfg bp a draw =
      .returned (f, ⟨a.table_id_, (a.next_page_number_ : Int)⟩,
          ⟨a.table_id_, a.next_page_number_ + 1⟩)
        { bp1 with
          replacer_ := bp1.replacer_.Pin f
          page_table_ := (bp1.page_table_.erase (bp1.page cfg f).page_id_).assign
            ⟨a.table_id_, (a.next_page_number_ : Int)⟩ f
          pages_ := bp1.pages_.set f
            ⟨zeroData cfg, ⟨a.table_id_, (a.next_page_number_ : Int)⟩, 1, false⟩ } := by
  have h3 : PageTable.find ((bp1.page_table_.erase (bp1.page cfg f).page_id_).assign
      ⟨a.table_id_, (a.next_page_number_ : Int)⟩ f) (bp1.page cfg f).page_id_ = none := by
    rw [PageTable.find_none_iff]
    intro g hg
    rw [PageTable.mem_assign, PageTable.mem_erase] at hg
    rcases hg with ⟨⟨-, h1⟩, -⟩ | ⟨h1, -⟩
    · exact h1 rfl
    · exact hne h1
  simp only [NewPage, ha, hfree, and_false, if_false, PageAllocator.AllocatePage,
    BufferPool.page_mk, ← BufferPool.page_eq, PageTable.find_assign_self, ne_eq,
    not_true_eq_false, h3, BufferPool.setPage, Page.ResetMemory]
/-! ## A caller that only creates pages -/

theorem AllPinned.allPinned_new (cfg : Config) (n : Nat) (d : DiskManager) (a : Int → Nat) :
    AllPinned cfg (System.new cfg n d a) where
  tidy := Tidy.tidy_new cfg n d a
  evictable_nil := rfl
  pinned_clean := by intro p f h; simp [System.new, BufferPool.new] at h

/-- While frames are free and nothing is evictable, `NewPage` returns: it takes the head of
the free list, leaves the disk alone and keeps every resident page. -/
theorem AllPinned.allPinned_NewPage {cfg : Config} {w : System} (h : AllPinned cfg w) {f : Nat}
    {rest : List Nat} (hfl : w.pool.free_list_ = f :: rest) (table_id : Int) (draw : Nat) :
    ∃ bp', NewPage cfg w.pool ⟨table_id, w.allocators table_id⟩ draw =
        .returned (f, ⟨table_id, (w.allocators table_id : Int)⟩,
          ⟨table_id, w.allocators table_id + 1⟩) bp' ∧
      AllPinned cfg ⟨bp', fun t => if t = table_id then w.allocators table_id + 1
        else w.allocators t⟩ ∧
      bp'.free_list_ = rest ∧
      bp'.disk_manager_ = w.pool.disk_manager_ ∧
      (⟨table_id, (w.allocators table_id : Int)⟩, f) ∈ bp'.page_table_ ∧
      (∀ q g, (q, g) ∈ w.pool.page_table_ → (q, g) ∈ bp'.page_table_) := by
  have hc := h.tidy.coherent
  have hfmem : f ∈ w.pool.free_list_ := by rw [hfl]; exact List.mem_cons_self _ _
  have hnd := hc.free_nodup
  rw [hfl] at hnd
  have hinv := (hc.free_page f hfmem).1
  have hne : (w.pool.page cfg f).page_id_ ≠ ⟨table_id, (w.allocators table_id : Int)⟩ := by
    intro e
    rw [e] at hinv
    simp only [INVALID_PAGE_ID] at hinv
    omega
  have hn := @NewPage_of_allocate cfg w.pool _ ⟨table_id, w.allocators table_id⟩ draw f
    (AllocateFrame_of_free hfl) (List.nodup_cons.mp hnd).1 hne
  simp only [BufferPool.page_mk, ← BufferPool.page_eq] at hn
  refine ⟨_, hn, ?_, rfl, rfl, ?_, ?_⟩
  · have hflt : f < w.pool.pages_.length := by
      rw [hc.pages_length]; exact hc.free_lt f hfmem
    refine ⟨@Tidy.tidy_step cfg w _ (.NewPage table_id draw) h.tidy trivial
      (by simp only [db.step, hn]), ?_, ?_⟩
    · simp [RandomBogoReplacer.Pin, h.evictable_nil]
    · intro q g hm
      simp only [PageTable.mem_assign, PageTable.mem_erase] at hm
      rw [@BufferPool.page_of_set cfg w.pool _ f _ rfl]
      rcases hm with ⟨⟨hm, -⟩, -⟩ | ⟨-, hg⟩
      · have hgf : g ≠ f := by
          intro e
          rw [e] at hm
          exact (hc.table_page q f hm).2.2 hfmem
        simp only [hgf, false_and, if_false]
        exact h.pinned_clean q g hm
      · simp [hg, hflt]
  · simp [PageTable.mem_assign]
  · intro q g hm
    simp only [PageTable.mem_assign, PageTable.mem_erase]
    left
    have hi := h.tidy.issued q g hm
    refine ⟨⟨hm, ?_⟩, ?_⟩
    · intro e
      rw [e] at hi
      have := hi.1
      rw [hinv] at this
      exact absurd this (by decide)
    · intro e
      rw [e] at hi
      have := hi.2
      simp only at this
      omega

/-- On a pool with at least as many free frames as there are calls, and nothing evictable,
every call of `newPages` returns. -/
theorem AllPinned.allPinned_newPages {cfg : Config} (calls : List (Int × Nat)) :
    ∀ {w : System}, AllPinned cfg w → calls.length ≤ w.pool.free_list_.length →
      ∃ w' yields, newPages cfg w calls = some (w', yields) ∧
        AllPinned cfg w' ∧
        w'.pool.free_list_.length + calls.length = w.pool.free_list_.length ∧
        yields.length = calls.length ∧
        w'.pool.disk_manager_ = w.pool.disk_manager_ ∧
        w'.pool.pool_size_ = w.pool.pool_size_ ∧
        (∀ f p, (f, p) ∈ yields → (p, f) ∈ w'.pool.page_table_) ∧
        (∀ q g, (q, g) ∈ w.pool.page_table_ → (q, g) ∈ w'.pool.page_table_) := by
  induction calls with
  | nil =>
    intro w h _
    exact ⟨w, [], rfl, h, rfl, rfl, rfl, rfl, (by intro f p hm; cases hm), fun _ _ hm => hm⟩
  | cons c rest ih =>
    intro w h hlen
    obtain ⟨table_id, draw⟩ := c
    cases hfl : w.pool.free_list_ with
    | nil => rw [hfl] at hlen; simp at hlen
    | cons f fl =>
      obtain ⟨bp', hn, hap, hfree, hdisk, hmem, hkeep⟩ := h.allPinned_NewPage hfl table_id draw
      have hlen' : rest.length ≤ fl.length := by
        rw [hfl] at hlen
        simp only [List.length_cons] at hlen
        omega
      obtain ⟨w', ys, hrun, hap', hcount, hys, hdisk', hsize', hyields, hkeep'⟩ :=
        ih hap (by simp only [hfree]; exact hlen')
      refine ⟨w', (f, ⟨table_id, (w.allocators table_id : Int)⟩) :: ys, ?_, hap', ?_, ?_,
        ?_, ?_, ?_, ?_⟩
      · simp only [db.newPages, hn, hrun]
      · simp only [hfree] at hcount
        simp only [List.length_cons]
        omega
      · simp only [List.length_cons, hys]
      · rw [hdisk']; exact hdisk
      · rw [hsize']
        have hstep : step cfg w (.NewPage table_id draw) = some ⟨bp', fun t =>
            if t = table_id then w.allocators table_id + 1 else w.allocators t⟩ := by
          simp only [db.step, hn]
        exact step_pool_size hstep
      · intro g p hm
        rcases List.mem_cons.mp hm with e | hm'
        · simp only [Prod.mk.injEq] at e
          rw [e.1, e.2]
          exact hkeep' _ _ hmem
        · exact hyields g p hm'
      · intro q g hm
        exact hkeep' q g (hkeep q g hm)
/-! ## C7: frame exhaustion -/

/-- C7: on a freshly constructed pool of `N` frames (`N` the number of `calls`; any disk,
any allocator positions, either build), `N` consecutive `NewPage` calls all return, and
with no unpin in between every further `NewPage` throws
`std::runtime_error("Failed to allocate frame")` and leaves the pool (frames, frame table,
free list, evictable set, disk) and the page allocators exactly as they were. -/
theorem C7_new_page_throws_when_all_frames_pinned (cfg : Config) (disk_manager : DiskManager)
    (allocators : Int → Nat) (calls : List (Int × Nat)) :
    ∃ w yields,
      newPages cfg (System.new cfg calls.length disk_manager allocators) calls
        = some (w, yields) ∧
      yields.length = calls.length ∧
      ∀ table_id draw,
        NewPage cfg w.pool ⟨table_id, w.allocators table_id⟩ draw = .thrown w.pool ∧
        step cfg w (.NewPage table_id draw) = some w := by
  obtain ⟨w, ys, hrun, hap, hcount, hys, -⟩ :=
    AllPinned.allPinned_newPages calls (AllPinned.allPinned_new cfg calls.length disk_manager allocators)
      (by simp [System.new, BufferPool.new])
  refine ⟨w, ys, hrun, hys, ?_⟩
  have hfree : w.pool.free_list_ = [] := by
    simp only [System.new, BufferPool.new, List.length_range] at hcount
    exact List.length_eq_zero.mp (by omega)
  intro table_id draw
  have hn : NewPage cfg w.pool ⟨table_id, w.allocators table_id⟩ draw = .thrown w.pool :=
    NewPage_of_empty hfree hap.evictable_nil
  exact ⟨hn, by simp only [db.step, hn]⟩

/-! ## C10: `DeletePage` of a pinned or non-resident page -/

/-- C10: for every resident page `p` with `pin_count_ > 0`, `DeletePage(p)` returns `false`
and leaves the whole pool state (frames, frame table, free list, evictable set) and the disk
unchanged; for every non-resident `p`, `DeletePage(p)` returns `true` and likewise changes
nothing. -/
theorem C10_delete_page_pinned_or_absent (cfg : Config) (bp : BufferPool) (p : PageId) :
    (∀ f, bp.page_table_.find p = some f → 0 < (bp.page cfg f).pin_count_ →
      DeletePage cfg bp p = (false, bp)) ∧
    (bp.page_table_.find p = none → DeletePage cfg bp p = (true, bp)) :=
  ⟨fun _ hfind hpin => DeletePage_pinned hfind hpin, fun hfind => DeletePage_none hfind⟩

/-- Witness of C10: after one `NewPage` on a pool of one frame, page `(0, 0)` is resident in
frame 0 and pinned, and page `(0, 1)` is not resident. -/
theorem C10_delete_page_pinned_or_absent_witness :
    ((scenario debugBuild 1 [.NewPage 0 0]).pool.page_table_.find ⟨0, 0⟩ = some 0 ∧
      0 < ((scenario debugBuild 1 [.NewPage 0 0]).pool.page debugBuild 0).pin_count_ ∧
      DeletePage debugBuild (scenario debugBuild 1 [.NewPage 0 0]).pool ⟨0, 0⟩ =
        (false, (scenario debugBuild 1 [.NewPage 0 0]).pool)) ∧
    ((scenario debugBuild 1 [.NewPage 0 0]).pool.page_table_.find ⟨0, 1⟩ = none ∧
      DeletePage debugBuild (scenario debugBuild 1 [.NewPage 0 0]).pool ⟨0, 1⟩ =
        (true, (scenario debugBuild 1 [.NewPage 0 0]).pool)) :=
  ⟨⟨by decide, by decide,
      (C10_delete_page_pinned_or_absent debugBuild _ ⟨0, 0⟩).1 0 (by decide) (by decide)⟩,
    ⟨by decide, (C10_delete_page_pinned_or_absent debugBuild _ ⟨0, 1⟩).2 (by decide)⟩⟩
theorem readBlock_writeBlock_self (p : PageId) (data : List data_t)
    (blocks : List (PageId × List data_t)) :
    readBlock p (writeBlock p data blocks) = some data := by
  induction blocks with
  | nil => simp [writeBlock, readBlock]
  | cons e rest ih =>
    obtain ⟨q, d⟩ := e
    by_cases hq : q = p
    · simp [writeBlock, readBlock, hq]
    · simp [writeBlock, readBlock, hq, ih]

theorem readBlock_writeBlock_other {p q : PageId} (hne : q ≠ p) (data : List data_t)
    (blocks : List (PageId × List data_t)) :
    readBlock q (writeBlock p data blocks) = readBlock q blocks := by
  induction blocks with
  | nil => simp [writeBlock, readBlock, Ne.symm hne]
  | cons e rest ih =>
    obtain ⟨q', d⟩ := e
    by_cases hq : q' = p
    · subst hq
      simp [writeBlock, readBlock, Ne.symm hne]
    · by_cases hq' : q' = q
      · subst hq'
        simp [writeBlock, readBlock, hq]
      · simp [writeBlock, readBlock, hq, hq', ih]

theorem DiskManager.ReadPage_WritePage_self (cfg : Config) (dm : DiskManager) (p : PageId)
    (data : List data_t) : (dm.WritePage p data).ReadPage cfg p = data := by
  simp [DiskManager.ReadPage, DiskManager.WritePage, readBlock_writeBlock_self]

theorem DiskManager.ReadPage_WritePage_other (cfg : Config) (dm : DiskManager) {p q : PageId}
    (hne : q ≠ p) (data : List data_t) :
    (dm.WritePage p data).ReadPage cfg q = dm.ReadPage cfg q := by
  simp [DiskManager.ReadPage, DiskManager.WritePage, readBlock_writeBlock_other hne]

theorem RandomBogoReplacer.Evict_singleton (f draw : Nat) :
    (⟨[f]⟩ : RandomBogoReplacer).Evict draw = some (f, ⟨[]⟩) := by
  simp [RandomBogoReplacer.Evict, RandomBogoReplacer.Pin, Nat.mod_one]

theorem UnpinPage_of_pinned {cfg : Config} {bp : BufferPool} {p : PageId} {f : Nat}
    (d : Bool) (hfind : bp.page_table_.find p = some f)
    (hvalid : cfg.NDEBUG = false → p.page_number_ ≠ INVALID_PAGE_ID)
    (hpin : 0 < (bp.page cfg f).pin_count_) :
    UnpinPage cfg bp p d = .returned true
      { bp with
        replacer_ :=
          if (bp.page cfg f).pin_count_ - 1 = 0 then bp.replacer_.Unpin f else bp.replacer_
        pages_ := bp.pages_.set f
          { (if d = true then { bp.page cfg f with is_dirty_ := true } else bp.page cfg f)
            with pin_count_ := (bp.page cfg f).pin_count_ - 1 } } := by
  have hpc : (if d = true then { bp.page cfg f with is_dirty_ := true }
      else bp.page cfg f).pin_count_ = (bp.page cfg f).pin_count_ := by
    split <;> rfl
  have h0 : ¬ (bp.page cfg f).pin_count_ = 0 := by omega
  have h1 : 0 ≤ (bp.page cfg f).pin_count_ - 1 := by omega
  have hv : ¬ (cfg.NDEBUG = false ∧ p.page_number_ = INVALID_PAGE_ID) :=
    fun hh => hvalid hh.1 hh.2
  simp only [UnpinPage, hv, and_false, if_false, hfind, hpc, h0, h1, not_true_eq_false,
    BufferPool.setPage]
  split <;> rfl

theorem FetchPage_of_resident {cfg : Config} {bp : BufferPool} {p : PageId} {f : Nat}
    (draw : Nat) (hfind : bp.page_table_.find p = some f)
    (hvalid : cfg.NDEBUG = false → p.page_number_ ≠ INVALID_PAGE_ID) :
    FetchPage cfg bp p draw = .returned f
      { bp with
        replacer_ := bp.replacer_.Pin f
        pages_ := bp.pages_.set f
          { bp.page cfg f with pin_count_ := (bp.page cfg f).pin_count_ + 1 } } := by
  have hv : ¬ (cfg.NDEBUG = false ∧ p.page_number_ = INVALID_PAGE_ID) :=
    fun hh => hvalid hh.1 hh.2
  simp only [FetchPage, hv, if_false, hfind, BufferPool.setPage]

theorem FetchPage_of_allocate {cfg : Config} {bp bp1 : BufferPool} {p : PageId} {draw f : Nat}
    (hfind : bp.page_table_.find p = none)
    (hvalid : cfg.NDEBUG = false → p.page_number_ ≠ INVALID_PAGE_ID)
    (ha : AllocateFrame cfg bp draw = .returned (some f) bp1) :
    FetchPage cfg bp p draw = .returned f
      { bp1 with
        page_table_ := (bp1.page_table_.erase (bp1.page cfg f).page_id_).insert p f
        pages_ := bp1.pages_.set f
          ⟨bp1.disk_manager_.ReadPage cfg p, p, (bp1.page cfg f).pin_count_ + 1, false⟩ } := by
  have hv : ¬ (cfg.NDEBUG = false ∧ p.page_number_ = INVALID_PAGE_ID) :=
    fun hh => hvalid hh.1 hh.2
  simp only [FetchPage, hv, if_false, hfind, ha, BufferPool.setPage,
    BufferPool.page_mk, ← BufferPool.page_eq]

theorem WriteData_of_lt {bp : BufferPool} {f : Nat} (cfg : Config) (data : List data_t)
    (h : f < bp.pages_.length) :
    WriteData bp f data =
      { bp with pages_ := bp.pages_.set f { bp.page cfg f with data_ := data } } := by
  have : bp.pages_[f]? = some (bp.page cfg f) := by
    simp [BufferPool.page, List.getD_eq_getElem?_getD, List.getElem?_eq_getElem h]
  simp only [WriteData, this, BufferPool.setPage]
/-- `NewPage` on a pool whose free list is empty and whose only evictable frame `f` is
unpinned and holds a valid page: the call returns, reusing `f`; the old page is written to
disk exactly when it is dirty. -/
theorem NewPage_evicting_only_frame {cfg : Config} {bp : BufferPool} {a : PageAllocator}
    {f : Nat} (draw : Nat) (hfl : bp.free_list_ = []) (hrep : bp.replacer_.evictable = [f])
    (hpin : (bp.page cfg f).pin_count_ = 0)
    (hvalid : 0 ≤ (bp.page cfg f).page_id_.page_number_)
    (hne : (bp.page cfg f).page_id_ ≠ ⟨a.table_id_, (a.next_page_number_ : Int)⟩) :
    ∃ bp', NewPage cfg bp a draw =
        .returned (f, ⟨a.table_id_, (a.next_page_number_ : Int)⟩,
          ⟨a.table_id_, a.next_page_number_ + 1⟩) bp' ∧
      bp'.pool_size_ = bp.pool_size_ ∧
      bp'.replacer_.evictable = [] ∧
      bp'.disk_manager_ =
        (if (bp.page cfg f).is_dirty_ then
          bp.disk_manager_.WritePage (bp.page cfg f).page_id_ (bp.page cfg f).data_
        else bp.disk_manager_) ∧
      bp'.pages_ = bp.pages_.set f
        ⟨zeroData cfg, ⟨a.table_id_, (a.next_page_number_ : Int)⟩, 1, false⟩ ∧
      bp'.page_table_ = (bp.page_table_.erase (bp.page cfg f).page_id_).assign
        ⟨a.table_id_, (a.next_page_number_ : Int)⟩ f ∧
      bp'.free_list_ = [] := by
  have hr : bp.replacer_ = ⟨[f]⟩ := by
    cases hb : bp.replacer_ with
    | mk l => rw [hb] at hrep; simp only at hrep; rw [hrep]
  have he : bp.replacer_.Evict draw = some (f, ⟨[]⟩) := by
    rw [hr]; exact RandomBogoReplacer.Evict_singleton f draw
  have ha := @AllocateFrame_of_evict cfg bp draw f ⟨[]⟩ hfl he hpin hvalid
  have hid : ∀ (d : DiskManager), (BufferPool.page cfg
      { bp with replacer_ := ⟨[]⟩, disk_manager_ := d,
                pages_ := bp.pages_.set f ((bp.page cfg f).ResetMemory cfg) } f).page_id_
        = (bp.page cfg f).page_id_ := by
    intro d
    rw [@BufferPool.page_of_set cfg bp _ f _ rfl]
    split <;> rfl
  have hn := @NewPage_of_allocate cfg bp _ a draw f ha (by simp [hfl])
    (by rw [hid]; exact hne)
  rw [hid] at hn
  refine ⟨_, hn, rfl, ?_, rfl, ?_, rfl, hfl⟩
  · simp [RandomBogoReplacer.Pin]
  · simp only [List.set_set]
theorem UnpinPage_of_pinned_fields {cfg : Config} {bp : BufferPool} {p : PageId} {f : Nat}
    (d : Bool) (hfind : bp.page_table_.find p = some f)
    (hvalid : cfg.NDEBUG = false → p.page_number_ ≠ INVALID_PAGE_ID)
    (hpin : 0 < (bp.page cfg f).pin_count_) :
    ∃ bp', UnpinPage cfg bp p d = .returned true bp' ∧
      bp'.pool_size_ = bp.pool_size_ ∧
      bp'.replacer_ =
        (if (bp.page cfg f).pin_count_ - 1 = 0 then bp.replacer_.Unpin f else bp.replacer_) ∧
      bp'.disk_manager_ = bp.disk_manager_ ∧
      bp'.pages_ = bp.pages_.set f
        ⟨(bp.page cfg f).data_, (bp.page cfg f).page_id_, (bp.page cfg f).pin_count_ - 1,
          d || (bp.page cfg f).is_dirty_⟩ ∧
      bp'.page_table_ = bp.page_table_ ∧
      bp'.free_list_ = bp.free_list_ := by
  refine ⟨_, UnpinPage_of_pinned d hfind hvalid hpin, rfl, rfl, rfl, ?_, rfl, rfl⟩
  cases d <;> simp

/-! ## C6: a dirty victim is written back -/

/-- C6: on a fresh pool of size 1 (any disk, any allocator positions, either build), after
`NewPage` yields `p`, the caller writes `B` into the frame, calls `UnpinPage(p, true)`, and
`NewPage` yields `q`, the disk content for `p` equals `B`; and in general, whenever
`AllocateFrame` evicts a frame whose dirty flag is set, the frame's bytes are on disk under
its old `PageId` afterwards and the buffer of the frame is zeroed. -/
theorem C6_dirty_eviction_flushes (cfg : Config) (disk_manager : DiskManager)
    (allocators : Int → Nat) (t1 t2 : Int) (d1 d2 : Nat) (B : List data_t) :
    (∃ bp1 bp2 bp3 q a2,
      NewPage cfg (BufferPool.new cfg 1 disk_manager) ⟨t1, allocators t1⟩ d1 =
        .returned (0, ⟨t1, (allocators t1 : Int)⟩, ⟨t1, allocators t1 + 1⟩) bp1 ∧
      UnpinPage cfg (WriteData bp1 0 B) ⟨t1, (allocators t1 : Int)⟩ true =
        .returned true bp2 ∧
      NewPage cfg bp2 ⟨t2, if t2 = t1 then allocators t1 + 1 else allocators t2⟩ d2 =
        .returned (0, q, a2) bp3 ∧
      bp3.disk_manager_.ReadPage cfg ⟨t1, (allocators t1 : Int)⟩ = B) ∧
    (∀ (bp bp1 : BufferPool) (draw f : Nat), bp.free_list_ = [] →
      AllocateFrame cfg bp draw = .returned (some f) bp1 →
      (bp.page cfg f).is_dirty_ = true →
        bp1.disk_manager_ =
          bp.disk_manager_.WritePage (bp.page cfg f).page_id_ (bp.page cfg f).data_ ∧
        bp1.disk_manager_.ReadPage cfg (bp.page cfg f).page_id_ = (bp.page cfg f).data_ ∧
        bp1.pages_ = bp.pages_.set f ((bp.page cfg f).ResetMemory cfg) ∧
        ((bp.page cfg f).ResetMemory cfg).data_ = zeroData cfg) := by
  constructor
  · -- the scenario
    have hfl : (System.new cfg 1 disk_manager allocators).pool.free_list_ = 0 :: [] := rfl
    obtain ⟨bp1, hn1, hap1, hfree1, hdisk1, hmem1, -⟩ :=
      (AllPinned.allPinned_new cfg 1 disk_manager allocators).allPinned_NewPage hfl t1 d1
    have hc1 : Coherent cfg bp1 := hap1.tidy.coherent
    obtain ⟨hlt, hid, -⟩ := hc1.table_page _ _ hmem1
    obtain ⟨hpin1, hclean1⟩ := hap1.pinned_clean _ _ hmem1
    simp only at hlt hid hpin1 hclean1
    have hlen : 0 < bp1.pages_.length := by rw [hc1.pages_length]; exact hlt
    have hfind : bp1.page_table_.find ⟨t1, (allocators t1 : Int)⟩ = some 0 :=
      PageTable.find_of_mem hc1.keys_nodup hmem1
    have hev1 : bp1.replacer_.evictable = [] := hap1.evictable_nil
    -- the write
    have hw := @WriteData_of_lt bp1 0 cfg B hlen
    have hpage2 : (WriteData bp1 0 B).page cfg 0 =
        ⟨B, ⟨t1, (allocators t1 : Int)⟩, 1, false⟩ := by
      rw [hw, @BufferPool.page_of_set cfg bp1 _ 0 _ rfl]
      simp only [hlen, and_self, if_true, hpin1, hclean1, hid]
      rfl
    have hvalid : (⟨t1, (allocators t1 : Int)⟩ : PageId).page_number_ ≠ INVALID_PAGE_ID := by
      simp only [INVALID_PAGE_ID]; omega
    -- the unpin
    obtain ⟨bp2, hu, -, hrep2, hdisk2, hpages2, -, hfree2⟩ :=
      @UnpinPage_of_pinned_fields cfg (WriteData bp1 0 B) ⟨t1, (allocators t1 : Int)⟩ 0 true
        (by rw [hw]; exact hfind) (fun _ => hvalid) (by rw [hpage2]; exact Int.one_pos)
    have hlen2 : 0 < (WriteData bp1 0 B).pages_.length := by rw [hw]; simpa using hlen
    have hpage3 : bp2.page cfg 0 = ⟨B, ⟨t1, (allocators t1 : Int)⟩, 0, true⟩ := by
      rw [BufferPool.page_of_set hpages2]
      simp only [hlen2, and_self, if_true, hpage2]
      rfl
    have hev2 : bp2.replacer_.evictable = [0] := by
      rw [hrep2, hpage2]
      simp only [sub_self, if_true, hw]
      simp [RandomBogoReplacer.Unpin, hev1]
    -- the second NewPage
    have hne : (⟨t1, (allocators t1 : Int)⟩ : PageId) ≠
        ⟨t2, ((if t2 = t1 then allocators t1 + 1 else allocators t2 : Nat) : Int)⟩ := by
      intro e
      simp only [PageId.mk.injEq] at e
      obtain ⟨e1, e2⟩ := e
      rw [if_pos e1.symm] at e2
      omega
    obtain ⟨bp3, hn3, -, -, hdisk3, -⟩ :=
      @NewPage_evicting_only_frame cfg bp2
        ⟨t2, if t2 = t1 then allocators t1 + 1 else allocators t2⟩ 0 d2
        (by rw [hfree2, hw]; exact hfree1) hev2
        (by rw [hpage3])
        (by rw [hpage3]; simp only; omega)
        (by rw [hpage3]; exact hne)
    refine ⟨bp1, bp2, bp3, _, _, hn1, hu, hn3, ?_⟩
    rw [hdisk3, hpage3]
    simp only [if_true]
    exact DiskManager.ReadPage_WritePage_self cfg _ _ _
  · -- every eviction of a dirty frame
    intro bp bp1 draw f hfl ha hd
    rcases AllocateFrame_some ha with ⟨hfl', -⟩ | ⟨-, -, -, -, -, hdisk, hpages, -, -⟩
    · rw [hfl] at hfl'; cases hfl'
    · rw [hd] at hdisk
      simp only [if_true] at hdisk
      refine ⟨hdisk, ?_, hpages, rfl⟩
      rw [hdisk]
      exact DiskManager.ReadPage_WritePage_self cfg _ _ _
/-- Witness of C6: the pool reached by `NewPage`, a write of `1, 2, 3, 4`, and
`UnpinPage((0, 0), true)` has an empty free list and a dirty frame 0; `AllocateFrame` evicts
it, after which the disk holds `1, 2, 3, 4` under `(0, 0)` and the buffer is zeroed. -/
theorem C6_dirty_eviction_flushes_witness :
    (scenario debugBuild 1 opsCreateWriteUnpinDirty).pool = poolDirtyUnpinned ∧
    poolDirtyUnpinned.free_list_ = [] ∧
    AllocateFrame debugBuild poolDirtyUnpinned 0 = .returned (some 0) poolAfterEviction ∧
    (poolDirtyUnpinned.page debugBuild 0).is_dirty_ = true ∧
    (poolAfterEviction.disk_manager_ =
        poolDirtyUnpinned.disk_manager_.WritePage (poolDirtyUnpinned.page debugBuild 0).page_id_
          (poolDirtyUnpinned.page debugBuild 0).data_ ∧
      poolAfterEviction.disk_manager_.ReadPage debugBuild
          (poolDirtyUnpinned.page debugBuild 0).page_id_ =
        (poolDirtyUnpinned.page debugBuild 0).data_ ∧
      poolAfterEviction.pages_ = poolDirtyUnpinned.pages_.set 0
        ((poolDirtyUnpinned.page debugBuild 0).ResetMemory debugBuild) ∧
      ((poolDirtyUnpinned.page debugBuild 0).ResetMemory debugBuild).data_ =
        zeroData debugBuild) :=
  ⟨by decide, by decide, by decide, by decide,
    (C6_dirty_eviction_flushes debugBuild ⟨[]⟩ (fun _ => 0) 0 0 0 0 []).2
      poolDirtyUnpinned poolAfterEviction 0 0 (by decide) (by decide) (by decide)⟩
/-! ## C8: a clean unpinned page gives its frame to `NewPage` -/

/-- C8: after `N` `NewPage` calls on a fresh pool of `N` frames (`N` the number of `calls`)
have pinned every frame, `UnpinPage(p1, false)` on one of the pages they yielded returns
`true` and the next `NewPage` returns: it reuses the frame of `p1`, `p1` is no longer in the
frame table, the new `PageId` is mapped to that frame with `pin_count_ = 1`, and the disk
is what it was at construction (no write is performed). -/
theorem C8_unpinned_clean_page_is_replaced (cfg : Config) (disk_manager : DiskManager)
    (allocators : Int → Nat) (calls : List (Int × Nat)) (w : System)
    (yields : List (Nat × PageId))
    (hrun : newPages cfg (System.new cfg calls.length disk_manager allocators) calls
      = some (w, yields))
    (f1 : Nat) (p1 : PageId) (hmem : (f1, p1) ∈ yields) (table_id : Int) (draw : Nat) :
    w.pool.page_table_.find p1 = some f1 ∧
    ∃ bp2 bp3 q a',
      UnpinPage cfg w.pool p1 false = .returned true bp2 ∧
      NewPage cfg bp2 ⟨table_id, w.allocators table_id⟩ draw = .returned (f1, q, a') bp3 ∧
      bp3.page_table_.find p1 = none ∧
      bp3.page_table_.find q = some f1 ∧
      (bp3.page cfg f1).page_id_ = q ∧
      (bp3.page cfg f1).pin_count_ = 1 ∧
      bp2.disk_manager_ = disk_manager ∧
      bp3.disk_manager_ = disk_manager := by
  obtain ⟨w', ys, hrun', hap, hcount, -, hdisk, -, hyields, -⟩ :=
    AllPinned.allPinned_newPages calls (AllPinned.allPinned_new cfg calls.length disk_manager
      allocators) (by simp [System.new, BufferPool.new])
  rw [hrun] at hrun'
  simp only [Option.some.injEq, Prod.mk.injEq] at hrun'
  obtain ⟨e1, e2⟩ := hrun'
  subst e1; subst e2
  have hfree : w.pool.free_list_ = [] := by
    simp only [System.new, BufferPool.new, List.length_range] at hcount
    exact List.length_eq_zero.mp (by omega)
  have hc := hap.tidy.coherent
  have hm : (p1, f1) ∈ w.pool.page_table_ := hyields f1 p1 hmem
  have hfind : w.pool.page_table_.find p1 = some f1 := PageTable.find_of_mem hc.keys_nodup hm
  obtain ⟨hlt, hid, -⟩ := hc.table_page p1 f1 hm
  obtain ⟨hpin, hclean⟩ := hap.pinned_clean p1 f1 hm
  have hiss := hap.tidy.issued p1 f1 hm
  have hlen : f1 < w.pool.pages_.length := by rw [hc.pages_length]; exact hlt
  have hvalid : p1.page_number_ ≠ INVALID_PAGE_ID := by
    intro e
    have := hiss.1
    rw [e] at this
    exact absurd this (by decide)
  refine ⟨hfind, ?_⟩
  obtain ⟨bp2, hu, -, hrep2, hdisk2, hpages2, htable2, hfree2⟩ :=
    @UnpinPage_of_pinned_fields cfg w.pool p1 f1 false hfind (fun _ => hvalid)
      (by rw [hpin]; exact Int.one_pos)
  have hpage2 : bp2.page cfg f1 = ⟨(w.pool.page cfg f1).data_, p1, 0, false⟩ := by
    rw [BufferPool.page_of_set hpages2]
    simp only [hlen, and_self, if_true, hid, hpin, hclean]
    rfl
  have hev2 : bp2.replacer_.evictable = [f1] := by
    rw [hrep2, hpin]
    simp only [sub_self, if_true]
    simp [RandomBogoReplacer.Unpin, hap.evictable_nil]
  have hne : p1 ≠ ⟨table_id, (w.allocators table_id : Int)⟩ := by
    intro e
    have := hiss.2
    rw [e] at this
    simp only at this
    omega
  obtain ⟨bp3, hn3, -, -, hdisk3, hpages3, htable3, -⟩ :=
    @NewPage_evicting_only_frame cfg bp2 ⟨table_id, w.allocators table_id⟩ f1 draw
      (by rw [hfree2]; exact hfree) hev2 (by rw [hpage2])
      (by rw [hpage2]; exact hiss.1) (by rw [hpage2]; exact hne)
  have hlen2 : f1 < bp2.pages_.length := by rw [hpages2]; simpa using hlen
  have hpage3 : bp3.page cfg f1 =
      ⟨zeroData cfg, ⟨table_id, (w.allocators table_id : Int)⟩, 1, false⟩ := by
    rw [BufferPool.page_of_set hpages3]
    simp only [hlen2, and_self, if_true]
  have hd2 : bp2.disk_manager_ = disk_manager := by rw [hdisk2, hdisk]; rfl
  refine ⟨bp2, bp3, _, _, hu, hn3, ?_, ?_, ?_, ?_, hd2, ?_⟩
  · rw [htable3, hpage2, PageTable.find_none_iff]
    intro g hg
    rw [PageTable.mem_assign, PageTable.mem_erase] at hg
    rcases hg with ⟨⟨-, h1⟩, -⟩ | ⟨h1, -⟩
    · exact h1 rfl
    · exact hne h1
  · rw [htable3]
    exact PageTable.find_assign_self _ _ _
  · rw [hpage3]
  · rw [hpage3]
  · rw [hdisk3, hpage2]
    simp only [Bool.false_eq_true, if_false]
    exact hd2

/-- Witness of C8: two `NewPage` calls on a fresh pool of two frames yield `(0, 0)` in frame 0
and `(0, 1)` in frame 1; after `UnpinPage((0, 0), false)` the next `NewPage` reuses
frame 0. -/
theorem C8_unpinned_clean_page_is_replaced_witness :
    newPages debugBuild (System.new debugBuild [((0 : Int), 0), ((0 : Int), 0)].length ⟨[]⟩
        (fun _ => 0)) [(0, 0), (0, 0)]
      = some (scenario debugBuild 2 [.NewPage 0 0, .NewPage 0 0],
          [(0, ⟨0, 0⟩), (1, ⟨0, 1⟩)]) ∧
    ((0 : Nat), (⟨0, 0⟩ : PageId)) ∈ [((0 : Nat), (⟨0, 0⟩ : PageId)), (1, ⟨0, 1⟩)] ∧
    ((scenario debugBuild 2 [.NewPage 0 0, .NewPage 0 0]).pool.page_table_.find ⟨0, 0⟩
        = some 0 ∧
      ∃ bp2 bp3 q a',
        UnpinPage debugBuild (scenario debugBuild 2 [.NewPage 0 0, .NewPage 0 0]).pool
          ⟨0, 0⟩ false = .returned true bp2 ∧
        NewPage debugBuild bp2
          ⟨0, (scenario debugBuild 2 [.NewPage 0 0, .NewPage 0 0]).allocators 0⟩ 0
            = .returned (0, q, a') bp3 ∧
        bp3.page_table_.find ⟨0, 0⟩ = none ∧
        bp3.page_table_.find q = some 0 ∧
        (bp3.page debugBuild 0).page_id_ = q ∧
        (bp3.page debugBuild 0).pin_count_ = 1 ∧
        bp2.disk_manager_ = ⟨[]⟩ ∧
        bp3.disk_manager_ = ⟨[]⟩) :=
  ⟨rfl, by decide,
    C8_unpinned_clean_page_is_replaced debugBuild ⟨[]⟩ (fun _ => 0) [(0, 0), (0, 0)] _ _ rfl
      0 ⟨0, 0⟩ (by decide) 0 0⟩
theorem PageTable.find_insert_self {t : PageTable} {p : PageId} (f : Nat)
    (h : PageTable.find t p = none) : PageTable.find (PageTable.insert t p f) p = some f := by
  rw [PageTable.insert_of_fresh f h, PageTable.find_append_of_none h]
  simp [PageTable.find]

/-! ## C9: pin counts compose -/

/-- What holds of the composition of pin counts: for every resident page `p`, `FetchPage(p)`
returns and raises `pin_count_` by exactly 1, and every `UnpinPage(p, _)` that returns `true`
lowers it by exactly 1.  In every reachable state in which no evictable frame is pinned (with
assertions on, the assertion of `AllocateFrame` checks it), when `FetchPage(p)` of a
non-resident `p` returns, a second `FetchPage(p)` and one `UnpinPage(p, false)` leave the page
with `pin_count_ = 1` and its frame outside the evictable set, and the second
`UnpinPage(p, false)` leaves `pin_count_ = 0` and the frame in the evictable set. -/
theorem pin_counts_compose (cfg : Config) :
    (∀ (bp : BufferPool) (p : PageId) (f draw : Nat), bp.page_table_.find p = some f →
      f < bp.pages_.length → (cfg.NDEBUG = false → p.page_number_ ≠ INVALID_PAGE_ID) →
      ∃ bp', FetchPage cfg bp p draw = .returned f bp' ∧
        (bp'.page cfg f).pin_count_ = (bp.page cfg f).pin_count_ + 1) ∧
    (∀ (bp bp' : BufferPool) (p : PageId) (d : Bool),
      UnpinPage cfg bp p d = .returned true bp' →
      ∃ f, bp.page_table_.find p = some f ∧
        (f < bp.pages_.length →
          (bp'.page cfg f).pin_count_ = (bp.page cfg f).pin_count_ - 1)) ∧
    (∀ (n : Nat) (w : System) (p : PageId) (d1 d2 f : Nat) (bp1 : BufferPool),
      Reachable cfg n w →
      (cfg.NDEBUG = true →
        ∀ g, g ∈ w.pool.replacer_.evictable → (w.pool.page cfg g).pin_count_ = 0) →
      w.pool.page_table_.find p = none →
      FetchPage cfg w.pool p d1 = .returned f bp1 →
      ∃ bp2 bp3 bp4,
        FetchPage cfg bp1 p d2 = .returned f bp2 ∧
        UnpinPage cfg bp2 p false = .returned true bp3 ∧
        bp3.page_table_.find p = some f ∧
        (bp3.page cfg f).pin_count_ = 1 ∧
        f ∉ bp3.replacer_.evictable ∧
        UnpinPage cfg bp3 p false = .returned true bp4 ∧
        bp4.page_table_.find p = some f ∧
        (bp4.page cfg f).pin_count_ = 0 ∧
        f ∈ bp4.replacer_.evictable) := by
  refine ⟨?_, ?_, ?_⟩
  · intro bp p f draw hfind hlen hvalid
    refine ⟨_, FetchPage_of_resident draw hfind hvalid, ?_⟩
    rw [@BufferPool.page_of_set cfg bp _ f _ rfl]
    simp [hlen]
  · intro bp bp' p d hu
    obtain ⟨-, hcase⟩ := UnpinPage_returned hu
    rcases hcase with ⟨-, -, hb, -⟩ | ⟨f, hfind, -, -, -, -, hcase⟩
    · cases hb
    · refine ⟨f, hfind, ?_⟩
      intro hlen
      rcases hcase with ⟨-, hb, -⟩ | ⟨-, -, -, -, hpages⟩
      · cases hb
      · rw [BufferPool.page_of_set hpages]
        simp [hlen]
  · intro n w p d1 d2 f bp1 hreach hrel hnone hf1
    have hc := hreach.reachable_coherent
    obtain ⟨hvalid, hcase⟩ := FetchPage_returned hf1
    rcases hcase with ⟨hfind, -⟩ | ⟨-, bpa, ha, hsize1, hrep1, -, hpages1, htable1, hfree1⟩
    · rw [hnone] at hfind; cases hfind
    · -- the frame handed out is unpinned
      obtain ⟨hca, hflt, -, hta⟩ := hc.allocate ha
      have hpin0 : (bpa.page cfg f).pin_count_ = 0 := by
        rcases AllocateFrame_some ha with ⟨hfl, -, -, -, hpages, -⟩ |
          ⟨hfl, hmem, hassert, -, -, -, hpages, -, -⟩
        · have := (hc.free_page f (by rw [hfl]; exact List.mem_cons_self _ _)).2
          simp only [BufferPool.page, hpages] at this ⊢
          exact this
        · have hz : (w.pool.page cfg f).pin_count_ = 0 := by
            cases hnd : cfg.NDEBUG with
            | false => exact (hassert hnd).1
            | true => exact hrel hnd f hmem
          rw [BufferPool.page_of_set hpages]
          split
          · exact hz
          · exact hz
      have hlena : f < bpa.pages_.length := by rw [hca.pages_length]; exact hflt
      have hpage1 : bp1.page cfg f = ⟨bpa.disk_manager_.ReadPage cfg p, p, 1, false⟩ := by
        rw [BufferPool.page_of_set hpages1]
        simp [hlena, hpin0]
      have hfind1 : bp1.page_table_.find p = some f := by
        rw [htable1]
        apply PageTable.find_insert_self
        apply PageTable.find_erase_none
        rw [hta]; exact hnone
      have hlen1 : f < bp1.pages_.length := by rw [hpages1]; simpa using hlena
      -- second fetch
      have hf2 := @FetchPage_of_resident cfg bp1 p f d2 hfind1 hvalid
      -- first unpin
      obtain ⟨bp3, hu3, -, hrep3, -, hpages3, htable3, -⟩ :=
        @UnpinPage_of_pinned_fields cfg
          { bp1 with
            replacer_ := bp1.replacer_.Pin f
            pages_ := bp1.pages_.set f
              { bp1.page cfg f with pin_count_ := (bp1.page cfg f).pin_count_ + 1 } }
          p f false hfind1 hvalid
          (by
            rw [@BufferPool.page_of_set cfg bp1 _ f _ rfl]
            simp [hlen1, hpage1])
      have hpage2 : BufferPool.page cfg
          { bp1 with
            replacer_ := bp1.replacer_.Pin f
            pages_ := bp1.pages_.set f
              { bp1.page cfg f with pin_count_ := (bp1.page cfg f).pin_count_ + 1 } } f
          = ⟨bpa.disk_manager_.ReadPage cfg p, p, 2, false⟩ := by
        rw [@BufferPool.page_of_set cfg bp1 _ f _ rfl]
        simp [hlen1, hpage1]
      rw [hpage2] at hrep3 hpages3
      simp only [List.set_set] at hrep3 hpages3 htable3
      have hpage3 : bp3.page cfg f = ⟨bpa.disk_manager_.ReadPage cfg p, p, 1, false⟩ := by
        rw [BufferPool.page_of_set hpages3]
        simp [hlen1]
      have hfind3 : bp3.page_table_.find p = some f := by rw [htable3]; exact hfind1
      have hlen3 : f < bp3.pages_.length := by rw [hpages3]; simpa using hlen1
      have hnot3 : f ∉ bp3.replacer_.evictable := by
        rw [hrep3]
        simp [RandomBogoReplacer.mem_Pin]
      -- second unpin
      obtain ⟨bp4, hu4, -, hrep4, -, hpages4, htable4, -⟩ :=
        @UnpinPage_of_pinned_fields cfg bp3 p f false hfind3 hvalid (by rw [hpage3]; exact Int.one_pos)
      refine ⟨_, bp3, bp4, hf2, hu3, hfind3, by rw [hpage3], hnot3, hu4,
        by rw [htable4]; exact hfind3, ?_, ?_⟩
      · rw [BufferPool.page_of_set hpages4]
        simp [hlen3, hpage3]
      · rw [hrep4, hpage3]
        simp [RandomBogoReplacer.mem_Unpin]

/-- C9 (evaluation at the failing input): in a build without assertions, on a pool of one
frame, after `NewPage` (page `(0, 0)`), `UnpinPage((0, 0))`, `NewPage` (page `(0, 1)`),
`UnpinPage((0, 1))`, `DeletePage((0, 1))` and `FetchPage((0, 1))`, frame 0 is pinned and still
in the evictable set.  `FetchPage((0, 0))` of the valid, issued, non-resident page `(0, 0)`
evicts it and does `pin_count_++`; a second `FetchPage((0, 0))` and one
`UnpinPage((0, 0), false)` then leave the page with `pin_count_ = 2`, and the second
`UnpinPage((0, 0), false)` leaves `pin_count_ = 1` and the frame outside the evictable set.
With assertions on, the first `FetchPage((0, 0))` dies on `assert(pin_count_ == 0)` in
`AllocateFrame`. -/
theorem C9_pin_counts_after_evicting_pinned_frame :
    ReachableFetchingIssued releaseBuild 1 (scenario releaseBuild 1 opsRefetchAfterDelete) ∧
    (Issued (scenario releaseBuild 1 opsRefetchAfterDelete).allocators ⟨0, 0⟩ ∧
      (⟨0, 0⟩ : PageId).page_number_ ≠ INVALID_PAGE_ID ∧
      (scenario releaseBuild 1 opsRefetchAfterDelete).pool.page_table_.find ⟨0, 0⟩ = none) ∧
    (FetchPage releaseBuild (scenario releaseBuild 1 opsRefetchAfterDelete).pool ⟨0, 0⟩ 0 =
        .returned 0
          (scenario releaseBuild 1 (opsRefetchAfterDelete ++ [.FetchPage ⟨0, 0⟩ 0])).pool ∧
      FetchPage releaseBuild
          (scenario releaseBuild 1 (opsRefetchAfterDelete ++ [.FetchPage ⟨0, 0⟩ 0])).pool
          ⟨0, 0⟩ 0 =
        .returned 0
          (scenario releaseBuild 1
            (opsRefetchAfterDelete ++ [.FetchPage ⟨0, 0⟩ 0, .FetchPage ⟨0, 0⟩ 0])).pool) ∧
    (UnpinPage releaseBuild
          (scenario releaseBuild 1
            (opsRefetchAfterDelete ++ [.FetchPage ⟨0, 0⟩ 0, .FetchPage ⟨0, 0⟩ 0])).pool
          ⟨0, 0⟩ false =
        .returned true
          (scenario releaseBuild 1
            (opsRefetchAfterDelete ++
              [.FetchPage ⟨0, 0⟩ 0, .FetchPage ⟨0, 0⟩ 0, .UnpinPage ⟨0, 0⟩ false])).pool ∧
      (scenario releaseBuild 1
          (opsRefetchAfterDelete ++
            [.FetchPage ⟨0, 0⟩ 0, .FetchPage ⟨0, 0⟩ 0, .UnpinPage ⟨0, 0⟩ false])).pool.page
        releaseBuild 0 = ⟨[0, 0, 0, 0], ⟨0, 0⟩, 2, false⟩ ∧
      (scenario releaseBuild 1
          (opsRefetchAfterDelete ++
            [.FetchPage ⟨0, 0⟩ 0, .FetchPage ⟨0, 0⟩ 0,
              .UnpinPage ⟨0, 0⟩ false])).pool.page_table_ = [(⟨0, 0⟩, 0)]) ∧
    (UnpinPage releaseBuild
          (scenario releaseBuild 1
            (opsRefetchAfterDelete ++
              [.FetchPage ⟨0, 0⟩ 0, .FetchPage ⟨0, 0⟩ 0, .UnpinPage ⟨0, 0⟩ false])).pool
          ⟨0, 0⟩ false =
        .returned true
          (scenario releaseBuild 1
            (opsRefetchAfterDelete ++
              [.FetchPage ⟨0, 0⟩ 0, .FetchPage ⟨0, 0⟩ 0, .UnpinPage ⟨0, 0⟩ false,
                .UnpinPage ⟨0, 0⟩ false])).pool ∧
      (scenario releaseBuild 1
          (opsRefetchAfterDelete ++
            [.FetchPage ⟨0, 0⟩ 0, .FetchPage ⟨0, 0⟩ 0, .UnpinPage ⟨0, 0⟩ false,
              .UnpinPage ⟨0, 0⟩ false])).pool.page
        releaseBuild 0 = ⟨[0, 0, 0, 0], ⟨0, 0⟩, 1, false⟩ ∧
      0 ∉ (scenario releaseBuild 1
          (opsRefetchAfterDelete ++
            [.FetchPage ⟨0, 0⟩ 0, .FetchPage ⟨0, 0⟩ 0, .UnpinPage ⟨0, 0⟩ false,
              .UnpinPage ⟨0, 0⟩ false])).pool.replacer_.evictable) ∧
    FetchPage debugBuild (scenario debugBuild 1 opsRefetchAfterDelete).pool ⟨0, 0⟩ 0 =
      .aborted :=
  ⟨scenario_reachable_fetching_issued (by decide), by decide, by decide, by decide, by decide,
    by decide⟩

/-! ## Keeping the bytes of a page (towards C5) -/

theorem PageTable.find_erase_ne {t : PageTable} {p q : PageId} (h : q ≠ p) :
    PageTable.find (PageTable.erase t q) p = PageTable.find t p := by
  induction t with
  | nil => rfl
  | cons e rest ih =>
    obtain ⟨q', g⟩ := e
    rw [PageTable.erase_cons]
    by_cases hq : q' = q
    · rw [if_pos hq, ih, PageTable.find_cons, if_neg (by rw [hq]; exact h)]
    · rw [if_neg hq, PageTable.find_cons, PageTable.find_cons, ih]

theorem PageTable.find_append_singleton_ne {t : PageTable} {p q : PageId} (g : Nat)
    (h : q ≠ p) : PageTable.find (t ++ [(q, g)]) p = PageTable.find t p := by
  induction t with
  | nil => simp [PageTable.find, h]
  | cons e rest ih =>
    obtain ⟨q', g'⟩ := e
    show PageTable.find ((q', g') :: (rest ++ [(q, g)])) p = _
    rw [PageTable.find_cons, PageTable.find_cons, ih]

theorem PageTable.find_assign_ne {t : PageTable} {p q : PageId} (g : Nat) (h : q ≠ p) :
    PageTable.find (PageTable.assign t q g) p = PageTable.find t p := by
  unfold PageTable.assign
  rw [PageTable.find_append_singleton_ne g h, PageTable.find_erase_ne h]

theorem PageTable.find_insert_ne {t : PageTable} {p q : PageId} (g : Nat) (h : q ≠ p) :
    PageTable.find (PageTable.insert t q g) p = PageTable.find t p := by
  unfold PageTable.insert
  split
  · rfl
  · exact PageTable.find_append_singleton_ne g h

/-- A change that keeps the frame table and the disk, keeps the bytes of the frame of `p` and
does not clear its dirty flag, keeps `Retains`. -/
theorem Retains.of_same {cfg : Config} {p : PageId} {B : List data_t} {bp bp' : BufferPool}
    (h : Retains cfg p B bp) (htable : bp'.page_table_ = bp.page_table_)
    (hdisk : bp'.disk_manager_ = bp.disk_manager_)
    (hpage : ∀ f, bp.page_table_.find p = some f →
      (bp'.page cfg f).data_ = (bp.page cfg f).data_ ∧
        ((bp.page cfg f).is_dirty_ = true → (bp'.page cfg f).is_dirty_ = true)) :
    Retains cfg p B bp' := by
  constructor
  · intro f hf
    rw [htable] at hf
    obtain ⟨h1, h2⟩ := h.1 f hf
    obtain ⟨e1, e2⟩ := hpage f hf
    rw [e1, hdisk]
    exact ⟨h1, h2.imp e2 id⟩
  · intro hf
    rw [htable] at hf
    rw [hdisk]
    exact h.2 hf

/-- After `AllocateFrame` has handed out frame `g` and the entry of the page it held is
dropped from the frame table, the bytes of `p` are still safe, and `p` is not in `g`. -/
theorem Retains.retains_allocate {cfg : Config} {p : PageId} {B : List data_t} {w : System}
    {bp1 : BufferPool} {draw g : Nat} (ht : Tidy cfg w) (hp : Issued w.allocators p)
    (h : Retains cfg p B w.pool)
    (ha : AllocateFrame cfg w.pool draw = .returned (some g) bp1) :
    (∀ f, PageTable.find (PageTable.erase bp1.page_table_ (bp1.page cfg g).page_id_) p
        = some f →
      f ≠ g ∧ (bp1.page cfg f).data_ = B ∧
        ((bp1.page cfg f).is_dirty_ = true ∨ bp1.disk_manager_.ReadPage cfg p = B)) ∧
    (PageTable.find (PageTable.erase bp1.page_table_ (bp1.page cfg g).page_id_) p = none →
      bp1.disk_manager_.ReadPage cfg p = B) := by
  have hc := ht.coherent
  rcases AllocateFrame_some ha with ⟨hfl, -, -, hdisk, hpages, htable⟩ |
    ⟨hfl, hmem, -, -, -, hdisk, hpages, htable, -⟩
  · -- from the free list: nothing but the free list changes
    have hgfree : g ∈ w.pool.free_list_ := by rw [hfl]; exact List.mem_cons_self _ _
    have hpage : ∀ f, bp1.page cfg f = w.pool.page cfg f := by
      intro f; simp only [BufferPool.page, hpages]
    have hold : (w.pool.page cfg g).page_id_ ≠ p := by
      intro e
      have h1 := (hc.free_page g hgfree).1
      rw [e] at h1
      have h2 := hp.1
      rw [h1] at h2
      exact absurd h2 (by decide)
    rw [hpage g, htable, PageTable.find_erase_ne hold, hdisk]
    refine ⟨?_, h.2⟩
    intro f hf
    have hfg : f ≠ g := by
      intro e
      rw [e] at hf
      exact (hc.table_page p g (PageTable.find_some_mem hf)).2.2 hgfree
    rw [hpage f]
    exact ⟨hfg, h.1 f hf⟩
  · -- evicted: `g` is resident
    have hglt : g < w.pool.pool_size_ := hc.evictable_lt g hmem
    have hglen : g < w.pool.pages_.length := by rw [hc.pages_length]; exact hglt
    obtain ⟨q0, hq0⟩ : ∃ q, (q, g) ∈ w.pool.page_table_ := by
      rcases ht.covered g hglt with hgf | hq
      · rw [hfl] at hgf; cases hgf
      · exact hq
    have hid0 : (w.pool.page cfg g).page_id_ = q0 := (hc.table_page q0 g hq0).2.1
    have hfind0 : w.pool.page_table_.find q0 = some g :=
      PageTable.find_of_mem hc.keys_nodup hq0
    have hid1 : (bp1.page cfg g).page_id_ = q0 := by
      rw [BufferPool.page_of_set hpages]
      split
      · exact hid0
      · exact hid0
    have hpage : ∀ f, f ≠ g → bp1.page cfg f = w.pool.page cfg f := by
      intro f hfg
      rw [BufferPool.page_of_set hpages]
      simp [hfg]
    rw [hid1, htable]
    by_cases hq : q0 = p
    · -- the victim is the frame of `p`
      subst hq
      rw [PageTable.find_erase_self]
      refine ⟨fun f hf => (by cases hf), fun _ => ?_⟩
      obtain ⟨hdata, hor⟩ := h.1 g hfind0
      rw [hdisk, hid0]
      by_cases hd : (w.pool.page cfg g).is_dirty_ = true
      · simp only [hd, if_true, hdata]
        exact DiskManager.ReadPage_WritePage_self cfg _ _ _
      · simp only [hd]
        rcases hor with hor | hor
        · exact absurd hor hd
        · exact hor
    · -- the victim holds another page
      rw [PageTable.find_erase_ne hq]
      have hdiskp : bp1.disk_manager_.ReadPage cfg p = w.pool.disk_manager_.ReadPage cfg p := by
        rw [hdisk, hid0]
        split
        · exact DiskManager.ReadPage_WritePage_other cfg _ (Ne.symm hq) _
        · rfl
      rw [hdiskp]
      refine ⟨?_, h.2⟩
      intro f hf
      have hfg : f ≠ g := by
        intro e
        rw [e] at hf
        rw [hfind0] at *
        have := (hc.table_page p g (PageTable.find_some_mem hf)).2.1
        rw [hid0] at this
        exact hq this
      rw [hpage f hfg]
      exact ⟨hfg, h.1 f hf⟩
theorem AllocateFrame_aborted {cfg : Config} {bp : BufferPool} {draw : Nat}
    (h : AllocateFrame cfg bp draw = .aborted) :
    cfg.NDEBUG = false ∧ bp.free_list_ = [] ∧
      ∃ g, g ∈ bp.replacer_.evictable ∧
        ((bp.page cfg g).pin_count_ ≠ 0 ∨ ¬ 0 ≤ (bp.page cfg g).page_id_.page_number_) := by
  unfold AllocateFrame at h
  split at h
  · rename_i hfree
    split at h
    · cases h
    · rename_i g r hev
      obtain ⟨hmem, -⟩ := RandomBogoReplacer.Evict_some hev
      simp only [BufferPool.page_mk, ← BufferPool.page_eq] at h
      split at h
      · rename_i h1
        exact ⟨h1.1, hfree, g, hmem, Or.inl h1.2⟩
      · split at h
        · rename_i h2
          exact ⟨h2.1, hfree, g, hmem, Or.inr h2.2⟩
        · cases h
  · cases h

theorem FetchPage_aborted {cfg : Config} {bp : BufferPool} {p : PageId} {draw : Nat}
    (h : FetchPage cfg bp p draw = .aborted) :
    cfg.NDEBUG = false ∧
      (p.page_number_ = INVALID_PAGE_ID ∨
        (bp.page_table_.find p = none ∧ AllocateFrame cfg bp draw = .aborted)) := by
  unfold FetchPage at h
  split at h
  · rename_i h1
    exact ⟨h1.1, Or.inl h1.2⟩
  · split at h
    · cases h
    · rename_i hfind
      split at h
      · rename_i ha
        have := (AllocateFrame_aborted ha).1
        exact ⟨this, Or.inr ⟨hfind, ha⟩⟩
      · cases h
      · cases h
      · cases h

theorem WriteData_page (cfg : Config) (bp : BufferPool) (g f : Nat) (data : List data_t) :
    (WriteData bp g data).page cfg f =
      if f = g ∧ g < bp.pages_.length then { bp.page cfg g with data_ := data }
      else bp.page cfg f := by
  by_cases hg : g < bp.pages_.length
  · rw [WriteData_of_lt cfg data hg, @BufferPool.page_of_set cfg bp _ g _ rfl]
  · have hnone : bp.pages_[g]? = none := List.getElem?_eq_none (by omega)
    simp only [WriteData, hnone, hg, and_false, if_false]

theorem Retains.FlushPage {cfg : Config} {p : PageId} {B : List data_t} {bp : BufferPool}
    (q : PageId) (hc : Coherent cfg bp) (h : Retains cfg p B bp) :
    Retains cfg p B (FlushPage cfg bp q).2 := by
  cases hfind : bp.page_table_.find q with
  | none => rw [FlushPage_none hfind]; exact h
  | some fq =>
    rw [FlushPage_some hfind]
    have hmq := PageTable.find_some_mem hfind
    have hlen : fq < bp.pages_.length := by
      rw [hc.pages_length]; exact (hc.table_page q fq hmq).1
    by_cases hq : q = p
    · subst hq
      constructor
      · intro f hf
        simp only at hf
        rw [hfind] at hf
        simp only [Option.some.injEq] at hf
        subst hf
        obtain ⟨hdata, -⟩ := h.1 fq hfind
        rw [@BufferPool.page_of_set cfg bp _ fq _ rfl]
        simp only [hlen, and_self, if_true, hdata, true_and]
        right
        exact DiskManager.ReadPage_WritePage_self cfg _ _ _
      · intro hf
        simp only at hf
        rw [hfind] at hf
        cases hf
    · have hdisk : (bp.disk_manager_.WritePage q (bp.page cfg fq).data_).ReadPage cfg p =
          bp.disk_manager_.ReadPage cfg p :=
        DiskManager.ReadPage_WritePage_other cfg _ (Ne.symm hq) _
      constructor
      · intro f hf
        simp only at hf
        have hfq : f ≠ fq := by
          intro e
          rw [e] at hf
          have h1 := (hc.table_page p fq (PageTable.find_some_mem hf)).2.1
          have h2 := (hc.table_page q fq hmq).2.1
          rw [h1] at h2
          exact hq h2.symm
        rw [@BufferPool.page_of_set cfg bp _ fq _ rfl]
        simp only [hfq, false_and, if_false, hdisk]
        exact h.1 f hf
      · intro hf
        simp only at hf ⊢
        rw [hdisk]
        exact h.2 hf

theorem Retains.flushFrames {cfg : Config} {p : PageId} {B : List data_t}
    (frames : List Nat) :
    ∀ {bp : BufferPool}, Coherent cfg bp → Retains cfg p B bp →
      Retains cfg p B (flushFrames cfg frames bp) := by
  induction frames with
  | nil => intro bp _ h; exact h
  | cons i rest ih =>
    intro bp hc h
    exact ih (hc.coherent_FlushPage _) (Retains.FlushPage _ hc h)

theorem Retains.DeletePage {cfg : Config} {p : PageId} {B : List data_t} {bp : BufferPool}
    {q : PageId} (hq : q ≠ p) (hc : Coherent cfg bp) (h : Retains cfg p B bp) :
    Retains cfg p B (DeletePage cfg bp q).2 := by
  cases hfind : bp.page_table_.find q with
  | none => rw [DeletePage_none hfind]; exact h
  | some fq =>
    by_cases hpin : 0 < (bp.page cfg fq).pin_count_
    · rw [DeletePage_pinned hfind hpin]; exact h
    · rw [DeletePage_unpinned hfind hpin]
      have hmq := PageTable.find_some_mem hfind
      constructor
      · intro f hf
        simp only at hf
        rw [PageTable.find_erase_ne hq] at hf
        have hfq : f ≠ fq := by
          intro e
          rw [e] at hf
          have h1 := (hc.table_page p fq (PageTable.find_some_mem hf)).2.1
          have h2 := (hc.table_page q fq hmq).2.1
          rw [h1] at h2
          exact hq h2.symm
        rw [@BufferPool.page_of_set cfg bp _ fq _ rfl]
        simp only [hfq, false_and, if_false]
        exact h.1 f hf
      · intro hf
        simp only at hf ⊢
        rw [PageTable.find_erase_ne hq] at hf
        exact h.2 hf
/-- Installing another page in the frame `g` handed out by `AllocateFrame` keeps the bytes
of `p` safe. -/
theorem Retains.install_other {cfg : Config} {p : PageId} {B : List data_t} {w : System}
    {bp1 bp' : BufferPool} {draw g : Nat} {pg : Page} (ht : Tidy cfg w)
    (hp : Issued w.allocators p) (h : Retains cfg p B w.pool)
    (ha : AllocateFrame cfg w.pool draw = .returned (some g) bp1)
    (hdisk : bp'.disk_manager_ = bp1.disk_manager_)
    (hpages : bp'.pages_ = bp1.pages_.set g pg)
    (hfind : PageTable.find bp'.page_table_ p =
      PageTable.find (PageTable.erase bp1.page_table_ (bp1.page cfg g).page_id_) p) :
    Retains cfg p B bp' := by
  obtain ⟨A1, A2⟩ := Retains.retains_allocate ht hp h ha
  constructor
  · intro f hf
    rw [hfind] at hf
    obtain ⟨hfg, hdata, hor⟩ := A1 f hf
    rw [BufferPool.page_of_set hpages, hdisk]
    simp only [hfg, false_and, if_false]
    exact ⟨hdata, hor⟩
  · intro hf
    rw [hfind] at hf
    rw [hdisk]
    exact A2 hf

theorem KeepsPage.fetchesIssued {p : PageId} {w : System} {op : Op} (h : KeepsPage p w op) :
    FetchesIssued w op := by
  cases op <;> first | exact h | trivial

theorem step_issued {cfg : Config} {w w' : System} {op : Op} {q : PageId}
    (hs : step cfg w op = some w') (hq : Issued w.allocators q) : Issued w'.allocators q := by
  cases op with
  | NewPage table_id draw =>
    simp only [db.step] at hs
    split at hs
    · rename_i f p a bp' hn
      simp only [Option.some.injEq] at hs
      subst hs
      obtain ⟨bp1, -, -, ha', -⟩ := NewPage_returned hn
      refine ⟨hq.1, ?_⟩
      have := hq.2
      rw [ha']
      simp only
      split
      · rename_i e; rw [e] at this; omega
      · exact this
    · simp only [Option.some.injEq] at hs
      subst hs; exact hq
    · cases hs
  | FetchPage page_id draw =>
    simp only [db.step] at hs
    split at hs
    · simp only [Option.some.injEq] at hs
      subst hs; exact hq
    · simp only [Option.some.injEq] at hs
      subst hs; exact hq
    · cases hs
  | UnpinPage page_id is_dirty =>
    simp only [db.step] at hs
    split at hs
    · simp only [Option.some.injEq] at hs
      subst hs; exact hq
    · simp only [Option.some.injEq] at hs
      subst hs; exact hq
    · cases hs
  | FlushPage page_id =>
    simp only [db.step, Option.some.injEq] at hs
    subst hs; exact hq
  | FlushAllPages =>
    simp only [db.step, Option.some.injEq] at hs
    subst hs; exact hq
  | DeletePage page_id =>
    simp only [db.step, Option.some.injEq] at hs
    subst hs; exact hq
  | WriteData frame_id data =>
    simp only [db.step, Option.some.injEq] at hs
    subst hs; exact hq

/-- Every action that C5 allows keeps the bytes of `p` safe. -/
theorem Retains.step {cfg : Config} {p : PageId} {B : List data_t} {w w' : System} {op : Op}
    (ht : Tidy cfg w) (hp : Issued w.allocators p) (h : Retains cfg p B w.pool)
    (hop : KeepsPage p w op) (hs : step cfg w op = some w') : Retains cfg p B w'.pool := by
  have hc := ht.coherent
  cases op with
  | NewPage table_id draw =>
    simp only [db.step] at hs
    split at hs
    · rename_i g q a bp' hn
      simp only [Option.some.injEq] at hs
      subst hs
      obtain ⟨bp1, ha, hq, -, -, -, -, hdisk, hpages, htable, -⟩ := NewPage_returned hn
      simp only at hq
      have hne : q ≠ p := by
        intro e
        have := hp.2
        rw [← e, hq] at this
        simp only at this
        omega
      refine Retains.install_other ht hp h ha hdisk hpages ?_
      simp only
      rw [htable, PageTable.find_assign_ne g hne]
    · rename_i bp' hn
      simp only [Option.some.injEq] at hs
      subst hs
      rw [(NewPage_thrown hn).1]; exact h
    · cases hs
  | FetchPage q draw =>
    simp only [db.step] at hs
    split at hs
    · rename_i g bp' hn
      simp only [Option.some.injEq] at hs
      subst hs
      obtain ⟨-, hcase⟩ := FetchPage_returned hn
      rcases hcase with ⟨hfind, -, -, hdisk, hpages, htable, -⟩ |
        ⟨hfind, bp1, ha, -, -, hdisk, hpages, htable, -⟩
      · refine h.of_same htable hdisk ?_
        intro f _
        rw [BufferPool.page_of_set hpages]
        split
        · rename_i e; rw [e.1]; exact ⟨rfl, id⟩
        · exact ⟨rfl, id⟩
      · have hta := (hc.allocate ha).2.2.2
        have hnone : PageTable.find (PageTable.erase bp1.page_table_
            (bp1.page cfg g).page_id_) q = none := by
          apply PageTable.find_erase_none
          rw [hta]; exact hfind
        by_cases hq : q = p
        · subst hq
          obtain ⟨-, A2⟩ := Retains.retains_allocate ht hp h ha
          have hglen : g < bp1.pages_.length := by
            obtain ⟨hc1, hlt, -⟩ := hc.allocate ha
            rw [hc1.pages_length]; exact hlt
          have hf' : bp'.page_table_.find q = some g := by
            rw [htable]; exact PageTable.find_insert_self g hnone
          constructor
          · intro f hf
            simp only at hf
            rw [hf'] at hf
            simp only [Option.some.injEq] at hf
            subst hf
            simp only
            rw [BufferPool.page_of_set hpages, hdisk]
            simp only [hglen, and_self, if_true]
            exact ⟨A2 hnone, Or.inr (A2 hnone)⟩
          · intro hf
            simp only at hf
            rw [hf'] at hf
            cases hf
        · refine Retains.install_other ht hp h ha hdisk hpages ?_
          rw [htable, PageTable.find_insert_ne g hq]
    · rename_i bp' hn
      simp only [Option.some.injEq] at hs
      subst hs
      rw [(FetchPage_thrown hn).1]; exact h
    · cases hs
  | UnpinPage q is_dirty =>
    simp only [db.step] at hs
    split at hs
    · rename_i b bp' hn
      simp only [Option.some.injEq] at hs
      subst hs
      obtain ⟨-, hcase⟩ := UnpinPage_returned hn
      rcases hcase with ⟨-, -, -, hbp⟩ | ⟨fq, -, -, hdisk, htable, -, hcase⟩
      · rw [hbp]; exact h
      · rcases hcase with ⟨-, -, -, hpages⟩ | ⟨-, -, -, -, hpages⟩
        · refine h.of_same htable hdisk ?_
          intro f _
          rw [BufferPool.page_of_set hpages]
          split
          · rename_i e
            rw [e.1]
            cases is_dirty
            · exact ⟨rfl, id⟩
            · exact ⟨rfl, fun _ => rfl⟩
          · exact ⟨rfl, id⟩
        · refine h.of_same htable hdisk ?_
          intro f _
          rw [BufferPool.page_of_set hpages]
          split
          · rename_i e
            rw [e.1]
            cases is_dirty
            · exact ⟨rfl, id⟩
            · exact ⟨rfl, fun _ => rfl⟩
          · exact ⟨rfl, id⟩
    · rename_i bp' hn
      exact absurd hn UnpinPage_thrown
    · cases hs
  | FlushPage q =>
    simp only [db.step, Option.some.injEq] at hs
    subst hs
    exact Retains.FlushPage q hc h
  | FlushAllPages =>
    simp only [db.step, Option.some.injEq] at hs
    subst hs
    exact Retains.flushFrames _ hc h
  | DeletePage q =>
    simp only [db.step, Option.some.injEq] at hs
    subst hs
    exact Retains.DeletePage hop hc h
  | WriteData g data =>
    simp only [db.step, Option.some.injEq] at hs
    subst hs
    obtain ⟨-, e2, -, -, e5⟩ := WriteData_fields w.pool g data
    refine h.of_same e2 e5 ?_
    intro f hf
    have hfg : f ≠ g := by
      intro e
      rw [e] at hf
      exact hop hf
    rw [WriteData_page, if_neg (fun e => hfg e.1)]
    exact ⟨rfl, id⟩

/-- Along any sequence of actions that C5 allows, the system stays tidy, `p` stays issued
and its bytes stay safe. -/
theorem Retains.steps {cfg : Config} {p : PageId} {B : List data_t} {w w' : System}
    (ht : Tidy cfg w) (hp : Issued w.allocators p) (h : Retains cfg p B w.pool)
    (hs : Steps cfg (KeepsPage p) w w') :
    Tidy cfg w' ∧ Issued w'.allocators p ∧ Retains cfg p B w'.pool := by
  induction hs with
  | refl => exact ⟨ht, hp, h⟩
  | step _ hop hstep ih =>
    obtain ⟨ht1, hp1, h1⟩ := ih
    exact ⟨ht1.tidy_step hop.fetchesIssued hstep, step_issued hstep hp1,
      Retains.step ht1 hp1 h1 hop hstep⟩
/-- What `FetchPage(p)` does when the bytes `B` of `p` are safe. -/
theorem Retains.fetch {cfg : Config} {p : PageId} {B : List data_t} {w : System}
    (ht : Tidy cfg w) (hp : Issued w.allocators p) (h : Retains cfg p B w.pool) (draw : Nat) :
    match FetchPage cfg w.pool p draw with
    | .returned f' bp3 => bp3.page_table_.find p = some f' ∧ (bp3.page cfg f').data_ = B
    | .thrown bp3 =>
      bp3 = w.pool ∧ w.pool.page_table_.find p = none ∧ w.pool.free_list_ = [] ∧
        w.pool.replacer_.evictable = []
    | .aborted =>
      cfg.NDEBUG = false ∧ w.pool.page_table_.find p = none ∧ w.pool.free_list_ = [] ∧
        ∃ g, g ∈ w.pool.replacer_.evictable ∧ (w.pool.page cfg g).pin_count_ ≠ 0 := by
  have hc := ht.coherent
  cases hout : FetchPage cfg w.pool p draw with
  | returned f' bp3 =>
    simp only
    obtain ⟨-, hcase⟩ := FetchPage_returned hout
    rcases hcase with ⟨hfind, -, -, -, hpages, htable, -⟩ |
      ⟨hfind, bp1, ha, -, -, hdisk, hpages, htable, -⟩
    · refine ⟨by rw [htable]; exact hfind, ?_⟩
      have hlen : f' < w.pool.pages_.length := by
        rw [hc.pages_length]
        exact (hc.table_page p f' (PageTable.find_some_mem hfind)).1
      rw [BufferPool.page_of_set hpages]
      simp only [hlen, and_self, if_true]
      exact (h.1 f' hfind).1
    · obtain ⟨hc1, hlt, -, hta⟩ := hc.allocate ha
      have hnone : PageTable.find (PageTable.erase bp1.page_table_
          (bp1.page cfg f').page_id_) p = none := by
        apply PageTable.find_erase_none
        rw [hta]; exact hfind
      obtain ⟨-, A2⟩ := Retains.retains_allocate ht hp h ha
      have hlen : f' < bp1.pages_.length := by rw [hc1.pages_length]; exact hlt
      refine ⟨by rw [htable]; exact PageTable.find_insert_self f' hnone, ?_⟩
      rw [BufferPool.page_of_set hpages]
      simp only [hlen, and_self, if_true]
      exact A2 hnone
  | thrown bp3 =>
    simp only
    exact FetchPage_thrown hout
  | aborted =>
    simp only
    obtain ⟨hn, hcase⟩ := FetchPage_aborted hout
    rcases hcase with hinv | ⟨hfind, ha⟩
    · have := hp.1
      rw [hinv] at this
      exact absurd this (by decide)
    · obtain ⟨-, hfl, g, hmem, hor⟩ := AllocateFrame_aborted ha
      refine ⟨hn, hfind, hfl, g, hmem, ?_⟩
      rcases hor with hor | hor
      · exact hor
      · exfalso
        apply hor
        have hglt := hc.evictable_lt g hmem
        rcases ht.covered g hglt with hgf | ⟨q, hq⟩
        · rw [hfl] at hgf; cases hgf
        · rw [(hc.table_page q g hq).2.1]
          exact (ht.issued q g hq).1

/-! ## C5: a page fetched again after a dirty unpin -/

/-- C5 (amended): in every state reachable by callers that fetch only issued pages, for every
resident page `p` with `pin_count_ > 0` and every byte buffer `B`: after the caller writes
`B` into the frame of `p`, `UnpinPage(p, true)` returns `true`; and after any subsequent
sequence of `NewPage`, `FetchPage` (of issued pages), `UnpinPage`, `FlushPage`,
`FlushAllPages` and `DeletePage(q)` with `q ≠ p` calls and writes into frames that do not
hold `p`, `FetchPage(p)` either returns a frame that holds `p` and whose buffer equals `B`,
or throws for want of a frame (`p` not resident, free list and evictable set empty) leaving
the pool as it was, or, with assertions on, dies in `AllocateFrame` because the evictable set
holds a pinned frame. -/
theorem C5_fetch_after_dirty_unpin_reads_written_bytes (cfg : Config) (pool_size : Nat)
    (w0 : System) (p : PageId) (f : Nat) (B : List data_t)
    (h0 : ReachableFetchingIssued cfg pool_size w0)
    (hres : w0.pool.page_table_.find p = some f)
    (hpin : 0 < (w0.pool.page cfg f).pin_count_) :
    ∃ bp1, UnpinPage cfg (WriteData w0.pool f B) p true = .returned true bp1 ∧
      ∀ (w2 : System) (draw : Nat), Steps cfg (KeepsPage p) ⟨bp1, w0.allocators⟩ w2 →
        match FetchPage cfg w2.pool p draw with
        | .returned f' bp3 => bp3.page_table_.find p = some f' ∧ (bp3.page cfg f').data_ = B
        | .thrown bp3 =>
          bp3 = w2.pool ∧ w2.pool.page_table_.find p = none ∧ w2.pool.free_list_ = [] ∧
            w2.pool.replacer_.evictable = []
        | .aborted =>
          cfg.NDEBUG = false ∧ w2.pool.page_table_.find p = none ∧
            w2.pool.free_list_ = [] ∧
            ∃ g, g ∈ w2.pool.replacer_.evictable ∧ (w2.pool.page cfg g).pin_count_ ≠ 0 := by
  have ht0 := h0.tidy
  have hc0 := ht0.coherent
  have hm := PageTable.find_some_mem hres
  have hp : Issued w0.allocators p := ht0.issued p f hm
  have hvalid : p.page_number_ ≠ INVALID_PAGE_ID := by
    intro e
    have := hp.1
    rw [e] at this
    exact absurd this (by decide)
  have hlen : f < w0.pool.pages_.length := by
    rw [hc0.pages_length]; exact (hc0.table_page p f hm).1
  -- the write
  have hstepw : step cfg w0 (.WriteData f B) = some ⟨WriteData w0.pool f B, w0.allocators⟩ :=
    rfl
  have htw : Tidy cfg ⟨WriteData w0.pool f B, w0.allocators⟩ :=
    @Tidy.tidy_step cfg w0 _ (.WriteData f B) ht0 trivial hstepw
  obtain ⟨-, etable, -, -, -⟩ := WriteData_fields w0.pool f B
  have hpagew : (WriteData w0.pool f B).page cfg f = { w0.pool.page cfg f with data_ := B } := by
    rw [WriteData_page]
    simp [hlen]
  have hfindw : (WriteData w0.pool f B).page_table_.find p = some f := by
    rw [etable]; exact hres
  -- the unpin
  obtain ⟨bp1, hu, -, -, -, hpages1, htable1, -⟩ :=
    @UnpinPage_of_pinned_fields cfg (WriteData w0.pool f B) p f true hfindw (fun _ => hvalid)
      (by rw [hpagew]; exact hpin)
  refine ⟨bp1, hu, ?_⟩
  have ht1 : Tidy cfg ⟨bp1, w0.allocators⟩ :=
    @Tidy.tidy_step cfg ⟨WriteData w0.pool f B, w0.allocators⟩ _ (.UnpinPage p true) htw trivial
      (by simp only [db.step, hu])
  have hlenw : f < (WriteData w0.pool f B).pages_.length := by
    rw [htw.coherent.pages_length]
    exact (htw.coherent.table_page p f (PageTable.find_some_mem hfindw)).1
  have hr1 : Retains cfg p B bp1 := by
    constructor
    · intro f' hf'
      rw [htable1, hfindw] at hf'
      simp only [Option.some.injEq] at hf'
      subst hf'
      rw [BufferPool.page_of_set hpages1]
      simp only [hlenw, and_self, if_true, hpagew, Bool.true_or, true_or, and_self]
    · intro hf'
      rw [htable1, hfindw] at hf'
      cases hf'
  intro w2 draw hsteps
  obtain ⟨ht2, hp2, hr2⟩ := Retains.steps ht1 hp hr1 hsteps
  exact Retains.fetch ht2 hp2 hr2 draw
/-- Counterexample to C5 as stated.  (1) Pool of one frame: `NewPage` yields `(0, 0)`, the
caller writes `1, 2, 3, 4` and calls `UnpinPage((0, 0), true)`; a further `NewPage` evicts
the page and keeps the only frame pinned, so `FetchPage((0, 0))` throws instead of returning
a page.  (2) Pool of two frames: the caller fetches `(0, 0)` before the allocator has issued
it, writes `1, 2, 3, 4` and unpins it as dirty; `NewPage` then issues `(0, 0)` for a zeroed
frame, and `FetchPage((0, 0))` returns zeros. -/
theorem C5_counterexample_fetch_throws_or_reads_zeros :
    (((scenario debugBuild 1 [.NewPage 0 0]).pool.page_table_.find ⟨0, 0⟩ = some 0 ∧
        0 < ((scenario debugBuild 1 [.NewPage 0 0]).pool.page debugBuild 0).pin_count_) ∧
      UnpinPage debugBuild
          (WriteData (scenario debugBuild 1 [.NewPage 0 0]).pool 0 [1, 2, 3, 4]) ⟨0, 0⟩ true
        = .returned true (scenario debugBuild 1 opsCreateWriteUnpinDirty).pool ∧
      (run debugBuild (scenario debugBuild 1 opsCreateWriteUnpinDirty) [.NewPage 0 0]).isSome
        = true ∧
      FetchPage debugBuild
          (scenario debugBuild 1 (opsCreateWriteUnpinDirty ++ [.NewPage 0 0])).pool ⟨0, 0⟩ 0
        = .thrown (scenario debugBuild 1 (opsCreateWriteUnpinDirty ++ [.NewPage 0 0])).pool ∧
      fetchedData debugBuild
          (scenario debugBuild 1 (opsCreateWriteUnpinDirty ++ [.NewPage 0 0])).pool ⟨0, 0⟩ 0
        = none) ∧
    ((run debugBuild (System.fresh debugBuild 2) opsFetchWriteUnpinThenNew).isSome = true ∧
      ((scenario debugBuild 2 (opsFetchWriteUnpinThenNew.take 2)).pool.page debugBuild 0).data_
        = [1, 2, 3, 4] ∧
      fetchedData debugBuild (scenario debugBuild 2 opsFetchWriteUnpinThenNew).pool ⟨0, 0⟩ 0
        = some [0, 0, 0, 0]) :=
  ⟨⟨by decide, by decide, by decide, by decide, by decide⟩, by decide, by decide, by decide⟩

/-- Witness of C5 (amended): after one `NewPage` on a pool of one frame, page `(0, 0)` is
resident in frame 0 and pinned. -/
theorem C5_fetch_after_dirty_unpin_reads_written_bytes_witness :
    ReachableFetchingIssued debugBuild 1 (scenario debugBuild 1 [.NewPage 0 0]) ∧
    (scenario debugBuild 1 [.NewPage 0 0]).pool.page_table_.find ⟨0, 0⟩ = some 0 ∧
    0 < ((scenario debugBuild 1 [.NewPage 0 0]).pool.page debugBuild 0).pin_count_ ∧
    ∃ bp1, UnpinPage debugBuild
          (WriteData (scenario debugBuild 1 [.NewPage 0 0]).pool 0 [1, 2, 3, 4]) ⟨0, 0⟩ true
        = .returned true bp1 ∧
      ∀ (w2 : System) (draw : Nat),
        Steps debugBuild (KeepsPage ⟨0, 0⟩)
          ⟨bp1, (scenario debugBuild 1 [.NewPage 0 0]).allocators⟩ w2 →
        match FetchPage debugBuild w2.pool ⟨0, 0⟩ draw with
        | .returned f' bp3 =>
          bp3.page_table_.find ⟨0, 0⟩ = some f' ∧
            (bp3.page debugBuild f').data_ = [1, 2, 3, 4]
        | .thrown bp3 =>
          bp3 = w2.pool ∧ w2.pool.page_table_.find ⟨0, 0⟩ = none ∧ w2.pool.free_list_ = [] ∧
            w2.pool.replacer_.evictable = []
        | .aborted =>
          debugBuild.NDEBUG = false ∧ w2.pool.page_table_.find ⟨0, 0⟩ = none ∧
            w2.pool.free_list_ = [] ∧
            ∃ g, g ∈ w2.pool.replacer_.evictable ∧
              (w2.pool.page debugBuild g).pin_count_ ≠ 0 :=
  ⟨scenario_reachable_fetching_issued (by decide), by decide, by decide,
    C5_fetch_after_dirty_unpin_reads_written_bytes debugBuild 1 _ ⟨0, 0⟩ 0 [1, 2, 3, 4]
      (scenario_reachable_fetching_issued (by decide)) (by decide) (by decide)⟩
/-! ## C11: `UnpinPage` of a page that is not resident -/

/-- Counterexample to C11 as stated: on a fresh pool of one frame built with assertions on,
`UnpinPage((0, 0), false)` of the valid, non-resident page `(0, 0)` does not return `false`:
it dies on the `assert(false)` that precedes `return false`. -/
theorem C11_counterexample_unpin_unresident_aborts :
    (⟨0, 0⟩ : PageId).page_number_ ≠ INVALID_PAGE_ID ∧
    (BufferPool.new debugBuild 1 ⟨[]⟩).page_table_.find ⟨0, 0⟩ = none ∧
    UnpinPage debugBuild (BufferPool.new debugBuild 1 ⟨[]⟩) ⟨0, 0⟩ false = .aborted :=
  ⟨by decide, by decide, by decide⟩

/-- C11 (amended): for every valid `PageId` `p` that is not in the frame table and every
`is_dirty` flag, `UnpinPage(p, is_dirty)` changes nothing: in a build with assertions
compiled out it returns `false` and leaves the frames, frame table, free list, evictable set
and disk unchanged; in a build with assertions on it dies on `assert(false)` before it can
return. -/
theorem C11_unpin_unresident_page_changes_nothing (cfg : Config) (bp : BufferPool)
    (p : PageId) (is_dirty : Bool) (hvalid : p.page_number_ ≠ INVALID_PAGE_ID)
    (hnone : bp.page_table_.find p = none) :
    UnpinPage cfg bp p is_dirty =
      if cfg.NDEBUG = true then .returned false bp else .aborted := by
  cases hn : cfg.NDEBUG <;> simp [UnpinPage, hvalid, hnone, hn]

/-- Witness of C11 (amended): page `(0, 0)` is valid and not resident in a fresh pool of one
frame; a release build returns `false` and keeps the pool. -/
theorem C11_unpin_unresident_page_changes_nothing_witness :
    (⟨0, 0⟩ : PageId).page_number_ ≠ INVALID_PAGE_ID ∧
    (BufferPool.new releaseBuild 1 ⟨[]⟩).page_table_.find ⟨0, 0⟩ = none ∧
    UnpinPage releaseBuild (BufferPool.new releaseBuild 1 ⟨[]⟩) ⟨0, 0⟩ true =
      if releaseBuild.NDEBUG = true then .returned false (BufferPool.new releaseBuild 1 ⟨[]⟩)
      else .aborted :=
  ⟨by decide, by decide,
    C11_unpin_unresident_page_changes_nothing releaseBuild _ ⟨0, 0⟩ true (by decide)
      (by decide)⟩

/-! ## C13: flush, delete and fetch after a write -/

/-- C13: in every reachable pool state (either build), after `NewPage` yields `p` in frame `f`
and the caller writes `B` into the frame, `FlushPage(p)` returns `true` and the disk
manager's content for `p` equals `B`; the following `DeletePage(p)` returns `false` and
changes nothing, because the page is still pinned by `NewPage`; and `FetchPage(p)` then
returns frame `f`, whose buffer equals `B`. -/
theorem C13_flush_delete_fetch_reads_written_bytes (cfg : Config) (pool_size : Nat)
    (w : System) (a a' : PageAllocator) (draw draw' f : Nat) (p : PageId) (bp1 : BufferPool)
    (B : List data_t) (hreach : Reachable cfg pool_size w)
    (hnew : NewPage cfg w.pool a draw = .returned (f, p, a') bp1) :
    ∃ bp2 bp4,
      FlushPage cfg (WriteData bp1 f B) p = (true, bp2) ∧
      bp2.disk_manager_.ReadPage cfg p = B ∧
      DeletePage cfg bp2 p = (false, bp2) ∧
      FetchPage cfg bp2 p draw' = .returned f bp4 ∧
      (bp4.page cfg f).data_ = B ∧
      bp4.disk_manager_.ReadPage cfg p = B := by
  have hc := hreach.reachable_coherent
  have hc1 : Coherent cfg bp1 := hc.coherent_NewPage hnew
  obtain ⟨bpa, ha, hp, -, -, -, -, -, hpages, htable, -⟩ := NewPage_returned hnew
  have hfind1 : bp1.page_table_.find p = some f := by
    rw [htable]; exact PageTable.find_assign_self _ _ _
  have hlen1 : f < bp1.pages_.length := by
    rw [hc1.pages_length]
    exact (hc1.table_page p f (PageTable.find_some_mem hfind1)).1
  have hlena : f < bpa.pages_.length := by rw [hpages] at hlen1; simpa using hlen1
  have hpage1 : bp1.page cfg f = ⟨zeroData cfg, p, 1, false⟩ := by
    rw [BufferPool.page_of_set hpages]
    simp [hlena]
  -- the write
  have hw := @WriteData_of_lt bp1 f cfg B hlen1
  obtain ⟨-, etable, -, -, -⟩ := WriteData_fields bp1 f B
  have hfindw : (WriteData bp1 f B).page_table_.find p = some f := by rw [etable]; exact hfind1
  have hpagew : (WriteData bp1 f B).page cfg f = ⟨B, p, 1, false⟩ := by
    rw [WriteData_page]
    simp [hlen1, hpage1]
  have hlenw : f < (WriteData bp1 f B).pages_.length := by rw [hw]; simpa using hlen1
  -- the flush
  obtain ⟨bp2, hflush, hdisk2, hpages2, htable2⟩ : ∃ bp2,
      FlushPage cfg (WriteData bp1 f B) p = (true, bp2) ∧
      bp2.disk_manager_ = (WriteData bp1 f B).disk_manager_.WritePage p B ∧
      bp2.pages_ = (WriteData bp1 f B).pages_.set f ⟨B, p, 1, false⟩ ∧
      bp2.page_table_ = (WriteData bp1 f B).page_table_ := by
    refine ⟨_, FlushPage_some hfindw, ?_, ?_, rfl⟩
    · rw [hpagew]
    · rw [hpagew]
  have hpage2 : bp2.page cfg f = ⟨B, p, 1, false⟩ := by
    rw [BufferPool.page_of_set hpages2]
    simp [hlenw]
  have hfind2 : bp2.page_table_.find p = some f := by rw [htable2]; exact hfindw
  have hlen2 : f < bp2.pages_.length := by rw [hpages2]; simpa using hlenw
  have hread2 : bp2.disk_manager_.ReadPage cfg p = B := by
    rw [hdisk2]; exact DiskManager.ReadPage_WritePage_self cfg _ _ _
  have hvalid : cfg.NDEBUG = false → p.page_number_ ≠ INVALID_PAGE_ID := by
    intro _
    rw [hp]
    simp only [INVALID_PAGE_ID]
    omega
  -- the fetch
  obtain ⟨bp4, hfetch, hpages4, hdisk4⟩ : ∃ bp4,
      FetchPage cfg bp2 p draw' = .returned f bp4 ∧
      bp4.pages_ = bp2.pages_.set f
        { bp2.page cfg f with pin_count_ := (bp2.page cfg f).pin_count_ + 1 } ∧
      bp4.disk_manager_ = bp2.disk_manager_ :=
    ⟨_, FetchPage_of_resident draw' hfind2 hvalid, rfl, rfl⟩
  refine ⟨bp2, bp4, hflush, hread2, ?_, hfetch, ?_, ?_⟩
  · exact DeletePage_pinned hfind2 (by rw [hpage2]; exact Int.one_pos)
  · rw [BufferPool.page_of_set hpages4]
    simp [hlen2, hpage2]
  · rw [hdisk4]; exact hread2
/-- Witness of C13: on a fresh pool of one frame `NewPage` yields page `(0, 0)` in frame 0. -/
theorem C13_flush_delete_fetch_reads_written_bytes_witness :
    Reachable debugBuild 1 (scenario debugBuild 1 []) ∧
    NewPage debugBuild (scenario debugBuild 1 []).pool ⟨0, 0⟩ 0 =
      .returned (0, ⟨0, 0⟩, ⟨0, 1⟩) (scenario debugBuild 1 [.NewPage 0 0]).pool ∧
    ∃ bp2 bp4,
      FlushPage debugBuild
          (WriteData (scenario debugBuild 1 [.NewPage 0 0]).pool 0 [1, 2, 3, 4]) ⟨0, 0⟩
        = (true, bp2) ∧
      bp2.disk_manager_.ReadPage debugBuild ⟨0, 0⟩ = [1, 2, 3, 4] ∧
      DeletePage debugBuild bp2 ⟨0, 0⟩ = (false, bp2) ∧
      FetchPage debugBuild bp2 ⟨0, 0⟩ 0 = .returned 0 bp4 ∧
      (bp4.page debugBuild 0).data_ = [1, 2, 3, 4] ∧
      bp4.disk_manager_.ReadPage debugBuild ⟨0, 0⟩ = [1, 2, 3, 4] :=
  ⟨scenario_reachable (by decide), by decide,
    C13_flush_delete_fetch_reads_written_bytes debugBuild 1 (scenario debugBuild 1 [])
      ⟨0, 0⟩ ⟨0, 1⟩ 0 0 0 ⟨0, 0⟩ _ [1, 2, 3, 4] (scenario_reachable (by decide))
      (by decide)⟩

/-! ## C12: `FlushAllPages` twice -/

theorem writeBlock_of_readBlock {p : PageId} {data : List data_t}
    {blocks : List (PageId × List data_t)} (h : readBlock p blocks = some data) :
    writeBlock p data blocks = blocks := by
  induction blocks with
  | nil => simp [readBlock] at h
  | cons e rest ih =>
    obtain ⟨q, d⟩ := e
    by_cases hq : q = p
    · simp only [readBlock, hq, if_true, Option.some.injEq] at h
      simp [writeBlock, hq, h]
    · simp only [readBlock, hq, if_false] at h
      simp [writeBlock, hq, ih h]

theorem set_getD_self (l : List Page) (f : Nat) (d : Page) : l.set f (l.getD f d) = l := by
  induction l generalizing f with
  | nil => rfl
  | cons x rest ih =>
    cases f with
    | zero => rfl
    | succ k =>
      simp only [List.set_cons_succ, List.getD_cons_succ, ih]

theorem BufferPool.page_of_ge (cfg : Config) {bp : BufferPool} {f : Nat}
    (h : ¬ f < bp.pages_.length) : bp.page cfg f = Page.fresh cfg := by
  have hnone : bp.pages_[f]? = none := List.getElem?_eq_none (by omega)
  simp [BufferPool.page, List.getD_eq_getElem?_getD, hnone]

/-- A flushed page is left alone by `FlushPage`. -/
theorem Flushed.flushPage_eq {cfg : Config} {bp : BufferPool} {q : PageId}
    (h : Flushed cfg bp q) : (FlushPage cfg bp q).2 = bp := by
  cases hfind : bp.page_table_.find q with
  | none => rw [FlushPage_none hfind]
  | some f =>
    obtain ⟨hread, hclean⟩ := h f hfind
    rw [FlushPage_some hfind]
    have hpg : ({ bp.page cfg f with is_dirty_ := false } : Page) = bp.page cfg f := by
      cases hp : bp.page cfg f with
      | mk d i c dirty =>
        rw [hp] at hclean
        simp only at hclean
        simp [hclean]
    have hpages : bp.pages_.set f (bp.page cfg f) = bp.pages_ := set_getD_self _ _ _
    have hdisk : bp.disk_manager_.WritePage q (bp.page cfg f).data_ = bp.disk_manager_ := by
      simp only [DiskManager.WritePage, writeBlock_of_readBlock hread]
    simp only [hpg, hpages, hdisk]

/-- What `FlushPage(q')` leaves of the frames. -/
theorem FlushPage_page (cfg : Config) (bp : BufferPool) (q' : PageId) (g : Nat) :
    ((FlushPage cfg bp q').2.page cfg g).data_ = (bp.page cfg g).data_ ∧
    ((FlushPage cfg bp q').2.page cfg g).page_id_ = (bp.page cfg g).page_id_ ∧
    ((bp.page cfg g).is_dirty_ = false →
      ((FlushPage cfg bp q').2.page cfg g).is_dirty_ = false) := by
  cases hfind : bp.page_table_.find q' with
  | none => rw [FlushPage_none hfind]; exact ⟨rfl, rfl, id⟩
  | some f =>
    rw [FlushPage_some hfind, @BufferPool.page_of_set cfg bp _ f _ rfl]
    split
    · rename_i e
      rw [e.1]
      exact ⟨rfl, rfl, fun _ => rfl⟩
    · exact ⟨rfl, rfl, id⟩

/-- `FlushPage(q)` leaves `q` flushed. -/
theorem Flushed.of_flushPage (cfg : Config) (bp : BufferPool) (q : PageId) :
    Flushed cfg (FlushPage cfg bp q).2 q := by
  intro f hf
  rw [(FlushPage_fields cfg bp q).2.1] at hf
  have hres := @FlushPage_some cfg bp q f hf
  constructor
  · rw [(FlushPage_page cfg bp q f).1]
    rw [hres]
    exact readBlock_writeBlock_self _ _ _
  · rw [hres, @BufferPool.page_of_set cfg bp _ f _ rfl]
    split
    · rfl
    · rename_i hlt
      have : ¬ f < bp.pages_.length := fun h => hlt ⟨rfl, h⟩
      rw [BufferPool.page_of_ge cfg this]
      rfl

/-- `FlushPage(q')` keeps every flushed page flushed. -/
theorem Flushed.flushPage_other {cfg : Config} {bp : BufferPool} {q : PageId} (q' : PageId)
    (h : Flushed cfg bp q) : Flushed cfg (FlushPage cfg bp q').2 q := by
  by_cases hq : q' = q
  · subst hq
    exact Flushed.of_flushPage cfg bp q'
  · intro f hf
    rw [(FlushPage_fields cfg bp q').2.1] at hf
    obtain ⟨hread, hclean⟩ := h f hf
    obtain ⟨e1, -, e3⟩ := FlushPage_page cfg bp q' f
    refine ⟨?_, e3 hclean⟩
    rw [e1, ← hread]
    cases hfind : bp.page_table_.find q' with
    | none => rw [FlushPage_none hfind]
    | some f' =>
      rw [FlushPage_some hfind]
      exact readBlock_writeBlock_other (Ne.symm hq) _ _

/-- The loop of `FlushAllPages` leaves the page of every frame it visited flushed, keeps
flushed pages flushed, and keeps the `PageId` of every frame. -/
theorem flushFrames_flushed (cfg : Config) (frames : List Nat) :
    ∀ bp : BufferPool,
      (∀ i, i ∈ frames → Flushed cfg (flushFrames cfg frames bp) (bp.page cfg i).page_id_) ∧
      (∀ q, Flushed cfg bp q → Flushed cfg (flushFrames cfg frames bp) q) ∧
      (∀ g, ((flushFrames cfg frames bp).page cfg g).page_id_ = (bp.page cfg g).page_id_) := by
  induction frames with
  | nil =>
    intro bp
    exact ⟨fun i hi => (by cases hi), fun _ h => h, fun _ => rfl⟩
  | cons j rest ih =>
    intro bp
    obtain ⟨h1, h2, h3⟩ := ih (FlushPage cfg bp (bp.page cfg j).page_id_).2
    have hid : ∀ g, ((FlushPage cfg bp (bp.page cfg j).page_id_).2.page cfg g).page_id_ =
        (bp.page cfg g).page_id_ := fun g => (FlushPage_page cfg bp _ g).2.1
    refine ⟨?_, ?_, ?_⟩
    · intro i hi
      rcases List.mem_cons.mp hi with e | hi'
      · rw [e]
        exact h2 _ (Flushed.of_flushPage cfg bp _)
      · have := h1 i hi'
        rw [hid i] at this
        exact this
    · intro q hq
      exact h2 q (Flushed.flushPage_other _ hq)
    · intro g
      exact (h3 g).trans (hid g)

/-- When the page of every listed frame is flushed, the loop of `FlushAllPages` changes
nothing. -/
theorem flushFrames_eq_self (cfg : Config) (frames : List Nat) :
    ∀ bp : BufferPool, (∀ i, i ∈ frames → Flushed cfg bp (bp.page cfg i).page_id_) →
      flushFrames cfg frames bp = bp := by
  induction frames with
  | nil => intro bp _; rfl
  | cons j rest ih =>
    intro bp h
    have hj := h j (List.mem_cons_self _ _)
    show flushFrames cfg rest (FlushPage cfg bp (bp.page cfg j).page_id_).2 = bp
    rw [hj.flushPage_eq]
    exact ih bp (fun i hi => h i (List.mem_cons_of_mem _ hi))

/-- C12: `FlushAllPages` is idempotent: in every pool state, over every disk, calling it twice
in a row yields exactly the pool state and disk contents that calling it once yields. -/
theorem C12_flush_all_pages_idempotent (cfg : Config) (bp : BufferPool) :
    FlushAllPages cfg (FlushAllPages cfg bp) = FlushAllPages cfg bp := by
  unfold FlushAllPages
  obtain ⟨h1, -, h3⟩ := flushFrames_flushed cfg (List.range bp.pool_size_) bp
  rw [(flushFrames_fields cfg (List.range bp.pool_size_) bp).1]
  apply flushFrames_eq_self
  intro i hi
  rw [h3 i]
  exact h1 i hi

/-! ## Decoding of values -/

theorem readLE_encodeLE (width : Nat) :
    ∀ (n : Nat) (rest : List data_t),
      readLE width (encodeLE width n ++ rest) = some (n % 256 ^ width) := by
  induction width with
  | zero => intro n rest; simp [readLE, encodeLE, Nat.mod_one]
  | succ w ih =>
    intro n rest
    simp only [encodeLE, List.cons_append, readLE, List.append_eq, ih, Option.map_some']
    rw [pow_succ', Nat.mod_mul]

theorem length_encodeLE (width : Nat) : ∀ n : Nat, (encodeLE width n).length = width := by
  induction width with
  | zero => intro n; rfl
  | succ w ih => intro n; simp [encodeLE, ih]

theorem toSigned_of_int32 {n : Int} (hlo : -2 ^ 31 ≤ n) (hhi : n < 2 ^ 31) :
    toSigned 32 ((n % 2 ^ 32).toNat % 256 ^ 4) = n := by
  unfold toSigned
  norm_num
  split <;> omega

/-- C16: for every 32-bit signed integer `n` (and whatever bytes follow in the storage),
`DeserializeFrom` of the 4-byte little-endian two's-complement encoding of `n` with type
`INTEGER` returns a `Value` of type `INTEGER` that holds `n` in the `int32_t` alternative; the
bytes `FF FF FF FF` decode to `-1`. -/
theorem C16_integer_decoding (cfg : Config) (n : Int) (rest : List data_t)
    (hlo : -2 ^ 31 ≤ n) (hhi : n < 2 ^ 31) :
    Value.DeserializeFrom cfg (encodeInt32 n ++ rest) .INTEGER =
        .ok ⟨.INTEGER, .int32_t n, false⟩ ∧
      Value.DeserializeFrom cfg [255, 255, 255, 255] .INTEGER =
        .ok ⟨.INTEGER, .int32_t (-1), false⟩ := by
  constructor
  · simp only [Value.DeserializeFrom, encodeInt32, readLE_encodeLE, toSigned_of_int32 hlo hhi]
    rfl
  · rfl

/-- Witness of C16: `-2` is encoded as `FE FF FF FF` and decoded back. -/
theorem C16_integer_decoding_witness :
    encodeInt32 (-2) = [254, 255, 255, 255] ∧
    Value.DeserializeFrom debugBuild (encodeInt32 (-2) ++ [7]) .INTEGER =
        .ok ⟨.INTEGER, .int32_t (-2), false⟩ ∧
      Value.DeserializeFrom debugBuild [255, 255, 255, 255] .INTEGER =
        .ok ⟨.INTEGER, .int32_t (-1), false⟩ :=
  ⟨by decide, C16_integer_decoding debugBuild (-2) [7] (by decide) (by decide)⟩

theorem encodeLE_add (a b : Nat) :
    ∀ n : Nat, encodeLE (a + b) n = encodeLE a n ++ encodeLE b (n / 256 ^ a) := by
  induction a with
  | zero => intro n; simp [encodeLE]
  | succ a ih =>
    intro n
    rw [show a + 1 + b = (a + b) + 1 from by omega]
    simp only [encodeLE, List.cons_append, ih, pow_succ', Nat.div_div_eq_div_mul]

/-- C17 (what the code does): for every `t`, `DeserializeFrom` of the 8-byte little-endian
encoding of `t` with type `TIMESTAMP` reads through a `const uint32_t *`, so it returns a
`Value` that holds `t mod 2 ^ 32` and leaves the upper four bytes unread; the encoding
`00 00 00 00 01 00 00 00` of `2 ^ 32` decodes to `0`. -/
theorem C17_timestamp_decoding_reads_four_bytes (cfg : Config) (t : Nat)
    (rest : List data_t) :
    Value.DeserializeFrom cfg (encodeLE 8 t ++ rest) .TIMESTAMP =
        .ok ⟨.TIMESTAMP, .uint64_t (t % 2 ^ 32), false⟩ ∧
      encodeLE 8 (2 ^ 32) = [0, 0, 0, 0, 1, 0, 0, 0] ∧
      Value.DeserializeFrom cfg [0, 0, 0, 0, 1, 0, 0, 0] .TIMESTAMP =
        .ok ⟨.TIMESTAMP, .uint64_t 0, false⟩ := by
  refine ⟨?_, by decide, rfl⟩
  rw [show (8 : Nat) = 4 + 4 from rfl, encodeLE_add, List.append_assoc]
  simp only [Value.DeserializeFrom, readLE_encodeLE]
  rfl

/-! ## Construction and arithmetic of values -/

/-- Counterexample to C18 as stated: two `TIMESTAMP` values, built by the checked constructor,
whose multiplication throws "TIMESTAMP arithmetic not supported" and leaves the left value as
it was; and two values of type `INTEGER`, built by the constructor `Value(TypeId)` and so
holding no `int32_t`, whose addition throws `std::bad_variant_access` and leaves the left
value as it was. -/
theorem C18_counterexample_timestamp_multiply_throws :
    (Value.new .TIMESTAMP (.uint64_t 2) = .ok ⟨.TIMESTAMP, .uint64_t 2, false⟩ ∧
      Value.new .TIMESTAMP (.uint64_t 3) = .ok ⟨.TIMESTAMP, .uint64_t 3, false⟩ ∧
      Value.ComputeArithmetic ⟨.TIMESTAMP, .uint64_t 2, false⟩ ⟨.TIMESTAMP, .uint64_t 3, false⟩
          .Multiply =
        (⟨.TIMESTAMP, .uint64_t 2, false⟩,
          some (.RuntimeException "TIMESTAMP arithmetic not supported"))) ∧
    ((Value.ofType .INTEGER).type_id_ = .INTEGER ∧
      Value.ComputeArithmetic (Value.ofType .INTEGER) (Value.ofType .INTEGER) .Plus =
        (Value.ofType .INTEGER, some .bad_variant_access)) :=
  ⟨⟨by decide, by decide, by decide⟩, by decide, by decide⟩

/-- C18 (amended): `ComputeArithmetic` succeeds, replacing the left value by the result and
keeping its type and null flag, exactly when the left value has type `INTEGER` (`Plus`,
`Minus`, `Multiply`; 32-bit two's-complement results) or `TIMESTAMP` (`Plus`, `Minus`; results
modulo `2 ^ 64`) and both values hold the alternative of that type (`int32_t`, `uint64_t`), as
every value built by the checked constructor does.  Otherwise it throws and leaves the left
value unchanged: "<type> arithmetic not supported" when the left value has type `BOOLEAN`,
`VARCHAR` or `INVALID` (every operator) or `TIMESTAMP` with `Multiply`, whatever the right
value is; `std::bad_variant_access` when the type is `INTEGER`, or `TIMESTAMP` with `Plus` or
`Minus`, and one of the two values does not hold that alternative. -/
theorem C18_arithmetic_on_numeric_arms (a b : Int) (x y : Nat) (n m : Bool) (type : TypeId)
    (val : Val) (other : Value) (op : ArithmeticType) :
    (Value.ComputeArithmetic ⟨.INTEGER, .int32_t a, n⟩ ⟨type, .int32_t b, m⟩ .Plus =
        (⟨.INTEGER, .int32_t (wrapInt32 (a + b)), n⟩, none) ∧
      Value.ComputeArithmetic ⟨.INTEGER, .int32_t a, n⟩ ⟨type, .int32_t b, m⟩ .Minus =
        (⟨.INTEGER, .int32_t (wrapInt32 (a - b)), n⟩, none) ∧
      Value.ComputeArithmetic ⟨.INTEGER, .int32_t a, n⟩ ⟨type, .int32_t b, m⟩ .Multiply =
        (⟨.INTEGER, .int32_t (wrapInt32 (a * b)), n⟩, none) ∧
      Value.ComputeArithmetic ⟨.TIMESTAMP, .uint64_t x, n⟩ ⟨type, .uint64_t y, m⟩ .Plus =
        (⟨.TIMESTAMP, .uint64_t ((x + y) % 2 ^ 64), n⟩, none) ∧
      Value.ComputeArithmetic ⟨.TIMESTAMP, .uint64_t x, n⟩ ⟨type, .uint64_t y, m⟩ .Minus =
        (⟨.TIMESTAMP, .uint64_t ((x + 2 ^ 64 - y % 2 ^ 64) % 2 ^ 64), n⟩, none)) ∧
    ((∀ payload v, Value.new .INTEGER payload = .ok v →
        ∃ i, payload = .int32_t i ∧ v = ⟨.INTEGER, .int32_t i, false⟩) ∧
      (∀ payload v, Value.new .TIMESTAMP payload = .ok v →
        ∃ t, payload = .uint64_t t ∧ v = ⟨.TIMESTAMP, .uint64_t t, false⟩)) ∧
    (Value.ComputeArithmetic ⟨.TIMESTAMP, val, n⟩ other .Multiply =
        (⟨.TIMESTAMP, val, n⟩,
          some (.RuntimeException "TIMESTAMP arithmetic not supported")) ∧
      Value.ComputeArithmetic ⟨.BOOLEAN, val, n⟩ other op =
        (⟨.BOOLEAN, val, n⟩, some (.RuntimeException "BOOLEAN arithmetic not supported")) ∧
      Value.ComputeArithmetic ⟨.VARCHAR, val, n⟩ other op =
        (⟨.VARCHAR, val, n⟩, some (.RuntimeException "VARCHAR arithmetic not supported")) ∧
      Value.ComputeArithmetic ⟨.INVALID, val, n⟩ other op =
        (⟨.INVALID, val, n⟩, some (.RuntimeException "INVALID arithmetic not supported"))) ∧
    (((∀ i, val ≠ .int32_t i) ∨ (∀ i, other.value_ ≠ .int32_t i) →
        Value.ComputeArithmetic ⟨.INTEGER, val, n⟩ other op =
          (⟨.INTEGER, val, n⟩, some .bad_variant_access)) ∧
      (op ≠ .Multiply → (∀ t, val ≠ .uint64_t t) ∨ (∀ t, other.value_ ≠ .uint64_t t) →
        Value.ComputeArithmetic ⟨.TIMESTAMP, val, n⟩ other op =
          (⟨.TIMESTAMP, val, n⟩, some .bad_variant_access))) := by
  refine ⟨⟨rfl, rfl, rfl, rfl, rfl⟩, ⟨?_, ?_⟩, ⟨rfl, ?_, ?_, ?_⟩, ⟨?_, ?_⟩⟩
  · intro payload v h
    cases payload <;>
      simp [Value.new, ValueIsCorrectType, Payload.typeid, Payload.toVal] at h
    exact ⟨_, rfl, h.symm⟩
  · intro payload v h
    cases payload <;>
      simp [Value.new, ValueIsCorrectType, Payload.typeid, Payload.toVal] at h
    exact ⟨_, rfl, h.symm⟩
  · cases op <;> rfl
  · cases op <;> rfl
  · cases op <;> rfl
  · obtain ⟨t, oval, onull⟩ := other
    intro h
    cases val <;> cases oval <;> cases op <;>
      first
        | rfl
        | (exfalso; rcases h with h | h
           · exact h _ rfl
           · exact h _ rfl)
  · obtain ⟨t, oval, onull⟩ := other
    intro hop h
    cases val <;> cases oval <;> cases op <;>
      first
        | rfl
        | exact absurd rfl hop
        | (exfalso; rcases h with h | h
           · exact h _ rfl
           · exact h _ rfl)

/-- Witness of C18 (amended): `Value(INTEGER, 5)` and `Value(INTEGER, 7)`, and the value
`Value(INTEGER)` without a payload. -/
theorem C18_arithmetic_on_numeric_arms_witness :
    Value.new .INTEGER (.int32_t 5) = .ok ⟨.INTEGER, .int32_t 5, false⟩ ∧
    Value.new .INTEGER (.int32_t 7) = .ok ⟨.INTEGER, .int32_t 7, false⟩ ∧
    Value.ComputeArithmetic ⟨.INTEGER, .int32_t 5, false⟩ ⟨.INTEGER, .int32_t 7, false⟩
        .Multiply = (⟨.INTEGER, .int32_t 35, false⟩, none) ∧
    Value.ComputeArithmetic ⟨.INTEGER, .int32_t 5, false⟩ (Value.ofType .INTEGER) .Minus =
      (⟨.INTEGER, .int32_t 5, false⟩, some .bad_variant_access) :=
  ⟨by decide, by decide,
    (C18_arithmetic_on_numeric_arms 5 7 0 0 false false .INTEGER (.int32_t 5)
      (Value.ofType .INTEGER) .Minus).1.2.2.1,
    (C18_arithmetic_on_numeric_arms 5 7 0 0 false false .INTEGER (.int32_t 5)
      (Value.ofType .INTEGER) .Minus).2.2.2.1 (Or.inr (fun i h => by cases h))⟩

/-- C19: for every `TypeId` and every payload, `Value(type, payload)` returns a value (of that
type, holding the payload, not null) exactly when the payload's arm is the one of the type
(`BOOLEAN` with `uint8_t`, `INTEGER` with `int32_t`, `TIMESTAMP` with `uint64_t`, `VARCHAR`
with `std::string`), and throws "Value isn't assigned to the correct type id" exactly when it
is not; with `INVALID` it throws for every payload. -/
theorem C19_value_construction_is_type_checked (type : TypeId) (payload : Payload) :
    ((∃ v, Value.new type payload = .ok v) ↔ specArmMatches type payload = true) ∧
    (Value.new type payload = .ok ⟨type, payload.toVal, false⟩ ↔
      specArmMatches type payload = true) ∧
    (Value.new type payload =
        .thrown (.RuntimeException "Value isn't assigned to the correct type id") ↔
      specArmMatches type payload = false) ∧
    Value.new .INVALID payload =
      .thrown (.RuntimeException "Value isn't assigned to the correct type id") := by
  cases type <;> cases payload <;>
    simp [Value.new, ValueIsCorrectType, Payload.typeid, specArmMatches]

/-! ## Index keys -/

theorem memcpy_ok_head {dest src : List data_t} {n : Nat} {b : data_t} {rest : List data_t}
    (h : memcpy dest src (n + 1) = .ok (b :: rest)) : src.head? = some b := by
  unfold memcpy at h
  split at h
  · cases h
  · cases src with
    | nil => rename_i hn; simp at hn
    | cons c src =>
      simp only [List.take_succ_cons, List.cons_append, Result.ok.injEq, List.cons.injEq] at h
      simp [h.1]

/-- The first byte of the key of a non-empty `VARCHAR` is the first byte of the object
representation of the variant: the `'\0'` goes to a later index. -/
theorem ConvertToIndexKeyType_head {j : Nat} {representation : Val → List data_t}
    {s : List data_t} {is_null : Bool} {b : data_t} {rest : List data_t} (hs : s ≠ [])
    (h : Value.ConvertToIndexKeyType (j + 2) representation ⟨.VARCHAR, .string s, is_null⟩ =
      .ok (b :: rest)) :
    (representation (.string s)).head? = some b := by
  have hlen : 0 < s.length := List.length_pos.mpr hs
  simp only [Value.ConvertToIndexKeyType, Nat.add_sub_cancel, Nat.succ_ne_zero, if_false,
    show j + 2 = (j + 1) + 1 from rfl] at h
  split at h
  · rename_i ret hcopy
    obtain ⟨i, hi⟩ : ∃ i, min s.length (j + 1) = i + 1 := ⟨min s.length (j + 1) - 1, by omega⟩
    rw [hi] at h
    cases ret with
    | nil => simp at h
    | cons c ret =>
      simp only [List.set_cons_succ, Result.ok.injEq, List.cons.injEq] at h
      rw [← h.1]
      exact memcpy_ok_head hcopy
  · rename_i r hr
    exact absurd h (hr _)

/-- C20 (what the code does): `memcpy(&ret, &value_, sizeof(IndexKeyType) - 1)` copies the
object representation of the variant, not the characters of the string.  With the layout of
libstdc++ on x86-64, a key size of 8 and the variant at address 4096, the key of
`Value(VARCHAR, "a")` is `10 00 00 00 00 00 00 00` (the low bytes of the pointer 4112 to the
characters, with the `'\0'` stored at index 1); for no key size of at least 2 and no 8-byte
aligned address of the variant is it a key that starts with the byte `'a'`; and the same holds
for the string of 32 bytes `'a'`, whose characters are on the heap at a 16-byte aligned
address. -/
theorem C20_varchar_key_copies_object_representation (j k heap : Nat)
    (rest : List data_t) :
    Value.new .VARCHAR (.string [97]) = .ok ⟨.VARCHAR, .string [97], false⟩ ∧
    Value.ConvertToIndexKeyType 8 (libstdcxxRepresentation 4096 heap)
        ⟨.VARCHAR, .string [97], false⟩ = .ok [16, 0, 0, 0, 0, 0, 0, 0] ∧
    Value.ConvertToIndexKeyType (j + 2) (libstdcxxRepresentation (8 * k) heap)
        ⟨.VARCHAR, .string [97], false⟩ ≠ .ok (97 :: rest) ∧
    Value.ConvertToIndexKeyType (j + 2) (libstdcxxRepresentation (8 * k) (16 * heap))
        ⟨.VARCHAR, .string (List.replicate 32 97), false⟩ ≠ .ok (97 :: rest) := by
  refine ⟨by decide, rfl, ?_, ?_⟩
  · intro h
    have hhead := ConvertToIndexKeyType_head (by decide) h
    simp only [libstdcxxRepresentation, List.length_singleton, Nat.one_lt_ofNat, if_true,
      encodeLE, List.cons_append, List.head?_cons, Option.some.injEq] at hhead
    have := congrArg Fin.val hhead
    simp only at this
    omega
  · intro h
    have hhead := ConvertToIndexKeyType_head (by decide) h
    simp only [libstdcxxRepresentation, List.length_replicate, Nat.reduceLT, if_false,
      encodeLE, List.cons_append, List.head?_cons, Option.some.injEq] at hhead
    have := congrArg Fin.val hhead
    simp only at this
    omega

/-! ## The binary serialization framework: reading back what was written -/

theorem readVarint_encodeVarint (fuel : Nat) :
    ∀ (n : Nat) (rest : List data_t), n < fuel →
      readVarint (encodeVarint fuel n ++ rest) = some (n, rest) := by
  induction fuel with
  | zero => intro n rest h; omega
  | succ fuel ih =>
    intro n rest h
    unfold encodeVarint
    split
    · rename_i hn
      simp [readVarint, hn]
    · rename_i hn
      have hlt : n / 128 < fuel := by omega
      have hb : ¬ 128 + n % 128 < 128 := by omega
      simp only [List.cons_append, readVarint, hb, if_false, List.append_eq,
        ih (n / 128) rest hlt]
      have hval : 128 + n % 128 - 128 + 128 * (n / 128) = n := by omega
      rw [hval]

theorem readVarint_writeVarint (n : Nat) (rest : List data_t) :
    readVarint (writeVarint n ++ rest) = some (n, rest) :=
  readVarint_encodeVarint (n + 1) n rest (Nat.lt_succ_self n)

theorem length_encodeVarint_pos (fuel n : Nat) : 0 < (encodeVarint (fuel + 1) n).length := by
  unfold encodeVarint
  split <;> simp

theorem length_writeVarint_pos (n : Nat) : 0 < (writeVarint n).length :=
  length_encodeVarint_pos n n

theorem length_writeVarint_small {n : Nat} (h : n < 128) : (writeVarint n).length = 1 := by
  unfold writeVarint encodeVarint
  simp [h]

theorem readProperties_encode (properties : List Property) (rest : List data_t) :
    readProperties properties.length ((properties.map Property.encode).flatten ++ rest) =
      some (properties, rest) := by
  induction properties with
  | nil => rfl
  | cons p ps ih =>
    simp only [List.length_cons, List.map_cons, List.flatten_cons, Property.encode,
      List.append_assoc, readProperties, readVarint_writeVarint]
    have hlen : ¬ (p.payload ++ ((ps.map Property.encode).flatten ++ rest)).length
        < p.payload.length := by
      simp
    simp only [hlen, if_false, List.drop_left, List.take_left, ih]

theorem decodeObject_encodeObject (properties : List Property) (rest : List data_t) :
    decodeObject (encodeObject properties ++ rest) = some (properties, rest) := by
  simp only [decodeObject, encodeObject, List.append_assoc, readVarint_writeVarint,
    readProperties_encode, List.singleton_append, if_true]

theorem length_encodeObject (properties : List Property) :
    (encodeObject properties).length =
      (writeVarint properties.length).length +
        ((properties.map Property.encode).flatten).length + 1 := by
  simp only [encodeObject, List.length_append, List.length_singleton]

theorem Property.length_encode_pos (p : Property) : 0 < p.encode.length := by
  have := length_writeVarint_pos p.field_id
  simp only [Property.encode, List.length_append]
  omega

/-! ### The field types -/

theorem decodeUInt32_encodeUInt32 {n : Nat} (h : n < 2 ^ 32) (rest : List data_t) :
    decodeUInt32 (encodeUInt32 n ++ rest) = .ok (n, rest) := by
  have hdrop : (encodeLE 4 n ++ rest).drop 4 = rest := by
    rw [List.drop_append_eq_append_drop, length_encodeLE]
    simp [List.drop_eq_nil_of_le, length_encodeLE]
  simp only [decodeUInt32, encodeUInt32, readLE_encodeLE, hdrop]
  rw [Nat.mod_eq_of_lt (by norm_num; omega)]

theorem decodeInt32_encodeInt32 {n : Int} (hlo : -2 ^ 31 ≤ n) (hhi : n < 2 ^ 31)
    (rest : List data_t) : decodeInt32 (encodeInt32 n ++ rest) = .ok (n, rest) := by
  have hdrop : (encodeLE 4 (n % 2 ^ 32).toNat ++ rest).drop 4 = rest := by
    rw [List.drop_append_eq_append_drop, length_encodeLE]
    simp [List.drop_eq_nil_of_le, length_encodeLE]
  simp only [decodeInt32, encodeInt32, readLE_encodeLE, hdrop, toSigned_of_int32 hlo hhi]

theorem decodeString_encodeString (s rest : List data_t) :
    decodeString (encodeString s ++ rest) = .ok (s, rest) := by
  simp [decodeString, encodeString, readVarint_writeVarint]

theorem readStrings_encode (vec : List (List data_t)) (rest : List data_t) :
    readStrings vec.length ((vec.map encodeString).flatten ++ rest) = .ok (vec, rest) := by
  induction vec with
  | nil => rfl
  | cons s vec ih =>
    simp only [List.length_cons, List.map_cons, List.flatten_cons, List.append_assoc,
      readStrings, decodeString_encodeString, ih]

theorem decodeStrings_encodeStrings (vec : List (List data_t)) (rest : List data_t) :
    decodeStrings (encodeStrings vec ++ rest) = .ok (vec, rest) := by
  simp only [decodeStrings, encodeStrings, List.append_assoc, readVarint_writeVarint,
    readStrings_encode]

/-! ### The objects of the test -/

theorem Bar.bar_deserialize_serialize (bar : Bar) (h : bar.InRange) :
    Bar.Deserialize (bar.Serialize []) = .ok bar := by
  obtain ⟨b, vec⟩ := bar
  have hb := decodeUInt32_encodeUInt32 h []
  rw [List.append_nil] at hb
  have hv := decodeStrings_encodeStrings vec []
  rw [List.append_nil] at hv
  by_cases hvec : vec = []
  · subst hvec
    simp [Bar.Deserialize, Bar.Serialize, Serializer.WriteProperty,
      Serializer.WritePropertyWithDefault, Deserializer.ReadProperty,
      Deserializer.ReadPropertyWithDefault, Deserializer.find, hb]
  · simp [Bar.Deserialize, Bar.Serialize, Serializer.WriteProperty,
      Serializer.WritePropertyWithDefault, Deserializer.ReadProperty,
      Deserializer.ReadPropertyWithDefault, Deserializer.find, hb, hv, hvec]

theorem decodeBarPtr_encodeBarPtr (bar : Bar) (h : bar.InRange) (rest : List data_t) :
    decodeBarPtr (encodeBarPtr (some bar) ++ rest) = .ok (some bar, rest) := by
  simp [decodeBarPtr, encodeBarPtr, decodeObject_encodeObject, Bar.bar_deserialize_serialize bar h]

theorem Foo.foo_deserialize_serialize (x : Foo) (h : x.InRange) :
    Foo.Deserialize (x.Serialize []) = .ok x := by
  obtain ⟨a, bar, c⟩ := x
  obtain ⟨⟨halo, hahi⟩, ⟨hclo, hchi⟩, hbar⟩ := h
  have ha := decodeInt32_encodeInt32 halo hahi []
  rw [List.append_nil] at ha
  have hc := decodeInt32_encodeInt32 hclo hchi []
  rw [List.append_nil] at hc
  cases bar with
  | none =>
    simp [Foo.Deserialize, Foo.Serialize, Serializer.WriteProperty,
      Serializer.WritePropertyWithDefault, Deserializer.ReadProperty,
      Deserializer.ReadPropertyWithDefault, Deserializer.find, ha, hc]
  | some bar =>
    have hb := decodeBarPtr_encodeBarPtr bar (hbar bar rfl) []
    rw [List.append_nil] at hb
    simp [Foo.Deserialize, Foo.Serialize, Serializer.WriteProperty,
      Serializer.WritePropertyWithDefault, Deserializer.ReadProperty,
      Deserializer.ReadPropertyWithDefault, Deserializer.find, ha, hc, hb]

/-! ### Through the stream -/

/-- What an owning stream at position zero holds after a write and a rewind: the bytes
written, followed by what the buffer holds behind them. -/
theorem MemoryStream.write_rewind_read (stream : MemoryStream) (buffer : List data_t)
    (hpos : stream.position_ = 0) (hown : stream.owns_data_ = true) :
    ∃ written tail after,
      stream.WriteData buffer = .ok written ∧
      written.position_ = buffer.length ∧
      written.Rewind.position_ = 0 ∧
      written.Rewind.ReadData (written.Rewind.capacity_ - written.Rewind.position_) =
        .ok (buffer ++ tail, after) := by
  have hcap : buffer.length ≤
      (if stream.capacity_ < buffer.length then max (2 * stream.capacity_) buffer.length
        else stream.capacity_) := by
    split <;> omega
  have hw : stream.WriteData buffer = .ok
      ⟨buffer.length,
        if stream.capacity_ < buffer.length then max (2 * stream.capacity_) buffer.length
          else stream.capacity_,
        stream.owns_data_,
        buffer ++ (stream.data_ ++ List.replicate
          ((if stream.capacity_ < buffer.length then max (2 * stream.capacity_) buffer.length
            else stream.capacity_) - stream.data_.length) 0).drop buffer.length⟩ := by
    simp only [MemoryStream.WriteData, hpos, hown, Nat.zero_add, Bool.true_eq_false,
      and_false, if_false, List.take_zero, List.nil_append]
  obtain ⟨written, hw, hp, hc, X, hd⟩ : ∃ written, stream.WriteData buffer = .ok written ∧
      written.position_ = buffer.length ∧ buffer.length ≤ written.capacity_ ∧
      ∃ X, written.data_ = buffer ++ X := ⟨_, hw, rfl, hcap, _, rfl⟩
  refine ⟨written, X.take (written.capacity_ - buffer.length),
    { written.Rewind with position_ := written.Rewind.position_ +
        (written.Rewind.capacity_ - written.Rewind.position_) }, hw, hp, rfl, ?_⟩
  simp only [MemoryStream.ReadData, MemoryStream.Rewind, Nat.zero_add, Nat.sub_zero,
    Nat.lt_irrefl, if_false, List.drop_zero, hd]
  rw [List.take_append_eq_append_take, List.take_of_length_le hc]

/-- Writing an object into an owning stream at position zero, rewinding and reading it back
gives the object, and the position ends where the write ended. -/
theorem serialize_deserialize {α : Type} (serialize : Serializer → Serializer)
    (deserialize : Deserializer → Except SerializationError α) (value : α)
    (stream : MemoryStream) (hpos : stream.position_ = 0) (hown : stream.owns_data_ = true)
    (hround : deserialize (serialize []) = .ok value) :
    ∃ written read,
      BinarySerializer.Serialize serialize stream = .ok written ∧
      written.GetPosition = (encodeObject (serialize [])).length ∧
      BinaryDeserializer.Deserialize deserialize written.Rewind = .ok (value, read) ∧
      read.GetPosition = written.GetPosition := by
  obtain ⟨written, tail, after, hw, hp, hp0, hr⟩ :=
    MemoryStream.write_rewind_read stream (encodeObject (serialize [])) hpos hown
  refine ⟨written,
    { written.Rewind with position_ := written.Rewind.position_ +
        ((encodeObject (serialize []) ++ tail).length - tail.length) }, hw, hp, ?_, ?_⟩
  · simp only [BinaryDeserializer.Deserialize, hr, decodeObject_encodeObject, hround]
  · simp only [MemoryStream.GetPosition, hp0, hp, List.length_append]
    omega

/-- C14: for every `Foo` whose fields fit their C++ types (`a`, `c` 32-bit signed, `bar`
absent or present with a 32-bit unsigned `b` and any list of strings `vec`), serializing it
with `BinarySerializer` into an owning `MemoryStream` at position zero succeeds, and after
`Rewind` the `BinaryDeserializer` returns an object equal to it in every field (`a`, `c`, the
presence of `bar`, `bar.b` and `bar.vec` element by element), having read exactly the bytes
that were written. -/
theorem C14_serializer_round_trip (x : Foo) (stream : MemoryStream) (hx : x.InRange)
    (hpos : stream.position_ = 0) (hown : stream.owns_data_ = true) :
    ∃ written read,
      BinarySerializer.Serialize x.Serialize stream = .ok written ∧
      BinaryDeserializer.Deserialize Foo.Deserialize written.Rewind = .ok (x, read) ∧
      read.GetPosition = written.GetPosition :=
  have ⟨written, read, hw, _, hr, hp⟩ :=
    serialize_deserialize x.Serialize Foo.Deserialize x stream hpos hown
      (Foo.foo_deserialize_serialize x hx)
  ⟨written, read, hw, hr, hp⟩

/-- Witness of C14: the object of the test, written into a fresh stream. -/
theorem C14_serializer_round_trip_witness :
    fooOfTest.InRange ∧ (MemoryStream.new 512).position_ = 0 ∧
    (MemoryStream.new 512).owns_data_ = true ∧
    ∃ written read,
      BinarySerializer.Serialize fooOfTest.Serialize (MemoryStream.new 512) = .ok written ∧
      BinaryDeserializer.Deserialize Foo.Deserialize written.Rewind = .ok (fooOfTest, read) ∧
      read.GetPosition = written.GetPosition :=
  have hx : fooOfTest.InRange :=
    ⟨by decide, by decide, fun bar h => by cases h; show (43 : Nat) < 2 ^ 32; decide⟩
  ⟨hx, rfl, rfl, C14_serializer_round_trip fooOfTest (MemoryStream.new 512) hx rfl rfl⟩

/-! ### Suppressed defaults -/

theorem encodeVarint_fuel (fuel : Nat) :
    ∀ (fuel' n : Nat), n < fuel → n < fuel' → encodeVarint fuel n = encodeVarint fuel' n := by
  induction fuel with
  | zero => intro fuel' n h; omega
  | succ fuel ih =>
    intro fuel' n h h'
    cases fuel' with
    | zero => omega
    | succ fuel' =>
      unfold encodeVarint
      split
      · rfl
      · rw [ih fuel' (n / 128) (by omega) (by omega)]

theorem length_encodeVarint_mono (fuel : Nat) :
    ∀ (m n : Nat), m ≤ n → n < fuel →
      (encodeVarint fuel m).length ≤ (encodeVarint fuel n).length := by
  induction fuel with
  | zero => intro m n _ h; omega
  | succ fuel ih =>
    intro m n hmn h
    unfold encodeVarint
    by_cases hn : n < 128
    · have hm : m < 128 := by omega
      simp [hn, hm]
    · by_cases hm : m < 128
      · simp [hn, hm]
      · have := ih (m / 128) (n / 128) (Nat.div_le_div_right hmn) (by omega)
        simp only [hn, hm, dite_false, List.length_cons]
        omega

theorem length_writeVarint_mono {m n : Nat} (h : m ≤ n) :
    (writeVarint m).length ≤ (writeVarint n).length := by
  unfold writeVarint
  rw [encodeVarint_fuel (m + 1) (n + 1) m (by omega) (by omega)]
  exact length_encodeVarint_mono (n + 1) m n h (by omega)

theorem Bar.bar_length_suppressed_lt (b : Nat) (vec : List (List data_t)) (hvec : vec ≠ []) :
    (encodeObject ((⟨b, []⟩ : Bar).Serialize [])).length <
      (encodeObject ((⟨b, vec⟩ : Bar).Serialize [])).length := by
  have hpos := Property.length_encode_pos ⟨2, encodeStrings vec⟩
  simp only [length_encodeObject, Bar.Serialize, Serializer.WriteProperty,
    Serializer.WritePropertyWithDefault, hvec, if_true, if_false, List.nil_append,
    List.singleton_append, List.length_cons, List.length_nil, List.map_cons, List.map_nil,
    List.flatten_cons, List.flatten_nil, List.length_append,
    length_writeVarint_small (show 0 + 1 < 128 by decide),
    length_writeVarint_small (show 0 + 1 + 1 < 128 by decide)]
  omega

theorem Foo.foo_length_suppressed_lt (a c : Int) (bar : Bar) :
    (encodeObject ((⟨a, none, c⟩ : Foo).Serialize [])).length <
      (encodeObject ((⟨a, some bar, c⟩ : Foo).Serialize [])).length := by
  have hpos := Property.length_encode_pos ⟨2, encodeBarPtr (some bar)⟩
  simp only [length_encodeObject, Foo.Serialize, Serializer.WriteProperty,
    Serializer.WritePropertyWithDefault, if_true, if_false, List.nil_append,
    List.singleton_append, List.length_cons, List.length_nil, List.map_cons, List.map_nil,
    List.flatten_cons, List.flatten_nil, List.length_append, List.cons_append,
    reduceCtorEq,
    length_writeVarint_small (show 0 + 1 + 1 < 128 by decide),
    length_writeVarint_small (show 0 + 1 + 1 + 1 < 128 by decide)]
  omega

theorem Foo.length_nested_suppressed_lt (a c : Int) (b : Nat) (vec : List (List data_t))
    (hvec : vec ≠ []) :
    (encodeObject ((⟨a, some ⟨b, []⟩, c⟩ : Foo).Serialize [])).length <
      (encodeObject ((⟨a, some ⟨b, vec⟩, c⟩ : Foo).Serialize [])).length := by
  have hbar := Bar.bar_length_suppressed_lt b vec hvec
  have hmono := @length_writeVarint_mono
    (encodeBarPtr (some ⟨b, []⟩)).length (encodeBarPtr (some ⟨b, vec⟩)).length
    (by simp only [encodeBarPtr, List.length_cons]; omega)
  have hlen1 : (encodeBarPtr (some ⟨b, []⟩)).length =
      (encodeObject ((⟨b, []⟩ : Bar).Serialize [])).length + 1 := rfl
  have hlen2 : (encodeBarPtr (some ⟨b, vec⟩)).length =
      (encodeObject ((⟨b, vec⟩ : Bar).Serialize [])).length + 1 := rfl
  simp only [length_encodeObject, Foo.Serialize, Serializer.WriteProperty,
    Serializer.WritePropertyWithDefault, if_false, List.nil_append,
    List.singleton_append, List.length_cons, List.length_nil, List.map_cons, List.map_nil,
    List.flatten_cons, List.flatten_nil, List.length_append, List.cons_append,
    reduceCtorEq, Property.encode]
  omega

/-- C15: with an owning stream at position zero and fields that fit their C++ types, the stream
written for a `Foo` whose `bar` is null is strictly shorter than the stream written for the same
`Foo` with a `bar`; the stream written for a `Bar` whose `vec` is empty is strictly shorter than
the stream written for the same `Bar` with a non-empty `vec`, on its own and as the `bar` of a
`Foo`; and each of the six streams, rewound, deserializes back to the object it was written
from. -/
theorem C15_default_suppression (a c : Int) (bar : Bar) (b : Nat) (vec : List (List data_t))
    (stream : MemoryStream) (ha : -2 ^ 31 ≤ a ∧ a < 2 ^ 31) (hc : -2 ^ 31 ≤ c ∧ c < 2 ^ 31)
    (hbar : bar.InRange) (hb : b < 2 ^ 32) (hvec : vec ≠ [])
    (hpos : stream.position_ = 0) (hown : stream.owns_data_ = true) :
    (∃ suppressed emitted read read',
      BinarySerializer.Serialize (⟨a, none, c⟩ : Foo).Serialize stream = .ok suppressed ∧
      BinarySerializer.Serialize (⟨a, some bar, c⟩ : Foo).Serialize stream = .ok emitted ∧
      suppressed.GetPosition < emitted.GetPosition ∧
      BinaryDeserializer.Deserialize Foo.Deserialize suppressed.Rewind =
        .ok (⟨a, none, c⟩, read) ∧
      BinaryDeserializer.Deserialize Foo.Deserialize emitted.Rewind =
        .ok (⟨a, some bar, c⟩, read')) ∧
    (∃ suppressed emitted read read',
      BinarySerializer.Serialize (⟨b, []⟩ : Bar).Serialize stream = .ok suppressed ∧
      BinarySerializer.Serialize (⟨b, vec⟩ : Bar).Serialize stream = .ok emitted ∧
      suppressed.GetPosition < emitted.GetPosition ∧
      BinaryDeserializer.Deserialize Bar.Deserialize suppressed.Rewind =
        .ok (⟨b, []⟩, read) ∧
      BinaryDeserializer.Deserialize Bar.Deserialize emitted.Rewind =
        .ok (⟨b, vec⟩, read')) ∧
    (∃ suppressed emitted read read',
      BinarySerializer.Serialize (⟨a, some ⟨b, []⟩, c⟩ : Foo).Serialize stream =
        .ok suppressed ∧
      BinarySerializer.Serialize (⟨a, some ⟨b, vec⟩, c⟩ : Foo).Serialize stream = .ok emitted ∧
      suppressed.GetPosition < emitted.GetPosition ∧
      BinaryDeserializer.Deserialize Foo.Deserialize suppressed.Rewind =
        .ok (⟨a, some ⟨b, []⟩, c⟩, read) ∧
      BinaryDeserializer.Deserialize Foo.Deserialize emitted.Rewind =
        .ok (⟨a, some ⟨b, vec⟩, c⟩, read')) := by
  have hfoo : ∀ x : Option Bar, (∀ y, x = some y → y.InRange) →
      (⟨a, x, c⟩ : Foo).InRange := fun x hx => ⟨ha, hc, hx⟩
  refine ⟨?_, ?_, ?_⟩
  · obtain ⟨s1, r1, hw1, hp1, hr1, -⟩ :=
      serialize_deserialize (⟨a, none, c⟩ : Foo).Serialize Foo.Deserialize _ stream hpos hown
        (Foo.foo_deserialize_serialize _ (hfoo none (fun y h => by cases h)))
    obtain ⟨s2, r2, hw2, hp2, hr2, -⟩ :=
      serialize_deserialize (⟨a, some bar, c⟩ : Foo).Serialize Foo.Deserialize _ stream hpos
        hown (Foo.foo_deserialize_serialize _ (hfoo (some bar) (fun y h => by cases h; exact hbar)))
    refine ⟨s1, s2, r1, r2, hw1, hw2, ?_, hr1, hr2⟩
    rw [hp1, hp2]
    exact Foo.foo_length_suppressed_lt a c bar
  · obtain ⟨s1, r1, hw1, hp1, hr1, -⟩ :=
      serialize_deserialize (⟨b, []⟩ : Bar).Serialize Bar.Deserialize _ stream hpos hown
        (Bar.bar_deserialize_serialize _ hb)
    obtain ⟨s2, r2, hw2, hp2, hr2, -⟩ :=
      serialize_deserialize (⟨b, vec⟩ : Bar).Serialize Bar.Deserialize _ stream hpos hown
        (Bar.bar_deserialize_serialize _ hb)
    refine ⟨s1, s2, r1, r2, hw1, hw2, ?_, hr1, hr2⟩
    rw [hp1, hp2]
    exact Bar.bar_length_suppressed_lt b vec hvec
  · obtain ⟨s1, r1, hw1, hp1, hr1, -⟩ :=
      serialize_deserialize (⟨a, some ⟨b, []⟩, c⟩ : Foo).Serialize Foo.Deserialize _ stream
        hpos hown
        (Foo.foo_deserialize_serialize _ (hfoo (some ⟨b, []⟩) (fun y h => by cases h; exact hb)))
    obtain ⟨s2, r2, hw2, hp2, hr2, -⟩ :=
      serialize_deserialize (⟨a, some ⟨b, vec⟩, c⟩ : Foo).Serialize Foo.Deserialize _ stream
        hpos hown
        (Foo.foo_deserialize_serialize _ (hfoo (some ⟨b, vec⟩) (fun y h => by cases h; exact hb)))
    refine ⟨s1, s2, r1, r2, hw1, hw2, ?_, hr1, hr2⟩
    rw [hp1, hp2]
    exact Foo.length_nested_suppressed_lt a c b vec hvec

/-- Witness of C15: the objects of the test (`a = 42`, `c = 44`, `bar = {43, {"a", .., "e"}}`)
and `Bar{b = 43, vec = {"a"}}`, written into a fresh stream. -/
theorem C15_default_suppression_witness :
    ((-2 : Int) ^ 31 ≤ 42 ∧ (42 : Int) < 2 ^ 31) ∧ ((-2 : Int) ^ 31 ≤ 44 ∧ (44 : Int) < 2 ^ 31) ∧
    (⟨43, [[97], [98], [99], [100], [101]]⟩ : Bar).InRange ∧ 43 < 2 ^ 32 ∧
    ([[97]] : List (List data_t)) ≠ [] ∧ (MemoryStream.new 512).position_ = 0 ∧
    (MemoryStream.new 512).owns_data_ = true ∧
    (∃ suppressed emitted read read',
      BinarySerializer.Serialize (⟨42, none, 44⟩ : Foo).Serialize
          (MemoryStream.new 512) = .ok suppressed ∧
      BinarySerializer.Serialize (⟨42, some ⟨43, [[97], [98], [99], [100], [101]]⟩, 44⟩ : Foo).Serialize
          (MemoryStream.new 512) = .ok emitted ∧
      suppressed.GetPosition < emitted.GetPosition ∧
      BinaryDeserializer.Deserialize Foo.Deserialize suppressed.Rewind =
        .ok (⟨42, none, 44⟩, read) ∧
      BinaryDeserializer.Deserialize Foo.Deserialize emitted.Rewind =
        .ok (⟨42, some ⟨43, [[97], [98], [99], [100], [101]]⟩, 44⟩, read')) ∧
    (∃ suppressed emitted read read',
      BinarySerializer.Serialize (⟨43, []⟩ : Bar).Serialize
          (MemoryStream.new 512) = .ok suppressed ∧
      BinarySerializer.Serialize (⟨43, [[97]]⟩ : Bar).Serialize
          (MemoryStream.new 512) = .ok emitted ∧
      suppressed.GetPosition < emitted.GetPosition ∧
      BinaryDeserializer.Deserialize Bar.Deserialize suppressed.Rewind =
        .ok (⟨43, []⟩, read) ∧
      BinaryDeserializer.Deserialize Bar.Deserialize emitted.Rewind =
        .ok (⟨43, [[97]]⟩, read')) ∧
    (∃ suppressed emitted read read',
      BinarySerializer.Serialize (⟨42, some ⟨43, []⟩, 44⟩ : Foo).Serialize (MemoryStream.new 512) =
        .ok suppressed ∧
      BinarySerializer.Serialize (⟨42, some ⟨43, [[97]]⟩, 44⟩ : Foo).Serialize
          (MemoryStream.new 512) = .ok emitted ∧
      suppressed.GetPosition < emitted.GetPosition ∧
      BinaryDeserializer.Deserialize Foo.Deserialize suppressed.Rewind =
        .ok (⟨42, some ⟨43, []⟩, 44⟩, read) ∧
      BinaryDeserializer.Deserialize Foo.Deserialize emitted.Rewind =
        .ok (⟨42, some ⟨43, [[97]]⟩, 44⟩, read')) :=
  have hbar : (⟨43, [[97], [98], [99], [100], [101]]⟩ : Bar).InRange := by
    show (43 : Nat) < 2 ^ 32
    decide
  ⟨by decide, by decide, hbar, by decide, by decide, rfl, rfl,
    C15_default_suppression 42 44 ⟨43, [[97], [98], [99], [100], [101]]⟩ 43 [[97]]
      (MemoryStream.new 512) (by decide) (by decide) hbar (by decide) (by decide) rfl rfl⟩

/-! ## C23: decoding a `BOOLEAN` -/

/-- C23 (what the code does): for every byte `b` (and whatever bytes follow in the storage),
`DeserializeFrom` with type `BOOLEAN` reads the byte as an `int8_t` and hands it to the checked
constructor, whose check for `BOOLEAN` wants a `uint8_t`: the call throws "Value isn't assigned
to the correct type id" and yields no `Value`; so it does for the one-byte storage `01`. -/
theorem C23_boolean_decoding_throws (cfg : Config) (b : data_t) (rest : List data_t) :
    Value.DeserializeFrom cfg (b :: rest) .BOOLEAN =
        .thrown (.RuntimeException "Value isn't assigned to the correct type id") ∧
      Value.DeserializeFrom cfg [1] .BOOLEAN =
        .thrown (.RuntimeException "Value isn't assigned to the correct type id") ∧
      ValueIsCorrectType .int8_t .BOOLEAN = false ∧
      ValueIsCorrectType .uint8_t .BOOLEAN = true := by
  refine ⟨?_, rfl, rfl, rfl⟩
  simp [Value.DeserializeFrom, readLE, Value.new, ValueIsCorrectType, Payload.typeid]

/-! ## C24: what `FlushAllPages` leaves behind -/

theorem FlushPage_pin_count (cfg : Config) (bp : BufferPool) (q : PageId) (g : Nat) :
    ((FlushPage cfg bp q).2.page cfg g).pin_count_ = (bp.page cfg g).pin_count_ := by
  cases hfind : bp.page_table_.find q with
  | none => rw [FlushPage_none hfind]
  | some f =>
    rw [FlushPage_some hfind, @BufferPool.page_of_set cfg bp _ f _ rfl]
    split
    · rename_i e
      rw [e.1]
    · rfl

/-- The loop of `FlushAllPages` keeps the bytes and the pin count of every frame. -/
theorem flushFrames_page (cfg : Config) (frames : List Nat) :
    ∀ (bp : BufferPool) (g : Nat),
      ((flushFrames cfg frames bp).page cfg g).data_ = (bp.page cfg g).data_ ∧
      ((flushFrames cfg frames bp).page cfg g).pin_count_ = (bp.page cfg g).pin_count_ := by
  induction frames with
  | nil => intro bp g; exact ⟨rfl, rfl⟩
  | cons j rest ih =>
    intro bp g
    obtain ⟨h1, h2⟩ := ih (FlushPage cfg bp (bp.page cfg j).page_id_).2 g
    exact ⟨h1.trans (FlushPage_page cfg bp _ g).1, h2.trans (FlushPage_pin_count cfg bp _ g)⟩

/-- C24: in every reachable pool state, after `FlushAllPages` every frame-table entry
`(p, f)` has a clean frame `f` and the disk content for `p` equals the buffer of frame `f`;
the buffers, the pin counts and the `PageId`s of all frames, the frame table, the free list,
the evictable set and the pool size are what they were before the call. -/
theorem C24_flush_all_pages_effects (cfg : Config) (pool_size : Nat) (w : System)
    (hreach : Reachable cfg pool_size w) :
    (∀ p f, (p, f) ∈ (FlushAllPages cfg w.pool).page_table_ →
      ((FlushAllPages cfg w.pool).page cfg f).is_dirty_ = false ∧
      (FlushAllPages cfg w.pool).disk_manager_.ReadPage cfg p =
        ((FlushAllPages cfg w.pool).page cfg f).data_) ∧
    (∀ g, ((FlushAllPages cfg w.pool).page cfg g).pin_count_ = (w.pool.page cfg g).pin_count_ ∧
      ((FlushAllPages cfg w.pool).page cfg g).data_ = (w.pool.page cfg g).data_ ∧
      ((FlushAllPages cfg w.pool).page cfg g).page_id_ = (w.pool.page cfg g).page_id_) ∧
    (FlushAllPages cfg w.pool).page_table_ = w.pool.page_table_ ∧
    (FlushAllPages cfg w.pool).free_list_ = w.pool.free_list_ ∧
    (FlushAllPages cfg w.pool).replacer_ = w.pool.replacer_ ∧
    (FlushAllPages cfg w.pool).pool_size_ = w.pool.pool_size_ := by
  have hc := hreach.reachable_coherent
  obtain ⟨hsize, htable, hfree, hrep⟩ :=
    flushFrames_fields cfg (List.range w.pool.pool_size_) w.pool
  obtain ⟨hflushed, -, hid⟩ := flushFrames_flushed cfg (List.range w.pool.pool_size_) w.pool
  refine ⟨?_, ?_, htable, hfree, hrep, hsize⟩
  · intro p f hmem
    have hmem' : (p, f) ∈ w.pool.page_table_ := by
      have := hmem
      unfold FlushAllPages at this
      rwa [htable] at this
    obtain ⟨hlt, hpid, -⟩ := hc.table_page p f hmem'
    have hfind := PageTable.find_of_mem hc.keys_nodup hmem'
    have hfl := hflushed f (List.mem_range.mpr hlt)
    rw [hpid] at hfl
    obtain ⟨hread, hclean⟩ := hfl f (by rw [htable]; exact hfind)
    refine ⟨hclean, ?_⟩
    unfold FlushAllPages DiskManager.ReadPage
    rw [hread]
    rfl
  · intro g
    obtain ⟨hd, hp⟩ := flushFrames_page cfg (List.range w.pool.pool_size_) w.pool g
    exact ⟨hp, hd, hid g⟩
/-! ## Pin counts are never negative -/

theorem BufferPool.page_congr {cfg : Config} {bp bp' : BufferPool}
    (h : bp'.pages_ = bp.pages_) (g : Nat) : bp'.page cfg g = bp.page cfg g := by
  simp only [BufferPool.page, h]

theorem WellPinned.wellPinned_new (cfg : Config) (n : Nat) (d : DiskManager) :
    WellPinned cfg (BufferPool.new cfg n d) where
  pin_nonneg := by
    intro g
    have hpage : (BufferPool.new cfg n d).page cfg g = Page.fresh cfg := by
      simp only [BufferPool.page, BufferPool.new, List.getD_eq_getElem?_getD,
        List.getElem?_replicate]
      split <;> rfl
    rw [hpage]
    exact le_refl _
  resident_valid := by intro _ p f h; simp [BufferPool.new] at h

theorem WellPinned.wellPinned_allocate {cfg : Config} {bp bp1 : BufferPool} {draw f : Nat}
    (h : WellPinned cfg bp) (ha : AllocateFrame cfg bp draw = .returned (some f) bp1) :
    WellPinned cfg bp1 := by
  rcases AllocateFrame_some ha with ⟨-, -, -, -, hpages, htable⟩ |
    ⟨-, -, -, -, -, -, hpages, htable, -⟩
  · exact ⟨fun g => by rw [BufferPool.page_congr hpages]; exact h.pin_nonneg g,
      fun hn p g hm => h.resident_valid hn p g (htable ▸ hm)⟩
  · refine ⟨fun g => ?_, fun hn p g hm => h.resident_valid hn p g (htable ▸ hm)⟩
    rw [BufferPool.page_of_set hpages]
    split
    · exact h.pin_nonneg f
    · exact h.pin_nonneg g

theorem WellPinned.wellPinned_NewPage {cfg : Config} {bp bp' : BufferPool}
    {a a' : PageAllocator} {draw f : Nat} {p : PageId} (h : WellPinned cfg bp)
    (hn : NewPage cfg bp a draw = .returned (f, p, a') bp') : WellPinned cfg bp' := by
  obtain ⟨bp1, ha, hp, -, -, -, -, -, hpages, htable, -⟩ := NewPage_returned hn
  have h1 := h.wellPinned_allocate ha
  refine ⟨fun g => ?_, fun hnd q g hm => ?_⟩
  · rw [BufferPool.page_of_set hpages]
    split
    · exact Int.zero_le_ofNat 1
    · exact h1.pin_nonneg g
  · rw [htable, PageTable.mem_assign] at hm
    rcases hm with ⟨hm, -⟩ | ⟨hq, -⟩
    · exact h1.resident_valid hnd q g (PageTable.mem_erase.mp hm).1
    · rw [hq, hp]
      simp only [INVALID_PAGE_ID]
      omega

theorem WellPinned.wellPinned_FetchPage {cfg : Config} {bp bp' : BufferPool} {p : PageId}
    {draw f : Nat} (h : WellPinned cfg bp) (hf : FetchPage cfg bp p draw = .returned f bp') :
    WellPinned cfg bp' := by
  obtain ⟨hvalid, hcase⟩ := FetchPage_returned hf
  rcases hcase with ⟨-, -, -, -, hpages, htable, -⟩ |
    ⟨hfind, bp1, ha, -, -, -, hpages, htable, -⟩
  · refine ⟨fun g => ?_, fun hn q g hm => h.resident_valid hn q g (htable ▸ hm)⟩
    rw [BufferPool.page_of_set hpages]
    split
    · have := h.pin_nonneg f
      show 0 ≤ (bp.page cfg f).pin_count_ + 1
      omega
    · exact h.pin_nonneg g
  · have h1 := h.wellPinned_allocate ha
    have htab1 : bp1.page_table_ = bp.page_table_ := by
      rcases AllocateFrame_some ha with ⟨-, -, -, -, -, e⟩ | ⟨-, -, -, -, -, -, -, e, -⟩ <;>
        exact e
    refine ⟨fun g => ?_, fun hn q g hm => ?_⟩
    · rw [BufferPool.page_of_set hpages]
      split
      · have := h1.pin_nonneg f
        show 0 ≤ (bp1.page cfg f).pin_count_ + 1
        omega
      · exact h1.pin_nonneg g
    · have hnone : PageTable.find (PageTable.erase bp1.page_table_ (bp1.page cfg f).page_id_) p
          = none := PageTable.find_erase_none (by rw [htab1]; exact hfind)
      rw [htable, PageTable.mem_insert hnone] at hm
      rcases hm with hm | ⟨hq, -⟩
      · exact h1.resident_valid hn q g (PageTable.mem_erase.mp hm).1
      · rw [hq]; exact hvalid hn

theorem WellPinned.wellPinned_UnpinPage {cfg : Config} {bp bp' : BufferPool} {p : PageId}
    {d b : Bool} (h : WellPinned cfg bp) (hu : UnpinPage cfg bp p d = .returned b bp') :
    WellPinned cfg bp' := by
  obtain ⟨-, hcase⟩ := UnpinPage_returned hu
  rcases hcase with ⟨-, -, -, e⟩ | ⟨f, -, -, -, htable, -, hcase⟩
  · rw [e]; exact h
  · have hdirty : (if d = true then { bp.page cfg f with is_dirty_ := true }
        else bp.page cfg f).pin_count_ = (bp.page cfg f).pin_count_ := by
      split <;> rfl
    refine ⟨fun g => ?_, fun hn q g hm => h.resident_valid hn q g (htable ▸ hm)⟩
    rcases hcase with ⟨-, -, -, hpages⟩ | ⟨hne, -, -, -, hpages⟩
    · rw [BufferPool.page_of_set hpages]
      split
      · rw [hdirty]; exact h.pin_nonneg f
      · exact h.pin_nonneg g
    · rw [BufferPool.page_of_set hpages]
      split
      · have := h.pin_nonneg f
        show 0 ≤ (bp.page cfg f).pin_count_ - 1
        omega
      · exact h.pin_nonneg g

theorem WellPinned.wellPinned_FlushPage {cfg : Config} {bp : BufferPool} (h : WellPinned cfg bp)
    (p : PageId) : WellPinned cfg (FlushPage cfg bp p).2 :=
  ⟨fun g => by rw [FlushPage_pin_count]; exact h.pin_nonneg g,
    fun hn q g hm => h.resident_valid hn q g ((FlushPage_fields cfg bp p).2.1 ▸ hm)⟩

theorem WellPinned.wellPinned_FlushAllPages {cfg : Config} {bp : BufferPool}
    (h : WellPinned cfg bp) : WellPinned cfg (FlushAllPages cfg bp) :=
  ⟨fun g => by
      unfold FlushAllPages
      rw [(flushFrames_page cfg _ bp g).2]
      exact h.pin_nonneg g,
    fun hn q g hm => h.resident_valid hn q g (by
      unfold FlushAllPages at hm
      rwa [(flushFrames_fields cfg _ bp).2.1] at hm)⟩

theorem WellPinned.wellPinned_DeletePage {cfg : Config} {bp : BufferPool} (h : WellPinned cfg bp)
    (p : PageId) : WellPinned cfg (DeletePage cfg bp p).2 := by
  cases hfind : bp.page_table_.find p with
  | none => rw [DeletePage_none hfind]; exact h
  | some f =>
    by_cases hpin : 0 < (bp.page cfg f).pin_count_
    · rw [DeletePage_pinned hfind hpin]; exact h
    · rw [DeletePage_unpinned hfind hpin]
      refine ⟨fun g => ?_, fun hn q g hm => ?_⟩
      · rw [@BufferPool.page_of_set cfg bp _ f _ rfl]
        split
        · exact le_refl _
        · exact h.pin_nonneg g
      · exact h.resident_valid hn q g (PageTable.mem_erase.mp hm).1

theorem WellPinned.wellPinned_WriteData {cfg : Config} {bp : BufferPool} (h : WellPinned cfg bp)
    (f : Nat) (data : List data_t) : WellPinned cfg (WriteData bp f data) := by
  refine ⟨fun g => ?_, fun hn q g hm =>
    h.resident_valid hn q g ((WriteData_fields bp f data).2.1 ▸ hm)⟩
  rw [WriteData_page]
  split
  · exact h.pin_nonneg f
  · exact h.pin_nonneg g

theorem WellPinned.wellPinned_step {cfg : Config} {w w' : System} {op : Op}
    (h : WellPinned cfg w.pool) (hs : step cfg w op = some w') : WellPinned cfg w'.pool := by
  cases op with
  | NewPage table_id draw =>
    simp only [db.step] at hs
    split at hs
    · rename_i f p a bp' hn
      simp only [Option.some.injEq] at hs
      subst hs
      exact h.wellPinned_NewPage hn
    · rename_i bp' hn
      simp only [Option.some.injEq] at hs
      subst hs
      rw [(NewPage_thrown hn).1]; exact h
    · cases hs
  | FetchPage page_id draw =>
    simp only [db.step] at hs
    split at hs
    · rename_i f bp' hn
      simp only [Option.some.injEq] at hs
      subst hs
      exact h.wellPinned_FetchPage hn
    · rename_i bp' hn
      simp only [Option.some.injEq] at hs
      subst hs
      rw [(FetchPage_thrown hn).1]; exact h
    · cases hs
  | UnpinPage page_id is_dirty =>
    simp only [db.step] at hs
    split at hs
    · rename_i b bp' hn
      simp only [Option.some.injEq] at hs
      subst hs
      exact h.wellPinned_UnpinPage hn
    · rename_i bp' hn
      exact absurd hn UnpinPage_thrown
    · cases hs
  | FlushPage page_id =>
    simp only [db.step, Option.some.injEq] at hs
    subst hs
    exact h.wellPinned_FlushPage _
  | FlushAllPages =>
    simp only [db.step, Option.some.injEq] at hs
    subst hs
    exact h.wellPinned_FlushAllPages
  | DeletePage page_id =>
    simp only [db.step, Option.some.injEq] at hs
    subst hs
    exact h.wellPinned_DeletePage _
  | WriteData frame_id data =>
    simp only [db.step, Option.some.injEq] at hs
    subst hs
    exact h.wellPinned_WriteData _ _

theorem WellPinned.wellPinned_run {cfg : Config} (ops : List Op) :
    ∀ {w w' : System}, WellPinned cfg w.pool → run cfg w ops = some w' →
      WellPinned cfg w'.pool := by
  induction ops with
  | nil =>
    intro w w' h hr
    simp only [db.run, Option.some.injEq] at hr
    subst hr; exact h
  | cons op rest ih =>
    intro w w' h hr
    simp only [db.run] at hr
    split at hr
    · cases hr
    · rename_i w1 hs
      exact ih (h.wellPinned_step hs) hr

theorem Reachable.reachable_wellPinned {cfg : Config} {n : Nat} {w : System}
    (h : Reachable cfg n w) : WellPinned cfg w.pool := by
  obtain ⟨d, a, ops, hr⟩ := h
  exact WellPinned.wellPinned_run ops (WellPinned.wellPinned_new cfg n d) hr
/-! ## C22: the dirty flag under `UnpinPage` -/

theorem UnpinPage_aborted {cfg : Config} {bp : BufferPool} {p : PageId} {d : Bool}
    (h : UnpinPage cfg bp p d = .aborted) :
    cfg.NDEBUG = false ∧ (p.page_number_ = INVALID_PAGE_ID ∨ bp.page_table_.find p = none ∨
      ∃ f, bp.page_table_.find p = some f ∧ (bp.page cfg f).pin_count_ < 0) := by
  unfold UnpinPage at h
  split at h
  · rename_i hv
    exact ⟨hv.1, Or.inl hv.2⟩
  · split at h
    · rename_i hfind
      split at h
      · rename_i hn
        exact ⟨hn, Or.inr (Or.inl hfind)⟩
      · cases h
    · rename_i f hfind
      have hpc : (if d = true then { bp.page cfg f with is_dirty_ := true }
          else bp.page cfg f).pin_count_ = (bp.page cfg f).pin_count_ := by
        split <;> rfl
      simp only [hpc] at h
      split at h
      · cases h
      · rename_i h0
        split at h
        · rename_i hass
          refine ⟨hass.1, Or.inr (Or.inr ⟨f, hfind, ?_⟩)⟩
          have := hass.2
          omega
        · split at h <;> cases h

/-- The dirty flag of the frame after an `UnpinPage` that returns: the flag before or the
argument `is_dirty`. -/
theorem UnpinPage_dirty {cfg : Config} {bp bp' : BufferPool} {p : PageId} {d b : Bool}
    {f : Nat} (hu : UnpinPage cfg bp p d = .returned b bp')
    (hfind : bp.page_table_.find p = some f) (hlt : f < bp.pages_.length) :
    (bp'.page cfg f).is_dirty_ = ((bp.page cfg f).is_dirty_ || d) := by
  obtain ⟨-, hcase⟩ := UnpinPage_returned hu
  have hdirty : ∀ g, (if d = true then { bp.page cfg g with is_dirty_ := true }
      else bp.page cfg g).is_dirty_ = ((bp.page cfg g).is_dirty_ || d) := by
    intro g
    cases d <;> simp
  rcases hcase with ⟨-, hnone, -, -⟩ | ⟨f', hf', -, -, -, -, hcase⟩
  · rw [hnone] at hfind; cases hfind
  · have hff : f' = f := by rw [hf'] at hfind; exact Option.some.inj hfind
    subst hff
    rcases hcase with ⟨-, -, -, hpages⟩ | ⟨-, -, -, -, hpages⟩
    · rw [BufferPool.page_of_set hpages, if_pos ⟨rfl, hlt⟩]
      exact hdirty f'
    · rw [BufferPool.page_of_set hpages, if_pos ⟨rfl, hlt⟩]
      exact hdirty f'

/-- An `UnpinPage` that returns clears the dirty flag of no frame. -/
theorem UnpinPage_keeps_dirty {cfg : Config} {bp bp' : BufferPool} {p : PageId} {d b : Bool}
    (hu : UnpinPage cfg bp p d = .returned b bp') (g : Nat)
    (hg : (bp.page cfg g).is_dirty_ = true) : (bp'.page cfg g).is_dirty_ = true := by
  obtain ⟨-, hcase⟩ := UnpinPage_returned hu
  have hdirty : (if d = true then { bp.page cfg g with is_dirty_ := true }
      else bp.page cfg g).is_dirty_ = true := by
    split
    · rfl
    · exact hg
  rcases hcase with ⟨-, -, -, e⟩ | ⟨f, -, -, -, -, -, hcase⟩
  · rw [e]; exact hg
  · rcases hcase with ⟨-, -, -, hpages⟩ | ⟨-, -, -, -, hpages⟩
    · rw [BufferPool.page_of_set hpages]
      split
      · rename_i e
        rw [← e.1]; exact hdirty
      · exact hg
    · rw [BufferPool.page_of_set hpages]
      split
      · rename_i e
        rw [← e.1]; exact hdirty
      · exact hg

/-- A `FetchPage` of a resident page clears the dirty flag of no frame. -/
theorem FetchPage_resident_keeps_dirty {cfg : Config} {bp bp' : BufferPool} {p : PageId}
    {draw f f' : Nat} (hf : FetchPage cfg bp p draw = .returned f bp')
    (hfind : bp.page_table_.find p = some f') (g : Nat)
    (hg : (bp.page cfg g).is_dirty_ = true) : (bp'.page cfg g).is_dirty_ = true := by
  obtain ⟨-, hcase⟩ := FetchPage_returned hf
  rcases hcase with ⟨-, -, -, -, hpages, -, -⟩ | ⟨hnone, -⟩
  · rw [BufferPool.page_of_set hpages]
    split
    · rename_i e
      rw [← e.1]; exact hg
    · exact hg
  · rw [hnone] at hfind; cases hfind

/-- C22: in every reachable pool state and for every resident page `p`, in frame `f`,
`UnpinPage(p, is_dirty)` returns and the dirty flag of frame `f` is afterwards the flag before
or `is_dirty` (unchanged by `false`, `true` after `true`), and no frame's dirty flag is
cleared; and whenever one action of a caller does clear the dirty flag of a frame, the action
is `NewPage`, `FetchPage` of a page that is not resident (eviction and reload), `FlushPage`,
`FlushAllPages` (which calls `FlushPage`) or `DeletePage`. -/
theorem C22_dirty_flag_sticky_under_unpin (cfg : Config) (pool_size : Nat) (w : System)
    (p : PageId) (f : Nat) (is_dirty : Bool) (hreach : Reachable cfg pool_size w)
    (hres : w.pool.page_table_.find p = some f) :
    (∃ b bp', UnpinPage cfg w.pool p is_dirty = .returned b bp' ∧
      (bp'.page cfg f).is_dirty_ = ((w.pool.page cfg f).is_dirty_ || is_dirty) ∧
      ∀ g, (w.pool.page cfg g).is_dirty_ = true → (bp'.page cfg g).is_dirty_ = true) ∧
    (∀ op w' g, step cfg w op = some w' →
      (w.pool.page cfg g).is_dirty_ = true → (w'.pool.page cfg g).is_dirty_ = false →
        (∃ table_id draw, op = .NewPage table_id draw) ∨
        (∃ q draw, op = .FetchPage q draw ∧ w.pool.page_table_.find q = none) ∨
        (∃ q, op = .FlushPage q) ∨ op = .FlushAllPages ∨ (∃ q, op = .DeletePage q)) := by
  have hc := hreach.reachable_coherent
  have hwp := hreach.reachable_wellPinned
  have hmem := PageTable.find_some_mem hres
  have hlt : f < w.pool.pages_.length := by
    rw [hc.pages_length]; exact (hc.table_page p f hmem).1
  constructor
  · cases hu : UnpinPage cfg w.pool p is_dirty with
    | returned b bp' =>
      exact ⟨b, bp', rfl, UnpinPage_dirty hu hres hlt, UnpinPage_keeps_dirty hu⟩
    | thrown bp' => exact absurd hu UnpinPage_thrown
    | aborted =>
      obtain ⟨hn, hbad⟩ := UnpinPage_aborted hu
      rcases hbad with hinv | hnone | ⟨f', hf', hneg⟩
      · exact absurd hinv (hwp.resident_valid hn p f hmem)
      · rw [hnone] at hres; cases hres
      · have := hwp.pin_nonneg f'
        omega
  · intro op w' g hs hbefore hafter
    cases op with
    | NewPage table_id draw => exact Or.inl ⟨table_id, draw, rfl⟩
    | FetchPage q draw =>
      cases hq : w.pool.page_table_.find q with
      | none => exact Or.inr (Or.inl ⟨q, draw, rfl, hq⟩)
      | some fq =>
        exfalso
        simp only [db.step] at hs
        split at hs
        · rename_i f' bp' hf
          simp only [Option.some.injEq] at hs
          subst hs
          have := FetchPage_resident_keeps_dirty hf hq g hbefore
          rw [this] at hafter
          cases hafter
        · rename_i bp' hf
          simp only [Option.some.injEq] at hs
          subst hs
          rw [(FetchPage_thrown hf).2.1] at hq
          cases hq
        · cases hs
    | UnpinPage q d =>
      exfalso
      simp only [db.step] at hs
      split at hs
      · rename_i b bp' hu
        simp only [Option.some.injEq] at hs
        subst hs
        have := UnpinPage_keeps_dirty hu g hbefore
        rw [this] at hafter
        cases hafter
      · rename_i bp' hu
        exact absurd hu UnpinPage_thrown
      · cases hs
    | FlushPage q => exact Or.inr (Or.inr (Or.inl ⟨q, rfl⟩))
    | FlushAllPages => exact Or.inr (Or.inr (Or.inr (Or.inl rfl)))
    | DeletePage q => exact Or.inr (Or.inr (Or.inr (Or.inr ⟨q, rfl⟩)))
    | WriteData frame_id data =>
      exfalso
      simp only [db.step, Option.some.injEq] at hs
      subst hs
      have hpage := WriteData_page cfg w.pool frame_id g data
      simp only at hafter
      rw [hpage] at hafter
      split at hafter
      · rename_i e
        rw [e.1] at hbefore
        simp only at hafter
        rw [hbefore] at hafter
        cases hafter
      · rw [hbefore] at hafter
        cases hafter
/-! ## C21: what a `FetchPage` miss leaves in the frame -/

/-- What a `FetchPage` of a page that is not resident leaves behind when it returns, from a
state that satisfies the invariant: the page is mapped to the returned frame, the entry of the
frame's previous `PageId` is gone, the frame carries the `PageId`, is clean and holds the disk
content of the page; its pin count is one more than before, which is 1 when the frame came
from the free list or assertions are on. -/
theorem FetchPage_miss_effects {cfg : Config} {bp bp' : BufferPool} {p : PageId}
    {draw f : Nat} (hc : Coherent cfg bp) (hfind : bp.page_table_.find p = none)
    (hf : FetchPage cfg bp p draw = .returned f bp') :
    bp'.page_table_.find p = some f ∧
    ((bp.page cfg f).page_id_ ≠ p → bp'.page_table_.find (bp.page cfg f).page_id_ = none) ∧
    (bp'.page cfg f).page_id_ = p ∧
    (bp'.page cfg f).pin_count_ = (bp.page cfg f).pin_count_ + 1 ∧
    (cfg.NDEBUG = false ∨ bp.free_list_ ≠ [] → (bp'.page cfg f).pin_count_ = 1) ∧
    (bp'.page cfg f).is_dirty_ = false ∧
    (bp'.page cfg f).data_ = bp'.disk_manager_.ReadPage cfg p := by
  obtain ⟨-, hcase⟩ := FetchPage_returned hf
  rcases hcase with ⟨hsome, -⟩ | ⟨-, bp1, ha, -, -, hdisk, hpages, htable, -⟩
  · rw [hfind] at hsome; cases hsome
  · obtain ⟨hlt, hpage1, hpin1, htab1, hzero⟩ : f < bp1.pages_.length ∧
        (bp1.page cfg f).page_id_ = (bp.page cfg f).page_id_ ∧
        (bp1.page cfg f).pin_count_ = (bp.page cfg f).pin_count_ ∧
        bp1.page_table_ = bp.page_table_ ∧
        (cfg.NDEBUG = false ∨ bp.free_list_ ≠ [] → (bp.page cfg f).pin_count_ = 0) := by
      rcases AllocateFrame_some ha with ⟨hfree, -, -, -, hp, ht⟩ |
        ⟨hfree, hev, hassert, -, -, -, hp, ht, -⟩
      · have hmem : f ∈ bp.free_list_ := by rw [hfree]; exact List.mem_cons_self _ _
        refine ⟨?_, ?_, ?_⟩
        · rw [hp, hc.pages_length]; exact hc.free_lt f hmem
        · rw [BufferPool.page_congr hp]
        · exact ⟨by rw [BufferPool.page_congr hp], ht, fun _ => (hc.free_page f hmem).2⟩
      · have hlt : f < bp.pages_.length := by
          rw [hc.pages_length]; exact hc.evictable_lt f hev
        have hpg : bp1.page cfg f = (bp.page cfg f).ResetMemory cfg := by
          rw [BufferPool.page_of_set hp, if_pos ⟨rfl, hlt⟩]
        refine ⟨?_, ?_, ?_⟩
        · rw [hp, List.length_set]; exact hlt
        · rw [hpg]; rfl
        · refine ⟨by rw [hpg]; rfl, ht, fun h => ?_⟩
          rcases h with hn | hne
          · exact (hassert hn).1
          · exact absurd hfree hne
    have hnone : PageTable.find (PageTable.erase bp1.page_table_ (bp1.page cfg f).page_id_) p
        = none := PageTable.find_erase_none (by rw [htab1]; exact hfind)
    have hpg' : bp'.page cfg f =
        ⟨bp1.disk_manager_.ReadPage cfg p, p, (bp1.page cfg f).pin_count_ + 1, false⟩ := by
      rw [BufferPool.page_of_set hpages, if_pos ⟨rfl, hlt⟩]
    refine ⟨?_, ?_, ?_, ?_, ?_, ?_, ?_⟩
    · rw [htable]; exact PageTable.find_insert_self f hnone
    · intro hne
      rw [htable, PageTable.find_insert_ne f (Ne.symm hne), hpage1]
      exact PageTable.find_erase_self _ _
    · rw [hpg']
    · rw [hpg', ← hpin1]
    · intro h
      rw [hpg']
      show (bp1.page cfg f).pin_count_ + 1 = 1
      rw [hpin1, hzero h]
      rfl
    · rw [hpg']
    · rw [hpg', hdisk]

/-- C21 (evaluation at the failing input): in a build without assertions, on a pool of one
frame, after `NewPage` (page `(0, 0)`), `UnpinPage((0, 0))`, `NewPage` (page `(0, 1)`, evicting
`(0, 0)`), `UnpinPage((0, 1))`, `DeletePage((0, 1))` and `FetchPage((0, 1))`, frame 0 holds
page `(0, 1)` with `pin_count_ = 1` and is still in the evictable set.  `FetchPage((0, 0))` of
the valid, issued, non-resident page `(0, 0)` then returns frame 0 with `pin_count_ = 2`:
the pinned frame is evicted and the miss path does `pin_count_++`.  With assertions on, the
same call dies on `assert(pin_count_ == 0)` in `AllocateFrame`. -/
theorem C21_fetch_miss_leaves_pin_count_two :
    ReachableFetchingIssued releaseBuild 1 (scenario releaseBuild 1 opsRefetchAfterDelete) ∧
    (Issued (scenario releaseBuild 1 opsRefetchAfterDelete).allocators ⟨0, 0⟩ ∧
      (⟨0, 0⟩ : PageId).page_number_ ≠ INVALID_PAGE_ID ∧
      (scenario releaseBuild 1 opsRefetchAfterDelete).pool.page_table_.find ⟨0, 0⟩ = none) ∧
    (((scenario releaseBuild 1 opsRefetchAfterDelete).pool.page releaseBuild 0).pin_count_ = 1 ∧
      0 ∈ (scenario releaseBuild 1 opsRefetchAfterDelete).pool.replacer_.evictable) ∧
    FetchPage releaseBuild (scenario releaseBuild 1 opsRefetchAfterDelete).pool ⟨0, 0⟩ 0 =
      .returned 0
        (scenario releaseBuild 1 (opsRefetchAfterDelete ++ [.FetchPage ⟨0, 0⟩ 0])).pool ∧
    ((scenario releaseBuild 1 (opsRefetchAfterDelete ++ [.FetchPage ⟨0, 0⟩ 0])).pool.page
        releaseBuild 0 = ⟨[0, 0, 0, 0], ⟨0, 0⟩, 2, false⟩ ∧
      (scenario releaseBuild 1 (opsRefetchAfterDelete ++ [.FetchPage ⟨0, 0⟩ 0])).pool.page_table_
        = [(⟨0, 0⟩, 0)]) ∧
    FetchPage debugBuild (scenario debugBuild 1 opsRefetchAfterDelete).pool ⟨0, 0⟩ 0 =
      .aborted :=
  ⟨scenario_reachable_fetching_issued (by decide), by decide, by decide, by decide, by decide,
    by decide⟩
/-- Witness of C22: page `(0, 0)`, just created in frame 0 of a pool of one frame, is unpinned
as dirty. -/
theorem C22_dirty_flag_sticky_under_unpin_witness :
    Reachable debugBuild 1 (scenario debugBuild 1 [.NewPage 0 0]) ∧
    (scenario debugBuild 1 [.NewPage 0 0]).pool.page_table_.find ⟨0, 0⟩ = some 0 ∧
    (∃ b bp', UnpinPage debugBuild (scenario debugBuild 1 [.NewPage 0 0]).pool ⟨0, 0⟩ true =
        .returned b bp' ∧
      (bp'.page debugBuild 0).is_dirty_ =
        (((scenario debugBuild 1 [.NewPage 0 0]).pool.page debugBuild 0).is_dirty_ || true) ∧
      ∀ g, ((scenario debugBuild 1 [.NewPage 0 0]).pool.page debugBuild g).is_dirty_ = true →
        (bp'.page debugBuild g).is_dirty_ = true) ∧
    (∀ op w' g, step debugBuild (scenario debugBuild 1 [.NewPage 0 0]) op = some w' →
      ((scenario debugBuild 1 [.NewPage 0 0]).pool.page debugBuild g).is_dirty_ = true →
      (w'.pool.page debugBuild g).is_dirty_ = false →
        (∃ table_id draw, op = .NewPage table_id draw) ∨
        (∃ q draw, op = .FetchPage q draw ∧
          (scenario debugBuild 1 [.NewPage 0 0]).pool.page_table_.find q = none) ∨
        (∃ q, op = .FlushPage q) ∨ op = .FlushAllPages ∨ (∃ q, op = .DeletePage q)) :=
  ⟨scenario_reachable (by decide), by decide,
    C22_dirty_flag_sticky_under_unpin debugBuild 1 (scenario debugBuild 1 [.NewPage 0 0])
      ⟨0, 0⟩ 0 true (scenario_reachable (by decide)) (by decide)⟩

/-- Witness of C24: a pool of two frames in which page `(0, 0)` sits in frame 0, written and
unpinned as dirty. -/
theorem C24_flush_all_pages_effects_witness :
    Reachable debugBuild 2 (scenario debugBuild 2 opsCreateWriteUnpinDirty) ∧
    ((scenario debugBuild 2 opsCreateWriteUnpinDirty).pool.page_table_ = [(⟨0, 0⟩, 0)] ∧
      ((scenario debugBuild 2 opsCreateWriteUnpinDirty).pool.page debugBuild 0).is_dirty_
        = true) ∧
    (∀ p f,
      (p, f) ∈ (FlushAllPages debugBuild
        (scenario debugBuild 2 opsCreateWriteUnpinDirty).pool).page_table_ →
      ((FlushAllPages debugBuild
        (scenario debugBuild 2 opsCreateWriteUnpinDirty).pool).page debugBuild f).is_dirty_
          = false ∧
      (FlushAllPages debugBuild
        (scenario debugBuild 2 opsCreateWriteUnpinDirty).pool).disk_manager_.ReadPage
          debugBuild p =
        ((FlushAllPages debugBuild
          (scenario debugBuild 2 opsCreateWriteUnpinDirty).pool).page debugBuild f).data_) ∧
    (∀ g,
      ((FlushAllPages debugBuild
        (scenario debugBuild 2 opsCreateWriteUnpinDirty).pool).page debugBuild g).pin_count_ =
        ((scenario debugBuild 2 opsCreateWriteUnpinDirty).pool.page debugBuild g).pin_count_ ∧
      ((FlushAllPages debugBuild
        (scenario debugBuild 2 opsCreateWriteUnpinDirty).pool).page debugBuild g).data_ =
        ((scenario debugBuild 2 opsCreateWriteUnpinDirty).pool.page debugBuild g).data_ ∧
      ((FlushAllPages debugBuild
        (scenario debugBuild 2 opsCreateWriteUnpinDirty).pool).page debugBuild g).page_id_ =
        ((scenario debugBuild 2 opsCreateWriteUnpinDirty).pool.page debugBuild g).page_id_) ∧
    (FlushAllPages debugBuild (scenario debugBuild 2 opsCreateWriteUnpinDirty).pool).page_table_
      = (scenario debugBuild 2 opsCreateWriteUnpinDirty).pool.page_table_ ∧
    (FlushAllPages debugBuild (scenario debugBuild 2 opsCreateWriteUnpinDirty).pool).free_list_
      = (scenario debugBuild 2 opsCreateWriteUnpinDirty).pool.free_list_ ∧
    (FlushAllPages debugBuild (scenario debugBuild 2 opsCreateWriteUnpinDirty).pool).replacer_
      = (scenario debugBuild 2 opsCreateWriteUnpinDirty).pool.replacer_ ∧
    (FlushAllPages debugBuild (scenario debugBuild 2 opsCreateWriteUnpinDirty).pool).pool_size_
      = (scenario debugBuild 2 opsCreateWriteUnpinDirty).pool.pool_size_ :=
  ⟨scenario_reachable (by decide), by decide,
    C24_flush_all_pages_effects debugBuild 2 (scenario debugBuild 2 opsCreateWriteUnpinDirty)
      (scenario_reachable (by decide))⟩

end db
